import Mathlib

/-!
# Subtitlarr: task guard, event log, live stream, task driver and scheduler

A shallow embedding of the Go sources of `pixelotes/subtitlarr`
(`web/server.go`, `core/subliminal.go`, `scheduler/scheduler.go`,
`config/config.go`) together with the properties proved about them.

Conventions of the embedding:

* a mutex-protected critical section is one atomic transition;
* a buffered channel is the list of its pending elements, oldest first, and
  `select { case ch <- m: default: }` is `selectSend`;
* goroutines are interleaved one atomic step at a time (`Hub.step`,
  `System.step`);
* the operating system (directory walk, `os.Stat`, the `subliminal` process)
  is an explicit environment `Env` acting on a world state.
-/

namespace Subtitlarr

/-! ## config/config.go -/

/-- Authentication data of one provider (`config.AuthConfig`). -/
structure AuthConfig where
  Username : String
  Password : String
  APIKey : String
  deriving DecidableEq, Repr

/-- Provider credentials (`config.Credentials`). -/
structure Credentials where
  Opensubtitles : AuthConfig
  Opensubtitlescom : AuthConfig
  Addic7ed : AuthConfig
  deriving DecidableEq, Repr

/-- Webhook settings (`config.NotificationConfig`). -/
structure NotificationConfig where
  Enabled : Bool
  WebhookURL : String
  NotifyOnStart : Bool
  NotifyOnCompletion : Bool
  NotifyOnErrors : Bool
  IncludeErrors : Bool
  WebhookType : String
  deriving DecidableEq, Repr

/-- Application configuration (`config.Config`); Go `int` fields are `Int`. -/
structure Config where
  SearchPaths : List String
  Languages : List String
  ScheduleEnabled : Bool
  ScheduleIntervalMinutes : Int
  Credentials : Credentials
  MinFileSizeMB : Int
  MaxConcurrentWorkers : Int
  Notifications : NotificationConfig
  deriving DecidableEq, Repr

/-- The defaults of `config.GetDefaultConfig`. -/
def GetDefaultConfig : Config where
  SearchPaths := []
  Languages := []
  ScheduleEnabled := false
  ScheduleIntervalMinutes := 60
  MinFileSizeMB := 50
  MaxConcurrentWorkers := 3
  Credentials :=
    { Opensubtitles := { Username := "", Password := "", APIKey := "" }
      Opensubtitlescom := { Username := "", Password := "", APIKey := "" }
      Addic7ed := { Username := "", Password := "", APIKey := "" } }
  Notifications :=
    { Enabled := false, WebhookURL := "", NotifyOnStart := true, NotifyOnCompletion := true,
      NotifyOnErrors := true, IncludeErrors := true, WebhookType := "auto" }

/-! ## web/server.go: channels and records -/

/-- Non-blocking channel send, `select { case ch <- m: default: }`, on a
channel of capacity `cap` whose pending elements are `ch`: the element is
appended when there is room and dropped otherwise. -/
def selectSend (cap : Nat) (ch : List String) (m : String) : List String :=
  if ch.length < cap then ch ++ [m] else ch

/-- The double-quote character. -/
def dquote : Char := Char.ofNat 34

/-- The backslash character. -/
def backslash : Char := Char.ofNat 92

/-- The call `strings.ReplaceAll(s, "\"", "\\\"")` of server.go: every
double quote is replaced by a backslash followed by a double quote. -/
def escapeQuotes (s : String) : String :=
  (s.toList.flatMap fun c => if c = dquote then [backslash, dquote] else [c]).asString

/-- The format `{"type":"<kind>","message":"<text>"}` shared by the three
`fmt.Sprintf` calls of addLog, sendProgress and sendStatus. -/
def record (kind text : String) : String :=
  "\x7b\"type\":\"" ++ kind ++ "\",\"message\":\"" ++ text ++ "\"\x7d"

/-- Capacity of `Server.messageQueue` (`make(chan string, 100)`). -/
def messageQueueCap : Nat := 100

/-- Capacity of a connection's `clientChan` (`make(chan string, 10)`). -/
def clientChanCap : Nat := 10

/-- The bound on `Server.logHistory` kept by addLog. -/
def logHistoryCap : Nat := 1000

/-- The fields of `web.Server` read or written by the modelled handlers.
`published` is a history variable (every record offered to `messageQueue`,
accepted or not, in order); no transition reads it. -/
structure Server where
  config : Config
  messageQueue : List String
  logHistory : List String
  taskRunning : Bool
  published : List String
  deriving DecidableEq, Repr

/-- The server built by `NewServer`. -/
def NewServer (cfg : Config) : Server :=
  { config := cfg, messageQueue := [], logHistory := [], taskRunning := false, published := [] }

/-- The log entry `fmt.Sprintf("[%s] %s", time.Now().Format("15:04:05"), message)`;
`now` is the formatted clock reading. -/
def logEntry (now message : String) : String :=
  "[" ++ now ++ "] " ++ message

/-- Model of `Server.addLog`: append the timestamped entry, keep the last 1000
entries, then offer the log record to the message queue. -/
def Server.addLog (s : Server) (now message : String) : Server :=
  let entry := logEntry now message
  let appended := s.logHistory ++ [entry]
  let kept := if appended.length > logHistoryCap then
      appended.drop (appended.length - logHistoryCap) else appended
  let rec_ := record "log" (escapeQuotes entry)
  { s with
    logHistory := kept
    messageQueue := selectSend messageQueueCap s.messageQueue rec_
    published := s.published ++ [rec_] }

/-- Model of `Server.sendProgress`. -/
def Server.sendProgress (s : Server) (message : String) : Server :=
  let rec_ := record "progress" message
  { s with
    messageQueue := selectSend messageQueueCap s.messageQueue rec_
    published := s.published ++ [rec_] }

/-- Model of `Server.sendStatus`. -/
def Server.sendStatus (s : Server) (message : String) : Server :=
  let rec_ := record "status" message
  { s with
    messageQueue := selectSend messageQueueCap s.messageQueue rec_
    published := s.published ++ [rec_] }

/-! ## web/server.go: downloadHandler -/

/-- What a handler wrote: the status code and the body. -/
structure Response where
  status : Nat
  body : String
  deriving DecidableEq, Repr

/-- Outcome of one call of a handler: the server afterwards, the response and
whether the handler started its background goroutine. -/
structure HandlerResult where
  server : Server
  response : Response
  started : Bool
  deriving DecidableEq, Repr

/-- The body written by `http.Error(w, msg, code)`. -/
def httpError (msg : String) (code : Nat) : Response :=
  { status := code, body := msg ++ "\n" }

/-- The constant `http.StatusMethodNotAllowed`. -/
def StatusMethodNotAllowed : Nat := 405

/-- The constant `http.StatusConflict`. -/
def StatusConflict : Nat := 409

/-- The constant `http.StatusInternalServerError`. -/
def StatusInternalServerError : Nat := 500

/-- The constant `http.StatusOK`, the code of a response written without WriteHeader. -/
def StatusOK : Nat := 200

/-- Model of `Server.downloadHandler` up to the start of the goroutine: the
method check, then the critical section on `taskMutex` that tests and sets
`taskRunning`. -/
def Server.downloadHandler (s : Server) (method : String) : HandlerResult :=
  if method ≠ "POST" then
    { server := s, response := httpError "Method not allowed" StatusMethodNotAllowed,
      started := false }
  else if s.taskRunning then
    { server := s
      response := httpError "A download task is already in progress." StatusConflict
      started := false }
  else
    { server := { s with taskRunning := true }
      response := { status := StatusOK,
                    body := "\x7b\"message\":\"Download process started.\"\x7d\n" }
      started := true }

/-- The deferred function of the background goroutine of downloadHandler:
under `taskMutex`, `taskRunning = false`. -/
def Server.taskDone (s : Server) : Server :=
  { s with taskRunning := false }

/-- One event at the Task Execution Guard: a POST to /download, or the end of
an admitted background task. -/
inductive GuardEvent where
  | attempt
  | finish
  deriving DecidableEq, Repr

/-- One guard event applied to the server: the server afterwards and, for an
attempt, whether the handler admitted it (started the task). -/
def guardStep (s : Server) : GuardEvent → Server × Option Bool
  | GuardEvent.attempt => ((s.downloadHandler "POST").server, some (s.downloadHandler "POST").started)
  | GuardEvent.finish => (s.taskDone, none)

/-- The server after a sequence of guard events. -/
def guardState : Server → List GuardEvent → Server
  | s, [] => s
  | s, e :: es => guardState (guardStep s e).1 es

/-- The outcome of every event of a sequence, position by position. -/
def guardOutcomes : Server → List GuardEvent → List (Option Bool)
  | _, [] => []
  | s, e :: es => (guardStep s e).2 :: guardOutcomes (guardStep s e).1 es

/-! ## web/server.go: streamHandler -/

/-- The frame `"data: " + message + "\n\n"` written for one record. -/
def wrapData (message : String) : String :=
  "data: " ++ message ++ "\n\n"

/-- The string sent for one history entry while a connection is set up,
`fmt.Sprintf("data: {\"type\":\"log\",\"message\":\"%s\"}"+"\n\n", escaped)`. -/
def seedRecord (entry : String) : String :=
  wrapData (record "log" (escapeQuotes entry))

/-- The loop of streamHandler over `s.logHistory`: every entry is offered to
the fresh `clientChan` with a non-blocking send. Nothing reads the channel
before the loop ends. -/
def seedClient (logHistory : List String) : List String :=
  logHistory.foldl (fun ch entry => selectSend clientChanCap ch (seedRecord entry)) []

/-- One connection served by streamHandler. `replayed` and `forwarded` are
history variables: the frames accepted by `clientChan` during the replay, and
the records accepted from the forwarding goroutine, in order. -/
structure Client where
  clientChan : List String
  written : List String
  ctxDone : Bool
  forwarderExited : Bool
  handlerReturned : Bool
  replayed : List String
  forwarded : List String
  deriving DecidableEq, Repr

/-- The server together with its open connections. -/
structure Hub where
  server : Server
  clients : List Client
  deriving DecidableEq, Repr

/-- The connection created by streamHandler for the present history. -/
def newClient (logHistory : List String) : Client :=
  { clientChan := seedClient logHistory, written := [], ctxDone := false,
    forwarderExited := false, handlerReturned := false,
    replayed := seedClient logHistory, forwarded := [] }

/-- The inner select of the forwarding goroutine for a record `m`:
`select { case clientChan <- "data: " + message + "\n\n": default: }`. -/
def Client.offer (c : Client) (m : String) : Client :=
  { c with
    clientChan := selectSend clientChanCap c.clientChan (wrapData m)
    forwarded := if c.clientChan.length < clientChanCap then c.forwarded ++ [m] else c.forwarded }

/-- The atomic steps of the server and its connections. -/
inductive HubStep where
  /-- A call of addLog with the clock reading `now`. -/
  | addLog (now message : String)
  /-- A call of sendProgress. -/
  | sendProgress (message : String)
  /-- A call of sendStatus. -/
  | sendStatus (message : String)
  /-- A new request to /stream: streamHandler up to the start of its goroutine. -/
  | connect
  /-- The goroutine of connection `i` takes `case message := <-s.messageQueue`. -/
  | forward (i : Nat)
  /-- The streaming loop of connection `i` takes `case message := <-clientChan`. -/
  | write (i : Nat)
  /-- The request context of connection `i` is cancelled. -/
  | cancel (i : Nat)
  /-- The goroutine of connection `i` takes `case <-r.Context().Done()`. -/
  | forwarderExit (i : Nat)
  /-- The streaming loop of connection `i` takes `case <-r.Context().Done()`. -/
  | handlerReturn (i : Nat)
  /-- A request to /download with the given method. -/
  | download (method : String)
  /-- The deferred function of an admitted background task runs. -/
  | taskDone
  deriving DecidableEq, Repr

/-- The step `forward i`: the head of the message queue is received by the
goroutine of connection `i` alone and offered to that connection. -/
def Hub.forward (h : Hub) (i : Nat) : Hub :=
  match h.clients[i]?, h.server.messageQueue with
  | some c, m :: rest =>
    if c.forwarderExited then h
    else { server := { h.server with messageQueue := rest }
           clients := h.clients.set i (c.offer m) }
  | _, _ => h

/-- The step `write i`: the streaming loop moves the head of `clientChan` to
the response. -/
def Hub.write (h : Hub) (i : Nat) : Hub :=
  match h.clients[i]? with
  | some c =>
    match c.clientChan with
    | m :: rest =>
      if c.handlerReturned then h
      else { h with clients := h.clients.set i { c with clientChan := rest, written := c.written ++ [m] } }
    | [] => h
  | none => h

/-- Applies `f` to connection `i` when it exists. -/
def Hub.updateClient (h : Hub) (i : Nat) (f : Client → Client) : Hub :=
  match h.clients[i]? with
  | some c => { h with clients := h.clients.set i (f c) }
  | none => h

/-- One atomic step; a step that is not enabled leaves the state unchanged. -/
def Hub.step (h : Hub) : HubStep → Hub
  | HubStep.addLog now message => { h with server := h.server.addLog now message }
  | HubStep.sendProgress message => { h with server := h.server.sendProgress message }
  | HubStep.sendStatus message => { h with server := h.server.sendStatus message }
  | HubStep.connect => { h with clients := h.clients ++ [newClient h.server.logHistory] }
  | HubStep.forward i => h.forward i
  | HubStep.write i => h.write i
  | HubStep.cancel i => h.updateClient i fun c => { c with ctxDone := true }
  | HubStep.forwarderExit i =>
    h.updateClient i fun c => if c.ctxDone then { c with forwarderExited := true } else c
  | HubStep.handlerReturn i =>
    h.updateClient i fun c => if c.ctxDone then { c with handlerReturned := true } else c
  | HubStep.download method => { h with server := (h.server.downloadHandler method).server }
  | HubStep.taskDone => { h with server := h.server.taskDone }

/-- A sequence of steps. -/
def Hub.run (h : Hub) (steps : List HubStep) : Hub :=
  steps.foldl Hub.step h

/-- The hub right after `NewServer`: no connection yet. -/
def Hub.init (cfg : Config) : Hub :=
  { server := NewServer cfg, clients := [] }

/-! ## Go library functions used by core/subliminal.go (Unix paths) -/

/-- Scans a reversed path for `filepath.Ext`: `acc` is the part already passed. -/
def extAux : List Char → List Char → List Char
  | [], _ => []
  | c :: cs, acc =>
    if c = '/' then [] else if c = '.' then c :: acc else extAux cs (c :: acc)

/-- The function `filepath.Ext`: the suffix starting at the last dot of the last path
element, empty when that element has no dot. -/
def filepathExt (path : String) : String :=
  (extAux path.toList.reverse []).asString

/-- The function `filepath.Base`: the last element of the path, trailing slashes removed;
"." for the empty path and "/" for a path of slashes only. -/
def filepathBase (path : String) : String :=
  if path = "" then "."
  else
    let stripped := (path.toList.reverse.dropWhile fun c => c = '/')
    let last := (stripped.takeWhile fun c => c ≠ '/').reverse
    if last = [] then "/" else last.asString

/-- The function `strings.TrimSuffix`. -/
def stringsTrimSuffix (s suffix : String) : String :=
  if suffix.toList.isSuffixOf s.toList then
    (s.toList.take (s.toList.length - suffix.toList.length)).asString
  else s

/-- The function `unicode.IsSpace`: the characters removed by `strings.TrimSpace`. -/
def isSpace (c : Char) : Bool :=
  let n := c.toNat
  (9 ≤ n && n ≤ 13) || n = 32 || n = 0x85 || n = 0xA0 || n = 0x1680 ||
  (0x2000 ≤ n && n ≤ 0x200A) || n = 0x2028 || n = 0x2029 || n = 0x202F ||
  n = 0x205F || n = 0x3000

/-- The function `strings.TrimSpace`. -/
def stringsTrimSpace (s : String) : String :=
  ((s.toList.dropWhile isSpace).reverse.dropWhile isSpace).reverse.asString

/-! ## core/subliminal.go -/

/-- One call made by `filepath.Walk` to its walk function: the path, whether
the file information says directory, and the error passed in (if any). -/
structure Visit where
  path : String
  isDir : Bool
  err : Option String
  deriving DecidableEq, Repr

/-- How a run of the `subliminal` command went, as seen by downloadSubtitles:
a failure of `StdoutPipe`, of `StderrPipe` or of `Start`, or a started process
with the lines read from its two pipes (in the order the readers handled them)
and the error of `cmd.Wait()`, if any. -/
inductive ExecOutcome where
  | stdoutPipeFailed (err : String)
  | stderrPipeFailed (err : String)
  | startFailed (err : String)
  | ran (lines : List String) (waitErr : Option String)
  deriving DecidableEq, Repr

/-- The operating system and library as seen by package core, over a world
state `W` (the file system):
* `walk w root`: the calls `filepath.Walk(root, fn)` makes to `fn` as long as
  `fn` returns nil;
* `statNotExist w p`: `os.IsNotExist(err)` for the `err` of `os.Stat(p)`;
* `exec w args`: running `subliminal args...`, giving the world afterwards and
  the outcome;
* `toLower`: `strings.ToLower`. -/
structure Env (W : Type) where
  walk : W → String → List Visit
  statNotExist : W → String → Bool
  exec : W → List String → W × ExecOutcome
  toLower : String → String

/-- Observable actions of one run of RunDownloader, in order. -/
inductive Event where
  /-- The call `statusCallback(message, eventType)`. -/
  | callback (message eventType : String)
  /-- The call `notifications.SendNotification(notifCfg, eventType, message)`. -/
  | notification (eventType message : String)
  /-- The call `downloadSubtitles(videoPath, languages, ...)`; `args` is the
  argument list it gives to `exec.Command("subliminal", args...)`. -/
  | invoke (videoPath : String) (languages : List String) (args : List String)
  /-- The call of downloadSubtitles for `videoPath` returned `err`. -/
  | returned (videoPath : String) (err : Option String)
  deriving DecidableEq, Repr

/-- The function `filepath.Walk` over the visits the environment gives: `fn` is called for
each visit in turn with the accumulated state; the first error returned by `fn`
ends the walk and is returned. -/
def filepathWalk {σ : Type} (fn : σ → Visit → σ × Option String) :
    List Visit → σ → σ × Option String
  | [], acc => (acc, none)
  | v :: vs, acc =>
    match fn acc v with
    | (acc1, some err) => (acc1, some err)
    | (acc1, none) => filepathWalk fn vs acc1

/-- The walk function of scanVideos: an access error is logged and ignored, a
directory is passed over, a file whose lower-cased extension is one of
`extensions` is appended; it always returns nil. -/
def scanVisit {W : Type} (env : Env W) (extensions : List String)
    (videoFiles : List String) (v : Visit) : List String × Option String :=
  if v.err.isSome then (videoFiles, none)
  else if v.isDir then (videoFiles, none)
  else if extensions.any fun validExt => env.toLower (filepathExt v.path) == env.toLower validExt
  then (videoFiles ++ [v.path], none)
  else (videoFiles, none)

/-- The loop of scanVideos over the folders, with the files found so far. -/
def scanFolders {W : Type} (env : Env W) (w : W) (extensions : List String) :
    List String → List String → Except String (List String)
  | [], videoFiles => Except.ok videoFiles
  | folder :: rest, videoFiles =>
    match filepathWalk (scanVisit env extensions) (env.walk w folder) videoFiles with
    | (_, some err) => Except.error err
    | (found, none) => scanFolders env w extensions rest found

/-- Model of `scanVideos`. -/
def scanVideos {W : Type} (env : Env W) (w : W) (folders extensions : List String) :
    Except String (List String) :=
  scanFolders env w extensions folders []

/-- The extension list RunDownloader passes to scanVideos. -/
def videoExtensions : List String := [".mp4", ".mkv", ".avi", ".m4v", ".ts"]

/-- A Go `map[string]string` as an association list; a missing key reads "". -/
def mapGet (m : List (String × String)) (key : String) : String :=
  (m.lookup key).getD ""

/-- The argument list built by downloadSubtitles. -/
def subliminalArgs (videoPath : String) (languages : List String)
    (credentials : List (String × List (String × String))) : List String :=
  let a1 : List String :=
    match credentials.lookup "opensubtitles" with
    | some creds =>
      if mapGet creds "username" ≠ "" then
        ["--provider.opensubtitles.username", mapGet creds "username",
         "--provider.opensubtitles.password", mapGet creds "password"]
      else []
    | none => []
  let a2 : List String :=
    match credentials.lookup "opensubtitlescom" with
    | some creds =>
      (if mapGet creds "username" ≠ "" then
        ["--provider.opensubtitlescom.username", mapGet creds "username",
         "--provider.opensubtitlescom.password", mapGet creds "password"]
       else []) ++
      (if mapGet creds "api_key" ≠ "" then
        ["--provider.opensubtitlescom.apikey", mapGet creds "api_key"]
       else [])
    | none => []
  let a3 : List String :=
    match credentials.lookup "addic7ed" with
    | some creds =>
      if mapGet creds "username" ≠ "" then
        ["--provider.addic7ed.username", mapGet creds "username",
         "--provider.addic7ed.password", mapGet creds "password"]
      else []
    | none => []
  a1 ++ a2 ++ a3 ++ ["download"] ++ (languages.flatMap fun lang => ["-l", lang]) ++
    ["--force-external-subtitles"] ++ [videoPath]

/-- The callbacks of the two pipe readers of downloadSubtitles: each line is
trimmed and, when not empty and the callback is not nil, sent as a log. -/
def lineEvents (cb : Bool) (lines : List String) : List Event :=
  lines.filterMap fun line =>
    if stringsTrimSpace line ≠ "" ∧ cb = true then
      some (Event.callback (stringsTrimSpace line) "log")
    else none

/-- Result of one call of downloadSubtitles. -/
structure DownloadResult (W : Type) where
  world : W
  events : List Event
  err : Option String

/-- Model of `downloadSubtitles`; `cb` says whether `statusCallback` is non-nil. -/
def downloadSubtitles {W : Type} (env : Env W) (w : W) (videoPath : String)
    (languages : List String) (credentials : List (String × List (String × String)))
    (cb : Bool) : DownloadResult W :=
  let args := subliminalArgs videoPath languages credentials
  let call := Event.invoke videoPath languages args
  match env.exec w args with
  | (w1, ExecOutcome.stdoutPipeFailed e) =>
    { world := w1, events := [call], err := some ("failed to create stdout pipe: " ++ e) }
  | (w1, ExecOutcome.stderrPipeFailed e) =>
    { world := w1, events := [call], err := some ("failed to create stderr pipe: " ++ e) }
  | (w1, ExecOutcome.startFailed e) =>
    { world := w1, events := [call], err := some ("failed to start subliminal: " ++ e) }
  | (w1, ExecOutcome.ran lines waitErr) =>
    { world := w1, events := call :: lineEvents cb lines
      err := waitErr.map fun e => "subliminal failed: " ++ e }

/-- The subtitle file RunDownloader looks for:
`strings.TrimSuffix(videoPath, filepath.Ext(videoPath)) + "." + lang + ".srt"`. -/
def expectedSubtitle (videoPath lang : String) : String :=
  stringsTrimSuffix videoPath (filepathExt videoPath) ++ "." ++ lang ++ ".srt"

/-- The languages RunDownloader finds missing for a video in world `w`. -/
def missingLanguages {W : Type} (env : Env W) (w : W) (videoPath : String)
    (languages : List String) : List String :=
  languages.filter fun lang => env.statNotExist w (expectedSubtitle videoPath lang)

/-- The progress text `fmt.Sprintf("%d/%d", i, totalVideos)`. -/
def progressText (i totalVideos : Nat) : String :=
  toString i ++ "/" ++ toString totalVideos

/-- The summary text of RunDownloader. -/
def summaryText (downloadedCount errorCount : Nat) : String :=
  "Scan and download finished. Downloaded subtitles for " ++ toString downloadedCount ++
    " file(s), with " ++ toString errorCount ++ " error(s)."

/-- State at the end of the loop of RunDownloader, with the events of the loop. -/
structure LoopResult (W : Type) where
  world : W
  downloadedCount : Nat
  errorCount : Nat
  events : List Event

/-- The loop `for i, videoPath := range videoFiles` of RunDownloader, from
index `i` with the remaining files and the current counters. -/
def processVideos {W : Type} (env : Env W) (languages : List String)
    (credentials : List (String × List (String × String))) (cb : Bool) (totalVideos : Nat) :
    List String → Nat → W → Nat → Nat → LoopResult W
  | [], _, w, downloadedCount, errorCount =>
    { world := w, downloadedCount := downloadedCount, errorCount := errorCount, events := [] }
  | videoPath :: rest, i, w, downloadedCount, errorCount =>
    let head : List Event :=
      if cb then
        [Event.callback ("Processing: " ++ filepathBase videoPath) "log",
         Event.callback (progressText (i + 1) totalVideos) "progress"]
      else []
    let missing := missingLanguages env w videoPath languages
    if missing.length = 0 then
      let r := processVideos env languages credentials cb totalVideos rest (i + 1) w
        downloadedCount errorCount
      { r with events := head ++ r.events }
    else
      let d := downloadSubtitles env w videoPath missing credentials cb
      match d.err with
      | some err =>
        let r := processVideos env languages credentials cb totalVideos rest (i + 1) d.world
          downloadedCount (errorCount + 1)
        { r with events := head ++ d.events ++ [Event.returned videoPath (some err)] ++
            (if cb then
              [Event.callback ("ERROR processing " ++ filepathBase videoPath ++ ": " ++ err) "log"]
             else []) ++ r.events }
      | none =>
        let r := processVideos env languages credentials cb totalVideos rest (i + 1) d.world
          (downloadedCount + 1) errorCount
        { r with events := head ++ d.events ++ [Event.returned videoPath none] ++ r.events }

/-- Model of `RunDownloader`: the world afterwards and the events of the run.
`cb` says whether `statusCallback` is non-nil. -/
def RunDownloader {W : Type} (env : Env W) (w : W) (paths languages : List String)
    (credentials : List (String × List (String × String))) (cb : Bool) : W × List Event :=
  let start : List Event :=
    (if cb then [Event.callback "Starting scan and download process..." "log"] else []) ++
    [Event.notification "start" "Download process started."]
  match scanVideos env w paths videoExtensions with
  | Except.error err =>
    let errorMsg := "Error scanning videos: " ++ err
    (w, start ++ (if cb then [Event.callback errorMsg "log"] else []) ++
      [Event.notification "error" errorMsg])
  | Except.ok videoFiles =>
    let totalVideos := videoFiles.length
    let r := processVideos env languages credentials cb totalVideos videoFiles 0 w 0 0
    let summary := summaryText r.downloadedCount r.errorCount
    (r.world, start ++
      (if cb then [Event.callback (progressText 0 totalVideos) "progress"] else []) ++
      r.events ++
      (if cb then [Event.callback summary "log", Event.callback "finished" "status"] else []) ++
      [Event.notification "completion" summary])

/-- The texts of the callbacks of one kind, in order. -/
def messagesOfKind (kind : String) (events : List Event) : List String :=
  events.filterMap fun
    | Event.callback message eventType => if eventType = kind then some message else none
    | _ => none

/-- The calls of downloadSubtitles of a run, in order: video and languages. -/
def invocations (events : List Event) : List (String × List String) :=
  events.filterMap fun
    | Event.invoke videoPath languages _ => some (videoPath, languages)
    | _ => none

/-- The results returned by the calls of downloadSubtitles of a run, in order. -/
def returns (events : List Event) : List (Option String) :=
  events.filterMap fun
    | Event.returned _ err => some err
    | _ => none

/-! ## web/server.go: the background task of downloadHandler -/

/-- The status callback downloadHandler gives to RunDownloader: a log goes to
addLog, a progress to sendProgress, a status to sendStatus, any other kind is
ignored. `now` is the clock reading used when the message is a log. -/
def Server.statusCallback (s : Server) (now message eventType : String) : Server :=
  if eventType = "log" then s.addLog now message
  else if eventType = "progress" then s.sendProgress message
  else if eventType = "status" then s.sendStatus message
  else s

/-- The credentials map built by downloadHandler (and by runScheduledTask)
from the configuration. -/
def credentialsOf (cfg : Config) : List (String × List (String × String)) :=
  [("opensubtitles",
      [("username", cfg.Credentials.Opensubtitles.Username),
       ("password", cfg.Credentials.Opensubtitles.Password)]),
   ("opensubtitlescom",
      [("username", cfg.Credentials.Opensubtitlescom.Username),
       ("password", cfg.Credentials.Opensubtitlescom.Password),
       ("api_key", cfg.Credentials.Opensubtitlescom.APIKey)]),
   ("addic7ed",
      [("username", cfg.Credentials.Addic7ed.Username),
       ("password", cfg.Credentials.Addic7ed.Password)])]

/-- The callbacks of a run applied to the server in order; `clock k` is the
clock reading at the `k`-th callback. -/
def Server.deliver (clock : Nat → String) : Server → Nat → List Event → Server
  | s, _, [] => s
  | s, k, Event.callback message eventType :: rest =>
    Server.deliver clock (s.statusCallback (clock k) message eventType) (k + 1) rest
  | s, k, _ :: rest => Server.deliver clock s k rest

/-- Model of the goroutine started by downloadHandler, run to its end with no
other step in between: the start log, the run of RunDownloader with the
server's callback, the finish log, then the deferred reset of `taskRunning`.
`start` and `finish` are the clock readings of the two logs. -/
def Server.backgroundTask {W : Type} (s : Server) (env : Env W) (w : W)
    (start finish : String) (clock : Nat → String) : Server × W :=
  let s1 := s.addLog start "--- BACKGROUND TASK STARTED ---"
  let r := RunDownloader env w s.config.SearchPaths s.config.Languages
    (credentialsOf s.config) true
  let s2 := Server.deliver clock s1 0 r.2
  ((s2.addLog finish "--- BACKGROUND TASK FINISHED ---").taskDone, r.1)

/-- The invocations of a run as described with existence read when a file is
reached: going through the scanned files in order, a file is invoked with its
missing languages (those of `languages`, in order, whose subtitle file does
not exist at that moment) when there is at least one, and passed over
otherwise. `notExist w p` says that `p` does not exist in world `w`;
`effect w f ls` is the world after the tool ran for file `f` and languages
`ls`. The success or failure of an invocation is no input. -/
def expectedInvocations {W : Type} (notExist : W → String → Bool)
    (effect : W → String → List String → W) (languages : List String) :
    List String → W → List (String × List String)
  | [], _ => []
  | f :: rest, w =>
    if (languages.filter fun lang => notExist w (expectedSubtitle f lang)) = [] then
      expectedInvocations notExist effect languages rest w
    else
      (f, languages.filter fun lang => notExist w (expectedSubtitle f lang)) ::
        expectedInvocations notExist effect languages rest
          (effect w f (languages.filter fun lang => notExist w (expectedSubtitle f lang)))

/-- Number of calls of downloadSubtitles of a run that returned nil. -/
def successes (events : List Event) : Nat :=
  (returns events).countP fun r => r.isNone

/-- Number of calls of downloadSubtitles of a run that returned an error. -/
def failures (events : List Event) : Nat :=
  (returns events).countP fun r => r.isSome

/-- ASCII lower-casing, the `strings.ToLower` of the example environment. -/
def asciiLower (s : String) : String :=
  (s.toList.map Char.toLower).asString

/-- Example environment; the world is the list of existing subtitle files.
The folder /m holds A.mkv, B.MP4, C.avi and notes.txt; any other root cannot
be read. The tool succeeds for A.mkv (creating /m/A.en.srt) and fails for
every other video. -/
def demoEnv : Env (List String) where
  walk := fun _ root =>
    if root = "/m" then
      [{ path := "/m", isDir := true, err := none },
       { path := "/m/A.mkv", isDir := false, err := none },
       { path := "/m/B.MP4", isDir := false, err := none },
       { path := "/m/C.avi", isDir := false, err := none },
       { path := "/m/notes.txt", isDir := false, err := none }]
    else [{ path := root, isDir := false, err := some "no such file or directory" }]
  statNotExist := fun w p => !(w.contains p)
  exec := fun w args =>
    if args.getLast? = some "/m/A.mkv" then
      ("/m/A.en.srt" :: w, ExecOutcome.ran ["Downloaded 1 subtitle\n", "  \n"] none)
    else (w, ExecOutcome.ran ["boom\n"] (some "exit status 1"))
  toLower := asciiLower

/-- Example world: only C.avi has its English subtitle. -/
def demoWorld : List String := ["/m/C.en.srt"]

/-! ## scheduler/scheduler.go -/

/-- A `time.Ticker`: its period in nanoseconds and whether it still fires
(`Stop` has not been called on it). -/
structure Ticker where
  period : Int
  active : Bool
  deriving DecidableEq, Repr

/-- Where a goroutine started by UpdateSchedule stands in its loop. -/
inductive WorkerState where
  /-- About to evaluate `s.ticker.C` and enter the select. -/
  | atLoopHead
  /-- Blocked in the select on the channel of ticker `id` and on `stopChan`. -/
  | waiting (id : Nat)
  /-- Inside `runScheduledTask(cfg)`, that is inside `core.RunDownloader`. -/
  | runningTask
  /-- Returned after `case <-s.stopChan`. -/
  | exited
  /-- Panicked on `s.ticker.C` with `s.ticker == nil`. -/
  | crashed
  deriving DecidableEq, Repr

/-- A goroutine started by UpdateSchedule, with the configuration it captured. -/
structure Worker where
  cfg : Config
  state : WorkerState
  deriving DecidableEq, Repr

/-- Model of `scheduler.Scheduler`. `tickers` holds every ticker created so
far (a pointer is an index into it), `ticker` is the field of that name,
`stopClosed` says whether `stopChan` has been closed, `runWaiting` counts the
calls of `Run` blocked on `stopChan`, `workers` are the goroutines started by
UpdateSchedule. -/
structure Scheduler where
  tickers : List Ticker
  ticker : Option Nat
  stopClosed : Bool
  running : Bool
  runWaiting : Nat
  workers : List Worker
  deriving DecidableEq, Repr

/-- The scheduler built by `NewScheduler`. -/
def NewScheduler : Scheduler :=
  { tickers := [], ticker := none, stopClosed := false, running := false, runWaiting := 0,
    workers := [] }

/-- Two-complement wrap-around of a 64-bit signed integer. -/
def wrapInt64 (x : Int) : Int :=
  (x + 2 ^ 63) % 2 ^ 64 - 2 ^ 63

/-- The constant `time.Minute` in nanoseconds. -/
def timeMinute : Int := 60000000000

/-- The expression `time.Duration(interval) * time.Minute` on int64. -/
def tickerPeriod (interval : Int) : Int :=
  wrapInt64 (interval * timeMinute)

/-- The call `ticker.Stop()` on the ticker with index `id`. -/
def stopTicker (tickers : List Ticker) (id : Nat) : List Ticker :=
  match tickers[id]? with
  | some t => tickers.set id { t with active := false }
  | none => tickers

/-- Number of tickers that still fire. -/
def activeTimers (s : Scheduler) : Nat :=
  (s.tickers.filter fun t => t.active).length

/-- The first part of UpdateSchedule: stop the installed ticker, if any, and
set the field to nil. -/
def Scheduler.stopExisting (s : Scheduler) : Scheduler :=
  match s.ticker with
  | some id => { s with tickers := stopTicker s.tickers id, ticker := none }
  | none => s

/-- Model of `UpdateSchedule`: the scheduler afterwards and the panic message
when the call panicked. `time.NewTicker(d)` panics for `d <= 0`. -/
def UpdateSchedule (s : Scheduler) (cfg : Config) : Scheduler × Option String :=
  let s1 := s.stopExisting
  if ¬ cfg.ScheduleEnabled then (s1, none)
  else if cfg.ScheduleIntervalMinutes ≤ 0 then (s1, none)
  else if tickerPeriod cfg.ScheduleIntervalMinutes ≤ 0 then
    (s1, some "non-positive interval for NewTicker")
  else
    ({ s1 with
        tickers := s1.tickers ++
          [{ period := tickerPeriod cfg.ScheduleIntervalMinutes, active := true }]
        ticker := some s1.tickers.length
        workers := s1.workers ++ [{ cfg := cfg, state := WorkerState.atLoopHead }] }, none)

/-- A sequence of reconfigurations; a panicking call keeps the state it
reached (the deferred unlock runs) and the sequence goes on. -/
def updateAll (s : Scheduler) (cfgs : List Config) : Scheduler :=
  cfgs.foldl (fun s1 cfg => (UpdateSchedule s1 cfg).1) s

/-- The largest interval in minutes whose period in nanoseconds fits int64. -/
def maxIntervalMinutes : Int := 153722867

/-- Model of the entry of `Scheduler.Run`: return at once when already running,
else set `running` and block on `stopChan`. -/
def Scheduler.runEnter (s : Scheduler) : Scheduler :=
  if s.running then s else { s with running := true, runWaiting := s.runWaiting + 1 }

/-- Model of the end of `Scheduler.Run`: once `stopChan` is closed a blocked
call wakes up and stops the installed ticker, if any. -/
def Scheduler.runWake (s : Scheduler) : Scheduler :=
  if s.stopClosed ∧ 0 < s.runWaiting then
    match s.ticker with
    | some id => { s with runWaiting := s.runWaiting - 1, tickers := stopTicker s.tickers id }
    | none => { s with runWaiting := s.runWaiting - 1 }
  else s

/-- Model of `Scheduler.Stop`: nothing when not running; else clear `running`
and close `stopChan`, which panics when the channel is closed already. -/
def Scheduler.Stop (s : Scheduler) : Scheduler × Option String :=
  if ¬ s.running then (s, none)
  else if s.stopClosed then ({ s with running := false }, some "close of closed channel")
  else ({ s with running := false, stopClosed := true }, none)

/-- Sets the state of worker `j`. -/
def Scheduler.setWorker (s : Scheduler) (j : Nat) (st : WorkerState) : Scheduler :=
  match s.workers[j]? with
  | some wk => { s with workers := s.workers.set j { wk with state := st } }
  | none => s

/-- Worker `j` evaluates `s.ticker.C` at the head of its loop. -/
def Scheduler.workerEnter (s : Scheduler) (j : Nat) : Scheduler :=
  match s.workers[j]? with
  | some wk =>
    if wk.state = WorkerState.atLoopHead then
      match s.ticker with
      | some id => s.setWorker j (WorkerState.waiting id)
      | none => s.setWorker j WorkerState.crashed
    else s
  | none => s

/-- Whether worker `j` can take `case <-s.ticker.C`: it waits on a ticker that
still fires. -/
def Scheduler.canTick (s : Scheduler) (j : Nat) : Bool :=
  match s.workers[j]? with
  | some wk =>
    match wk.state with
    | WorkerState.waiting id =>
      match s.tickers[id]? with
      | some t => t.active
      | none => false
    | _ => false
  | none => false

/-- Worker `j` takes `case <-s.ticker.C` and calls `runScheduledTask(cfg)`,
which calls `core.RunDownloader` at once. -/
def Scheduler.tick (s : Scheduler) (j : Nat) : Scheduler :=
  if s.canTick j then s.setWorker j WorkerState.runningTask else s

/-- The call `runScheduledTask(cfg)` of worker `j` returns. -/
def Scheduler.taskReturn (s : Scheduler) (j : Nat) : Scheduler :=
  match s.workers[j]? with
  | some wk =>
    if wk.state = WorkerState.runningTask then s.setWorker j WorkerState.atLoopHead else s
  | none => s

/-- Worker `j` takes `case <-s.stopChan` and returns. -/
def Scheduler.workerStop (s : Scheduler) (j : Nat) : Scheduler :=
  match s.workers[j]? with
  | some wk =>
    match wk.state with
    | WorkerState.waiting _ => if s.stopClosed then s.setWorker j WorkerState.exited else s
    | _ => s
  | none => s

/-- Number of runs of RunDownloader in progress inside scheduler goroutines. -/
def Scheduler.scheduledRuns (s : Scheduler) : Nat :=
  (s.workers.filter fun wk => wk.state = WorkerState.runningTask).length

/-! ## The whole process: web server and scheduler -/

/-- The server, the scheduler and the number of background goroutines of
downloadHandler that are inside `core.RunDownloader`. -/
structure System where
  server : Server
  sched : Scheduler
  manualRuns : Nat
  deriving DecidableEq, Repr

/-- The triggers and completions of the process. -/
inductive SystemStep where
  /-- A POST to /config accepted by configHandler with this configuration. -/
  | configure (cfg : Config)
  /-- A request to /download with the given method. -/
  | download (method : String)
  /-- A background task of downloadHandler ends (its deferred function runs). -/
  | manualDone
  /-- Scheduler goroutine `j` enters its select. -/
  | workerEnter (j : Nat)
  /-- The timer fires for scheduler goroutine `j`. -/
  | tick (j : Nat)
  /-- The scheduled task of goroutine `j` ends. -/
  | taskReturn (j : Nat)
  deriving DecidableEq, Repr

/-- One step of the process; a step that is not enabled changes nothing. -/
def System.step (y : System) : SystemStep → System
  | SystemStep.configure cfg =>
    { y with server := { y.server with config := cfg }, sched := (UpdateSchedule y.sched cfg).1 }
  | SystemStep.download method =>
    { y with
      server := (y.server.downloadHandler method).server
      manualRuns := if (y.server.downloadHandler method).started then y.manualRuns + 1
                    else y.manualRuns }
  | SystemStep.manualDone =>
    if 0 < y.manualRuns then
      { y with server := y.server.taskDone, manualRuns := y.manualRuns - 1 }
    else y
  | SystemStep.workerEnter j => { y with sched := y.sched.workerEnter j }
  | SystemStep.tick j => { y with sched := y.sched.tick j }
  | SystemStep.taskReturn j => { y with sched := y.sched.taskReturn j }

/-- A sequence of steps of the process. -/
def System.run (y : System) (steps : List SystemStep) : System :=
  steps.foldl System.step y

/-- The process as `main` sets it up: scheduler configured from `cfg`, fresh
server. -/
def System.init (cfg : Config) : System :=
  { server := NewServer cfg, sched := (UpdateSchedule NewScheduler cfg).1, manualRuns := 0 }

/-- Number of runs of RunDownloader in progress. -/
def System.activeRuns (y : System) : Nat :=
  y.manualRuns + y.sched.scheduledRuns

/-- A configuration with the schedule enabled every 60 minutes. -/
def hourlyConfig : Config :=
  { GetDefaultConfig with ScheduleEnabled := true, ScheduleIntervalMinutes := 60 }

/-- An enabled schedule whose interval in nanoseconds exceeds int64. -/
def overflowConfig : Config :=
  { GetDefaultConfig with ScheduleEnabled := true, ScheduleIntervalMinutes := 153722868 }

/-- The scheduler holds at most the installed ticker as a firing ticker. -/
def Scheduler.TimersOk (s : Scheduler) : Prop :=
  (∀ (k : Nat) (t : Ticker), s.tickers[k]? = some t → t.active = true → s.ticker = some k) ∧
  (∀ id : Nat, s.ticker = some id → id < s.tickers.length)

/-- The scheduler after a call of UpdateSchedule that installs a ticker. -/
def Scheduler.installed (s : Scheduler) (cfg : Config) : Scheduler :=
  { s.stopExisting with
    tickers := s.stopExisting.tickers ++
      [{ period := tickerPeriod cfg.ScheduleIntervalMinutes, active := true }]
    ticker := some s.stopExisting.tickers.length
    workers := s.stopExisting.workers ++ [{ cfg := cfg, state := WorkerState.atLoopHead }] }

/-! ## Properties of the stream kept by every step -/

/-- What holds of a connection in every reachable state: its channel is within
capacity, what it wrote followed by what is pending is the replayed frames
followed by the frames of the forwarded records, and the forwarded records
followed by the records still in the message queue are a subsequence of the
published records. -/
def Client.Ok (c : Client) (s : Server) : Prop :=
  c.clientChan.length ≤ clientChanCap ∧
  c.written ++ c.clientChan = c.replayed ++ c.forwarded.map wrapData ∧
  (c.forwarded ++ s.messageQueue).Sublist s.published

/-- What holds of the hub in every reachable state. -/
def Hub.Ok (h : Hub) : Prop :=
  h.server.messageQueue.length ≤ messageQueueCap ∧
  h.server.messageQueue.Sublist h.server.published ∧
  ∀ c ∈ h.clients, c.Ok h.server

/-- Eleven log calls followed by a new stream connection. -/
def elevenLogsThenConnect : List HubStep :=
  [HubStep.addLog "12:00:01" "m1", HubStep.addLog "12:00:02" "m2",
   HubStep.addLog "12:00:03" "m3", HubStep.addLog "12:00:04" "m4",
   HubStep.addLog "12:00:05" "m5", HubStep.addLog "12:00:06" "m6",
   HubStep.addLog "12:00:07" "m7", HubStep.addLog "12:00:08" "m8",
   HubStep.addLog "12:00:09" "m9", HubStep.addLog "12:00:10" "m10",
   HubStep.addLog "12:00:11" "m11", HubStep.connect]

/-- Two connections on an empty history, then one progress message. -/
def twoClientsOneMessage : List HubStep :=
  [HubStep.connect, HubStep.connect, HubStep.sendProgress "1/2"]

/-- A log call while nobody is connected, then a connection whose goroutine
forwards the waiting record and whose loop writes both frames. -/
def logThenConnect : List HubStep :=
  [HubStep.addLog "12:00:00" "hello", HubStep.connect, HubStep.forward 0, HubStep.write 0,
   HubStep.write 0]

/-- The connection at the end of `logThenConnect`. -/
def logThenConnectClient : Client :=
  { clientChan := []
    written := [wrapData (record "log" "[12:00:00] hello"),
                wrapData (record "log" "[12:00:00] hello")]
    ctxDone := false, forwarderExited := false, handlerReturned := false
    replayed := [wrapData (record "log" "[12:00:00] hello")]
    forwarded := [record "log" "[12:00:00] hello"] }

/-! ## scheduler/scheduler.go: the scheduler as a state machine -/

/-- The atomic steps of a scheduler: the calls of its API and the moves of its
goroutines. -/
inductive SchedStep where
  /-- A call of `UpdateSchedule(s, cfg)`. -/
  | update (cfg : Config)
  /-- A call of `s.Run()` reaches the wait on `stopChan` (or returns at once). -/
  | runEnter
  /-- A call of `s.Run()` blocked on `stopChan` wakes up and does its cleanup. -/
  | runWake
  /-- A call of `s.Stop()`. -/
  | stop
  /-- Goroutine `j` of UpdateSchedule enters its select. -/
  | workerEnter (j : Nat)
  /-- The timer fires for goroutine `j`. -/
  | tick (j : Nat)
  /-- The scheduled task of goroutine `j` ends. -/
  | taskReturn (j : Nat)
  /-- Goroutine `j` takes the stop case and returns. -/
  | workerStop (j : Nat)
  deriving DecidableEq, Repr

/-- One step of the scheduler; a step that is not enabled changes nothing, a
panicking call keeps the state it reached. -/
def Scheduler.step (s : Scheduler) : SchedStep → Scheduler
  | SchedStep.update cfg => (UpdateSchedule s cfg).1
  | SchedStep.runEnter => s.runEnter
  | SchedStep.runWake => s.runWake
  | SchedStep.stop => s.Stop.1
  | SchedStep.workerEnter j => s.workerEnter j
  | SchedStep.tick j => s.tick j
  | SchedStep.taskReturn j => s.taskReturn j
  | SchedStep.workerStop j => s.workerStop j

/-- A sequence of steps of the scheduler. -/
def Scheduler.runSteps (s : Scheduler) (steps : List SchedStep) : Scheduler :=
  steps.foldl Scheduler.step s

/-- What holds of every scheduler reached from `NewScheduler`: at most the
installed ticker fires, and while the scheduler is running with its stop
channel open a call of `Run` is blocked on the channel. -/
def Scheduler.Ok (s : Scheduler) : Prop :=
  s.TimersOk ∧ (s.running = true → s.stopClosed = false → 0 < s.runWaiting)

/-- An armed scheduler on which `Run` was never called: configured hourly, its
goroutine waiting for the first tick. -/
def armedNotRunning : Scheduler :=
  NewScheduler.runSteps [SchedStep.update hourlyConfig, SchedStep.workerEnter 0]

/-- An armed scheduler as `main` sets it up: configured hourly, `Run` blocked
on the stop channel, the goroutine waiting for the first tick. -/
def armedRunning : Scheduler :=
  NewScheduler.runSteps
    [SchedStep.update hourlyConfig, SchedStep.runEnter, SchedStep.workerEnter 0]

/-- A scheduler on which `Run` was called again after a `Stop`. -/
def restartedAfterStop : Scheduler :=
  NewScheduler.runSteps
    [SchedStep.runEnter, SchedStep.stop, SchedStep.runWake, SchedStep.runEnter]

/-- Whether a step is a reconfiguration (a call of UpdateSchedule). -/
def SchedStep.isUpdate : SchedStep → Bool
  | SchedStep.update _ => true
  | _ => false

/-- No ticker of the scheduler fires any more. -/
def Scheduler.AllStopped (s : Scheduler) : Prop :=
  ∀ (k : Nat) (t : Ticker), s.tickers[k]? = some t → t.active = false

/-! ## Reading a stream record -/

/-- Whether every double quote of the characters is directly preceded by a
backslash; `prev` is the character before the first one, if any. -/
def quotesEscapedFrom : Option Char → List Char → Bool
  | _, [] => true
  | prev, c :: cs =>
    (if c = dquote then decide (prev = some backslash) else true) && quotesEscapedFrom (some c) cs

/-- Whether every double quote of the text embedded in a record is directly
preceded by a backslash. -/
def quotesEscaped (embedded : String) : Bool :=
  quotesEscapedFrom none embedded.toList

/-- The characters a JSON reader takes as a string value, given the
characters after the opening quote: a backslash takes the next character with
it, the first double quote that is not taken this way ends the value. -/
def scanValue : List Char → List Char
  | [] => []
  | [c] => if c = dquote then [] else [c]
  | c :: d :: rest =>
    if c = dquote then []
    else if c = backslash then c :: d :: scanValue rest
    else c :: scanValue (d :: rest)

/-- The message value a JSON reader takes from the record
`record kind embedded`: what `scanValue` reads from the embedded text followed
by the closing quote and brace of the record. -/
def messageValueRead (embedded : String) : String :=
  (scanValue (embedded.toList ++ "\"\x7d".toList)).asString

/-- The calls of SendNotification of a run, in order: event type and message. -/
def notifications (events : List Event) : List (String × String) :=
  events.filterMap fun
    | Event.notification eventType message => some (eventType, message)
    | _ => none

/-- The visit `filepath.Walk` makes for the root /missing of the example
environment: `os.Lstat` failed. -/
def missingRootVisit : Visit :=
  { path := "/missing", isDir := false, err := some "no such file or directory" }

/-! ## The command line of the subliminal tool, from its description -/

/-- The value `credentials[provider][key]` of the credentials map, "" when
the provider or the key is absent. -/
def credential (credentials : List (String × List (String × String)))
    (provider key : String) : String :=
  match credentials.lookup provider with
  | some creds =>
    match creds.lookup key with
    | some value => value
    | none => ""
  | none => ""

/-- The username and password flags of a provider: present if and only if its
username is not empty. -/
def userPasswordFlags (credentials : List (String × List (String × String)))
    (provider : String) : List String :=
  if credential credentials provider "username" ≠ "" then
    ["--provider." ++ provider ++ ".username", credential credentials provider "username",
     "--provider." ++ provider ++ ".password", credential credentials provider "password"]
  else []

/-- The apikey flag of opensubtitlescom: present if and only if its api_key is
not empty. -/
def apikeyFlags (credentials : List (String × List (String × String))) : List String :=
  if credential credentials "opensubtitlescom" "api_key" ≠ "" then
    ["--provider.opensubtitlescom.apikey", credential credentials "opensubtitlescom" "api_key"]
  else []

/-- The argument list as described: the credential flags of opensubtitles,
opensubtitlescom and addic7ed in this order, then "download", one "-l" pair per
language in the given order, "--force-external-subtitles", and the video path
last. -/
def expectedArgs (videoPath : String) (languages : List String)
    (credentials : List (String × List (String × String))) : List String :=
  userPasswordFlags credentials "opensubtitles" ++
  (userPasswordFlags credentials "opensubtitlescom" ++ apikeyFlags credentials) ++
  userPasswordFlags credentials "addic7ed" ++
  ["download"] ++
  (languages.flatMap fun lang => ["-l", lang]) ++
  ["--force-external-subtitles"] ++
  [videoPath]

/-- A configuration with credentials for all three providers. -/
def fullCredentialsConfig : Config :=
  { GetDefaultConfig with
    Credentials :=
      { Opensubtitles := { Username := "u1", Password := "p1", APIKey := "" }
        Opensubtitlescom := { Username := "u2", Password := "p2", APIKey := "k2" }
        Addic7ed := { Username := "u3", Password := "", APIKey := "" } } }

/-- Example credentials: opensubtitles with a username and a password,
opensubtitlescom with an api key but an empty username, addic7ed absent. -/
def demoCredentials : List (String × List (String × String)) :=
  [("opensubtitles", [("username", "u"), ("password", "p")]),
   ("opensubtitlescom", [("username", ""), ("password", "q"), ("api_key", "k")])]

/-- Example environment with twin videos: the folder /t holds x.avi and
x.mkv, which share the subtitle file /t/x.en.srt; every root can be read; the
tool succeeds and writes /t/x.en.srt. -/
def twinEnv : Env (List String) where
  walk := fun _ root =>
    [{ path := root, isDir := true, err := none },
     { path := root ++ "/x.avi", isDir := false, err := none },
     { path := root ++ "/x.mkv", isDir := false, err := none }]
  statNotExist := fun w p => !(w.contains p)
  exec := fun w _ => ("/t/x.en.srt" :: w, ExecOutcome.ran [] none)
  toLower := asciiLower

/-- The environment of `twinEnv` with a tool that fails and writes nothing. -/
def twinFailEnv : Env (List String) where
  walk := twinEnv.walk
  statNotExist := twinEnv.statNotExist
  exec := fun w _ => (w, ExecOutcome.ran [] (some "exit status 1"))
  toLower := asciiLower

/-! ## The outcome tally, from its description -/

/-- Whether the invocation of the tool for a file fails in world `w`: it
returns success exactly when the process was started and ended without an
error, and an error in every other case. -/
def invocationFails {W : Type} (env : Env W)
    (credentials : List (String × List (String × String))) (w : W) (videoPath : String)
    (languages : List String) : Bool :=
  match (env.exec w (subliminalArgs videoPath languages credentials)).2 with
  | ExecOutcome.ran _ none => false
  | _ => true

/-- The result of every invocation of a run, in order (`true` for a failure),
read from the environment: going through the scanned files in order, a file
with a missing language contributes the result of running the tool for it, a
file with none contributes nothing. -/
def expectedResults {W : Type} (env : Env W)
    (credentials : List (String × List (String × String))) (languages : List String) :
    List String → W → List Bool
  | [], _ => []
  | f :: rest, w =>
    if (languages.filter fun lang => env.statNotExist w (expectedSubtitle f lang)) = [] then
      expectedResults env credentials languages rest w
    else
      invocationFails env credentials w f
          (languages.filter fun lang => env.statNotExist w (expectedSubtitle f lang)) ::
        expectedResults env credentials languages rest
          (env.exec w (subliminalArgs f
            (languages.filter fun lang => env.statNotExist w (expectedSubtitle f lang))
            credentials)).1

/-- The invocations as the claim words them, with one set missing(file) per
file read in the world at the start of the run: the pairs (file,
missing(file)) of the files whose missing(file) is not empty, in scan order. -/
def claimedInvocations {W : Type} (env : Env W) (w : W) (languages : List String)
    (videoFiles : List String) : List (String × List String) :=
  videoFiles.filterMap fun f =>
    if missingLanguages env w f languages = [] then none
    else some (f, missingLanguages env w f languages)

/-! ## Theorems -/

/-! ### Task Execution Guard -/

theorem guardState_append (s : Server) (a b : List GuardEvent) :
    guardState s (a ++ b) = guardState (guardState s a) b := by
  induction a generalizing s with
  | nil => rfl
  | cons e es ih => simp [guardState, ih]

theorem guardOutcomes_append (s : Server) (a b : List GuardEvent) :
    guardOutcomes s (a ++ b) = guardOutcomes s a ++ guardOutcomes (guardState s a) b := by
  induction a generalizing s with
  | nil => rfl
  | cons e es ih => simp [guardState, guardOutcomes, ih]

theorem guardOutcomes_length (s : Server) (a : List GuardEvent) :
    (guardOutcomes s a).length = a.length := by
  induction a generalizing s with
  | nil => rfl
  | cons e es ih => simp [guardOutcomes, ih]

theorem guardState_running_of_no_finish (s : Server) (mid : List GuardEvent)
    (hrun : s.taskRunning = true) (hmid : GuardEvent.finish ∉ mid) :
    (guardState s mid).taskRunning = true := by
  induction mid generalizing s with
  | nil => simpa [guardState] using hrun
  | cons e es ih =>
    cases e with
    | attempt =>
      have hes : GuardEvent.finish ∉ es := fun h => hmid (List.mem_cons_of_mem _ h)
      have hstep : (guardStep s GuardEvent.attempt).1 = s := by
        simp [guardStep, Server.downloadHandler, hrun]
      simp only [guardState, hstep]
      exact ih s hrun hes
    | finish => exact absurd (List.mem_cons_self _ _) hmid

theorem downloadHandler_post_running (s : Server) :
    ((s.downloadHandler "POST").server).taskRunning = true := by
  unfold Server.downloadHandler
  by_cases h : s.taskRunning = true <;> simp [h]

theorem downloadHandler_started_iff (s : Server) :
    (s.downloadHandler "POST").started = true ↔ s.taskRunning = false := by
  unfold Server.downloadHandler
  by_cases h : s.taskRunning = true <;> simp [h]

/-- C1. Task Execution Guard of downloadHandler. For every server state, a POST
to /download is admitted if and only if `taskRunning` is false; an admitted
request sets `taskRunning` and starts the task; a rejected one leaves the server
unchanged, starts nothing and answers 409 "A download task is already in
progress." (not 500). For every sequence of attempts and finishes: two attempts
with no finish between them are never both admitted, and an attempt that comes
right after a finish is admitted. -/
theorem downloadHandler_guard (s : Server) (pre mid post : List GuardEvent)
    (hmid : GuardEvent.finish ∉ mid) :
    ((s.downloadHandler "POST").started = true ↔ s.taskRunning = false) ∧
    (s.taskRunning = false →
      (s.downloadHandler "POST").server = { s with taskRunning := true } ∧
      (s.downloadHandler "POST").started = true ∧
      (s.downloadHandler "POST").response.status = StatusOK) ∧
    (s.taskRunning = true →
      (s.downloadHandler "POST").server = s ∧
      (s.downloadHandler "POST").started = false ∧
      (s.downloadHandler "POST").response =
        { status := 409, body := "A download task is already in progress.\n" } ∧
      (s.downloadHandler "POST").response.status ≠ StatusInternalServerError) ∧
    ¬ ((guardOutcomes s (pre ++ GuardEvent.attempt :: (mid ++ GuardEvent.attempt :: post)))[pre.length]?
          = some (some true) ∧
       (guardOutcomes s (pre ++ GuardEvent.attempt :: (mid ++ GuardEvent.attempt :: post)))[pre.length + 1 + mid.length]?
          = some (some true)) ∧
    (guardOutcomes s (pre ++ GuardEvent.finish :: GuardEvent.attempt :: post))[pre.length + 1]?
      = some (some true) := by
  refine ⟨downloadHandler_started_iff s, ?_, ?_, ?_, ?_⟩
  · intro h
    simp [Server.downloadHandler, h, StatusOK]
  · intro h
    simp [Server.downloadHandler, h, httpError, StatusConflict, StatusInternalServerError]
  · rintro ⟨-, h2⟩
    have hlen : pre.length + 1 + mid.length
        = (guardOutcomes s pre).length + (1 + (guardOutcomes
            (guardStep (guardState s pre) GuardEvent.attempt).1 mid).length) := by
      simp [guardOutcomes_length]; omega
    rw [guardOutcomes_append, hlen, List.getElem?_append_right (Nat.le_add_right _ _)] at h2
    simp only [Nat.add_sub_cancel_left, guardOutcomes] at h2
    rw [guardOutcomes_append] at h2
    rw [show ∀ (x : Option Bool) (l : List (Option Bool)), x :: l = [x] ++ l from fun _ _ => rfl,
      List.getElem?_append_right (by simp)] at h2
    simp only [List.length_singleton, Nat.add_sub_cancel_left] at h2
    rw [List.getElem?_append_right (Nat.le_refl _)] at h2
    simp only [Nat.sub_self, guardOutcomes, List.getElem?_cons_zero, Option.some.injEq,
      guardStep] at h2
    have hrun := guardState_running_of_no_finish
      (guardStep (guardState s pre) GuardEvent.attempt).1 mid
      (downloadHandler_post_running _) hmid
    rw [downloadHandler_started_iff] at h2
    simp only [guardStep] at hrun
    rw [hrun] at h2
    exact Bool.noConfusion h2
  · rw [guardOutcomes_append]
    rw [show pre.length + 1 = (guardOutcomes s pre).length + 1 by simp [guardOutcomes_length],
      List.getElem?_append_right (Nat.le_add_right _ _)]
    simp [guardOutcomes, guardStep, Server.taskDone, Server.downloadHandler]

/-- Witness for C1: an idle server, then attempt, attempt, finish, attempt. -/
theorem downloadHandler_guard_witness :
    ((NewServer GetDefaultConfig).downloadHandler "POST").started = true ∧
    guardOutcomes (NewServer GetDefaultConfig)
      [GuardEvent.attempt, GuardEvent.attempt, GuardEvent.finish, GuardEvent.attempt]
      = [some true, some false, none, some true] ∧
    ¬ ((guardOutcomes (NewServer GetDefaultConfig)
          ([] ++ GuardEvent.attempt :: ([GuardEvent.attempt] ++ GuardEvent.attempt :: [])))[0]?
          = some (some true) ∧
       (guardOutcomes (NewServer GetDefaultConfig)
          ([] ++ GuardEvent.attempt :: ([GuardEvent.attempt] ++ GuardEvent.attempt :: [])))[0 + 1 + 1]?
          = some (some true)) :=
  ⟨by decide, by decide,
   (downloadHandler_guard (NewServer GetDefaultConfig) [] [GuardEvent.attempt] []
      (by decide)).2.2.2.1⟩

/-! ### Event Log -/

theorem addLog_logHistory (s : Server) (now m : String) :
    (s.addLog now m).logHistory
      = (s.logHistory ++ [logEntry now m]).drop
          (s.logHistory.length + 1 - min 1000 (s.logHistory.length + 1)) := by
  simp only [Server.addLog, logHistoryCap, List.length_append, List.length_singleton]
  by_cases h : s.logHistory.length + 1 > 1000
  · rw [if_pos h, Nat.min_eq_left (Nat.le_of_lt h)]
  · rw [if_neg h, Nat.min_eq_right (Nat.le_of_not_lt h), Nat.sub_self, List.drop_zero]

theorem addLog_logHistory_length (s : Server) (now m : String) :
    (s.addLog now m).logHistory.length = min 1000 (s.logHistory.length + 1) := by
  rw [addLog_logHistory, List.length_drop, List.length_append, List.length_singleton]
  omega

theorem step_logHistory_length (h : Hub) (st : HubStep)
    (hle : h.server.logHistory.length ≤ 1000) :
    (h.step st).server.logHistory.length ≤ 1000 := by
  cases st with
  | addLog now message =>
    show (h.server.addLog now message).logHistory.length ≤ 1000
    rw [addLog_logHistory_length]; exact Nat.min_le_left _ _
  | sendProgress message => exact hle
  | sendStatus message => exact hle
  | connect => exact hle
  | forward i =>
    show (h.forward i).server.logHistory.length ≤ 1000
    unfold Hub.forward
    split
    · split <;> exact hle
    · exact hle
  | write i =>
    show (h.write i).server.logHistory.length ≤ 1000
    unfold Hub.write
    split
    · split
      · split <;> exact hle
      · exact hle
    · exact hle
  | cancel i =>
    show (h.updateClient i _).server.logHistory.length ≤ 1000
    unfold Hub.updateClient; split <;> exact hle
  | forwarderExit i =>
    show (h.updateClient i _).server.logHistory.length ≤ 1000
    unfold Hub.updateClient; split <;> exact hle
  | handlerReturn i =>
    show (h.updateClient i _).server.logHistory.length ≤ 1000
    unfold Hub.updateClient; split <;> exact hle
  | download method =>
    show (h.server.downloadHandler method).server.logHistory.length ≤ 1000
    unfold Server.downloadHandler
    split
    · exact hle
    · split <;> exact hle
  | taskDone => exact hle

theorem run_logHistory_length (h : Hub) (steps : List HubStep)
    (hle : h.server.logHistory.length ≤ 1000) :
    (h.run steps).server.logHistory.length ≤ 1000 := by
  induction steps generalizing h with
  | nil => exact hle
  | cons st rest ih => exact ih (h.step st) (step_logHistory_length h st hle)

/-- C3. Event Log cap and FIFO eviction. For every history (in particular every
history of at most 1000 entries), every clock reading and every message, the
history after addLog is the last `min 1000 (len + 1)` elements of the old
history followed by the new timestamped entry: it has that length, it is a
suffix of the old history followed by the entry, and the entry is its last
element. In every state reached from `NewServer` by any steps of the server the
history has at most 1000 entries. -/
theorem addLog_fifo_cap (s : Server) (now m : String) (cfg : Config) (steps : List HubStep) :
    (s.addLog now m).logHistory
      = (s.logHistory ++ [logEntry now m]).drop
          (s.logHistory.length + 1 - min 1000 (s.logHistory.length + 1)) ∧
    (s.addLog now m).logHistory.length = min 1000 (s.logHistory.length + 1) ∧
    (s.addLog now m).logHistory <:+ s.logHistory ++ [logEntry now m] ∧
    (s.addLog now m).logHistory.getLast? = some (logEntry now m) ∧
    ((Hub.init cfg).run steps).server.logHistory.length ≤ 1000 := by
  refine ⟨addLog_logHistory s now m, addLog_logHistory_length s now m, ?_, ?_, ?_⟩
  · rw [addLog_logHistory]; exact List.drop_suffix _ _
  · rw [addLog_logHistory]
    have hlt : s.logHistory.length + 1 - min 1000 (s.logHistory.length + 1)
        ≤ s.logHistory.length := by omega
    rw [List.drop_append_of_le_length hlt, List.getLast?_append]
    simp
  · exact run_logHistory_length _ _ (by simp [Hub.init, NewServer])

/-! ### Task Driver -/

theorem filepathWalk_scanVisit {W : Type} (env : Env W) (extensions : List String)
    (visits : List Visit) (acc : List String) :
    (filepathWalk (scanVisit env extensions) visits acc).2 = none := by
  induction visits generalizing acc with
  | nil => rfl
  | cons v vs ih =>
    unfold filepathWalk
    have hv : (scanVisit env extensions acc v).2 = none := by
      unfold scanVisit
      split
      · rfl
      · split
        · rfl
        · split <;> rfl
    rcases hfn : scanVisit env extensions acc v with ⟨acc1, e⟩
    rw [hfn] at hv
    simp only at hv
    subst hv
    exact ih acc1

theorem scanFolders_ok {W : Type} (env : Env W) (w : W) (extensions folders : List String)
    (acc : List String) :
    ∃ videoFiles, scanFolders env w extensions folders acc = Except.ok videoFiles := by
  induction folders generalizing acc with
  | nil => exact ⟨acc, rfl⟩
  | cons f rest ih =>
    unfold scanFolders
    have hnone := filepathWalk_scanVisit env extensions (env.walk w f) acc
    rcases hwalk : filepathWalk (scanVisit env extensions) (env.walk w f) acc with ⟨found, e⟩
    rw [hwalk] at hnone
    simp only at hnone
    subst hnone
    exact ih found

/-- The walk function of scanVideos always returns nil, so scanVideos always
returns a list of files and never an error. -/
theorem scanVideos_ok {W : Type} (env : Env W) (w : W) (folders extensions : List String) :
    ∃ videoFiles, scanVideos env w folders extensions = Except.ok videoFiles :=
  scanFolders_ok env w extensions folders []

theorem messagesOfKind_append (kind : String) (a b : List Event) :
    messagesOfKind kind (a ++ b) = messagesOfKind kind a ++ messagesOfKind kind b := by
  simp [messagesOfKind, List.filterMap_append]

theorem messagesOfKind_lineEvents_of_ne (kind : String) (hk : kind ≠ "log") (cb : Bool)
    (lines : List String) : messagesOfKind kind (lineEvents cb lines) = [] := by
  induction lines with
  | nil => rfl
  | cons l ls ih =>
    simp only [lineEvents, List.filterMap_cons] at ih ⊢
    split
    · exact ih
    · rename_i ev hev
      split at hev
      · cases hev
        simp only [messagesOfKind, List.filterMap_cons, if_neg (Ne.symm hk)]
        exact ih
      · cases hev

theorem downloadSubtitles_events {W : Type} (env : Env W) (w : W) (videoPath : String)
    (languages : List String) (credentials : List (String × List (String × String)))
    (cb : Bool) :
    ∃ lines, (downloadSubtitles env w videoPath languages credentials cb).events
      = Event.invoke videoPath languages (subliminalArgs videoPath languages credentials)
          :: lineEvents cb lines := by
  unfold downloadSubtitles
  simp only []
  generalize env.exec w (subliminalArgs videoPath languages credentials) = r
  rcases r with ⟨w1, o⟩
  cases o with
  | stdoutPipeFailed e => exact ⟨[], rfl⟩
  | stderrPipeFailed e => exact ⟨[], rfl⟩
  | startFailed e => exact ⟨[], rfl⟩
  | ran lines waitErr => exact ⟨lines, rfl⟩

theorem messagesOfKind_downloadSubtitles_of_ne {W : Type} (kind : String) (hk : kind ≠ "log")
    (env : Env W) (w : W) (videoPath : String) (languages : List String)
    (credentials : List (String × List (String × String))) (cb : Bool) :
    messagesOfKind kind (downloadSubtitles env w videoPath languages credentials cb).events
      = [] := by
  obtain ⟨lines, h⟩ := downloadSubtitles_events env w videoPath languages credentials cb
  rw [h, show ∀ (x : Event) (l : List Event), x :: l = [x] ++ l from fun _ _ => rfl,
    messagesOfKind_append, messagesOfKind_lineEvents_of_ne kind hk]
  rfl

theorem progress_ne_log : ("progress" : String) ≠ "log" := by decide

theorem status_ne_log : ("status" : String) ≠ "log" := by decide

theorem processVideos_progress {W : Type} (env : Env W) (languages : List String)
    (credentials : List (String × List (String × String))) (totalVideos : Nat)
    (videoFiles : List String) (i : Nat) (w : W) (d e : Nat) :
    messagesOfKind "progress"
        (processVideos env languages credentials true totalVideos videoFiles i w d e).events
      = (List.range' (i + 1) videoFiles.length).map fun k => progressText k totalVideos := by
  induction videoFiles generalizing i w d e with
  | nil => rfl
  | cons v rest ih =>
    have hhead : messagesOfKind "progress"
        [Event.callback ("Processing: " ++ filepathBase v) "log",
         Event.callback (progressText (i + 1) totalVideos) "progress"]
        = [progressText (i + 1) totalVideos] := by
      simp [messagesOfKind, List.filterMap_cons]
    have hdl := fun (ls : List String) => messagesOfKind_downloadSubtitles_of_ne "progress"
      progress_ne_log env w v ls credentials true
    simp only [processVideos, List.length_cons, List.range'_succ, List.map_cons, if_true]
    split
    · simp only [messagesOfKind_append, hhead, ih]
      rfl
    · split
      · simp only [messagesOfKind_append, hhead, hdl, ih]
        simp [messagesOfKind]
      · simp only [messagesOfKind_append, hhead, hdl, ih]
        simp [messagesOfKind]

/-- C4. Progress sequence. For every environment (so for every outcome of the
invocations and every set of existing subtitle files), every run of
RunDownloader with a status callback whose scan returns the files `videoFiles`
emits as progress messages exactly "0/N", "1/N", ..., "N/N" in this order,
where N is the number of all scanned files. -/
theorem RunDownloader_progress {W : Type} (env : Env W) (w : W) (paths languages : List String)
    (credentials : List (String × List (String × String))) (videoFiles : List String)
    (hscan : scanVideos env w paths videoExtensions = Except.ok videoFiles) :
    messagesOfKind "progress" (RunDownloader env w paths languages credentials true).2
      = (List.range (videoFiles.length + 1)).map fun i =>
          toString i ++ "/" ++ toString videoFiles.length := by
  simp only [RunDownloader, hscan, if_true, messagesOfKind_append, processVideos_progress]
  rw [List.range_eq_range', List.range'_succ]
  simp [messagesOfKind, progressText]

/-- Witness for C4: three scanned files, one of them skipped, one failing. -/
theorem RunDownloader_progress_witness :
    scanVideos demoEnv demoWorld ["/m"] videoExtensions
      = Except.ok ["/m/A.mkv", "/m/B.MP4", "/m/C.avi"] ∧
    messagesOfKind "progress" (RunDownloader demoEnv demoWorld ["/m"] ["en"] [] true).2
      = ["0/3", "1/3", "2/3", "3/3"] :=
  ⟨rfl, by
    rw [RunDownloader_progress demoEnv demoWorld ["/m"] ["en"] []
      ["/m/A.mkv", "/m/B.MP4", "/m/C.avi"] rfl]
    decide⟩

theorem invocations_append (a b : List Event) :
    invocations (a ++ b) = invocations a ++ invocations b := by
  simp [invocations, List.filterMap_append]

theorem returns_append (a b : List Event) : returns (a ++ b) = returns a ++ returns b := by
  simp [returns, List.filterMap_append]

theorem invocations_lineEvents (cb : Bool) (lines : List String) :
    invocations (lineEvents cb lines) = [] := by
  induction lines with
  | nil => rfl
  | cons l ls ih =>
    simp only [lineEvents, List.filterMap_cons] at ih ⊢
    split
    · exact ih
    · rename_i ev hev
      split at hev
      · cases hev
        simp only [invocations, List.filterMap_cons]
        exact ih
      · cases hev

theorem returns_lineEvents (cb : Bool) (lines : List String) :
    returns (lineEvents cb lines) = [] := by
  induction lines with
  | nil => rfl
  | cons l ls ih =>
    simp only [lineEvents, List.filterMap_cons] at ih ⊢
    split
    · exact ih
    · rename_i ev hev
      split at hev
      · cases hev
        simp only [returns, List.filterMap_cons]
        exact ih
      · cases hev

theorem invocations_downloadSubtitles {W : Type} (env : Env W) (w : W) (videoPath : String)
    (languages : List String) (credentials : List (String × List (String × String)))
    (cb : Bool) :
    invocations (downloadSubtitles env w videoPath languages credentials cb).events
      = [(videoPath, languages)] := by
  obtain ⟨lines, h⟩ := downloadSubtitles_events env w videoPath languages credentials cb
  rw [h, show ∀ (x : Event) (l : List Event), x :: l = [x] ++ l from fun _ _ => rfl,
    invocations_append, invocations_lineEvents]
  rfl

theorem returns_downloadSubtitles {W : Type} (env : Env W) (w : W) (videoPath : String)
    (languages : List String) (credentials : List (String × List (String × String)))
    (cb : Bool) :
    returns (downloadSubtitles env w videoPath languages credentials cb).events = [] := by
  obtain ⟨lines, h⟩ := downloadSubtitles_events env w videoPath languages credentials cb
  rw [h, show ∀ (x : Event) (l : List Event), x :: l = [x] ++ l from fun _ _ => rfl,
    returns_append, returns_lineEvents]
  rfl

theorem downloadSubtitles_world {W : Type} (env : Env W) (w : W) (videoPath : String)
    (languages : List String) (credentials : List (String × List (String × String)))
    (cb : Bool) :
    (downloadSubtitles env w videoPath languages credentials cb).world
      = (env.exec w (subliminalArgs videoPath languages credentials)).1 := by
  unfold downloadSubtitles
  simp only []
  generalize env.exec w (subliminalArgs videoPath languages credentials) = r
  rcases r with ⟨w1, o⟩
  cases o <;> rfl

theorem processVideos_invocations {W : Type} (env : Env W) (languages : List String)
    (credentials : List (String × List (String × String))) (cb : Bool) (totalVideos : Nat)
    (videoFiles : List String) (i : Nat) (w : W) (d e : Nat) :
    invocations
        (processVideos env languages credentials cb totalVideos videoFiles i w d e).events
      = expectedInvocations env.statNotExist
          (fun w1 f ls => (env.exec w1 (subliminalArgs f ls credentials)).1)
          languages videoFiles w := by
  induction videoFiles generalizing i w d e with
  | nil => rfl
  | cons v rest ih =>
    have hhead : invocations
        (if cb = true then
          [Event.callback ("Processing: " ++ filepathBase v) "log",
           Event.callback (progressText (i + 1) totalVideos) "progress"]
         else []) = [] := by
      cases cb <;> rfl
    have herr : ∀ err : String, invocations
        (if cb = true then
          [Event.callback ("ERROR processing " ++ filepathBase v ++ ": " ++ err) "log"]
         else []) = [] := by
      intro err; cases cb <;> rfl
    simp only [processVideos, expectedInvocations, missingLanguages, List.length_eq_zero]
    split
    · simp only [invocations_append, hhead, ih, List.nil_append]
    · split
      · simp only [invocations_append, hhead, herr, ih, invocations_downloadSubtitles,
          downloadSubtitles_world]
        simp [invocations]
      · simp only [invocations_append, hhead, ih, invocations_downloadSubtitles,
          downloadSubtitles_world]
        simp [invocations]

theorem expectedInvocations_static {W : Type} (notExist : W → String → Bool)
    (effect : W → String → List String → W) (languages : List String)
    (hstatic : ∀ w f ls p, notExist (effect w f ls) p = notExist w p)
    (videoFiles : List String) (w w1 : W) (hw : ∀ p, notExist w1 p = notExist w p) :
    expectedInvocations notExist effect languages videoFiles w1
      = videoFiles.filterMap fun f =>
          if (languages.filter fun lang => notExist w (expectedSubtitle f lang)) = [] then none
          else some (f, languages.filter fun lang => notExist w (expectedSubtitle f lang)) := by
  induction videoFiles generalizing w1 with
  | nil => rfl
  | cons v rest ih =>
    have hfilter : (languages.filter fun lang => notExist w1 (expectedSubtitle v lang))
        = languages.filter fun lang => notExist w (expectedSubtitle v lang) := by
      congr 1; funext lang; exact hw _
    simp only [expectedInvocations, List.filterMap_cons, hfilter]
    split
    · exact ih w1 hw
    · rw [ih _ (fun p => (hstatic w1 v _ p).trans (hw p))]

theorem expectedInvocations_files_sublist {W : Type} (notExist : W → String → Bool)
    (effect : W → String → List String → W) (languages : List String)
    (videoFiles : List String) (w : W) :
    ((expectedInvocations notExist effect languages videoFiles w).map Prod.fst).Sublist
      videoFiles := by
  induction videoFiles generalizing w with
  | nil => exact List.Sublist.slnil
  | cons v rest ih =>
    simp only [expectedInvocations]
    split
    · exact (ih w).cons v
    · simp only [List.map_cons]
      exact (ih _).cons₂ v

theorem expectedInvocations_languages {W : Type} (notExist : W → String → Bool)
    (effect : W → String → List String → W) (languages : List String)
    (videoFiles : List String) (w : W) :
    ∀ pair ∈ expectedInvocations notExist effect languages videoFiles w,
      pair.2 ≠ [] ∧ pair.2.Sublist languages := by
  induction videoFiles generalizing w with
  | nil => intro pair h; cases h
  | cons v rest ih =>
    intro pair h
    simp only [expectedInvocations] at h
    split at h
    · exact ih w pair h
    · rename_i hne
      rcases List.mem_cons.mp h with heq | hmem
      · subst heq
        exact ⟨hne, List.filter_sublist _⟩
      · exact ih _ pair hmem

/-- C5, counterexample. The folder /t holds x.avi and x.mkv, which share the
subtitle file /t/x.en.srt, missing at the start. By the claim both files are
invoked, as the language is missing for both. The run invokes x.avi; the tool
writes /t/x.en.srt; when the loop reaches x.mkv nothing is missing and x.mkv is
not invoked. With a tool that fails and writes nothing, x.mkv is invoked: the
result of the first invocation changes which later files are invoked. -/
theorem twin_files_invocations_differ :
    scanVideos twinEnv [] ["/t"] videoExtensions = Except.ok ["/t/x.avi", "/t/x.mkv"] ∧
    expectedSubtitle "/t/x.avi" "en" = "/t/x.en.srt" ∧
    expectedSubtitle "/t/x.mkv" "en" = "/t/x.en.srt" ∧
    claimedInvocations twinEnv [] ["en"] ["/t/x.avi", "/t/x.mkv"]
      = [("/t/x.avi", ["en"]), ("/t/x.mkv", ["en"])] ∧
    invocations (RunDownloader twinEnv [] ["/t"] ["en"] [] true).2
      = [("/t/x.avi", ["en"])] ∧
    returns (RunDownloader twinEnv [] ["/t"] ["en"] [] true).2 = [none] ∧
    scanVideos twinFailEnv [] ["/t"] videoExtensions = Except.ok ["/t/x.avi", "/t/x.mkv"] ∧
    invocations (RunDownloader twinFailEnv [] ["/t"] ["en"] [] true).2
      = [("/t/x.avi", ["en"]), ("/t/x.mkv", ["en"])] := by
  refine ⟨rfl, by decide, by decide, by decide, by decide, by decide, rfl, by decide⟩

/-- C5, amended. Partial-failure semantics. For every environment and every run
whose scan returns `videoFiles`, the calls of downloadSubtitles made by
RunDownloader are, in scan order, the pairs (file, missing languages) of
exactly the files with a missing language, the missing languages being those
of the configured list, in order, whose subtitle file does not exist at the
moment the loop reaches the file, after the invocations for the earlier files:
one call per such file, none for a file with nothing missing then. The invoked
files are a subsequence of the scanned files (no file is tried twice), and the
languages of a call are never empty and a sublist of the configured ones. When
the tool does not change which subtitle files exist, the calls are the pairs
(file, missing(file)) with missing(file) read once at the start. The result of
a call is no input to later calls: an environment that differs only in the
results, not in what the tool does to the files, gives the same calls. -/
theorem RunDownloader_invocations {W : Type} (env : Env W) (w : W)
    (paths languages : List String) (credentials : List (String × List (String × String)))
    (cb : Bool) (videoFiles : List String)
    (hscan : scanVideos env w paths videoExtensions = Except.ok videoFiles) :
    invocations (RunDownloader env w paths languages credentials cb).2
      = expectedInvocations env.statNotExist
          (fun w1 f ls => (env.exec w1 (subliminalArgs f ls credentials)).1)
          languages videoFiles w ∧
    ((invocations (RunDownloader env w paths languages credentials cb).2).map Prod.fst).Sublist
      videoFiles ∧
    (∀ pair ∈ invocations (RunDownloader env w paths languages credentials cb).2,
      pair.2 ≠ [] ∧ pair.2.Sublist languages) ∧
    ((∀ w1 args p, env.statNotExist (env.exec w1 args).1 p = env.statNotExist w1 p) →
      invocations (RunDownloader env w paths languages credentials cb).2
        = claimedInvocations env w languages videoFiles) ∧
    (∀ env2 : Env W,
      scanVideos env2 w paths videoExtensions = Except.ok videoFiles →
      env2.statNotExist = env.statNotExist →
      (∀ w1 args, (env2.exec w1 args).1 = (env.exec w1 args).1) →
      invocations (RunDownloader env2 w paths languages credentials cb).2
        = invocations (RunDownloader env w paths languages credentials cb).2) := by
  have main : ∀ (env1 : Env W),
      scanVideos env1 w paths videoExtensions = Except.ok videoFiles →
      invocations (RunDownloader env1 w paths languages credentials cb).2
        = expectedInvocations env1.statNotExist
            (fun w1 f ls => (env1.exec w1 (subliminalArgs f ls credentials)).1)
            languages videoFiles w := by
    intro env1 h1
    simp only [RunDownloader, h1, invocations_append, processVideos_invocations]
    cases cb <;> simp [invocations]
  refine ⟨main env hscan, ?_, ?_, ?_, ?_⟩
  · rw [main env hscan]
    exact expectedInvocations_files_sublist _ _ _ _ _
  · rw [main env hscan]
    exact expectedInvocations_languages _ _ _ _ _
  · intro hstatic
    rw [main env hscan]
    exact expectedInvocations_static env.statNotExist _ languages
      (fun w1 f ls p => hstatic w1 _ p) videoFiles w w (fun _ => rfl)
  · intro env2 hscan2 hstat hexec
    rw [main env hscan, main env2 hscan2, hstat]
    congr 1
    funext w1 f ls
    exact hexec w1 _

/-- Witness for C5 amended: of the three scanned files, A.mkv and B.MP4 miss
"en" and are invoked once each, in this order, although the call for B.MP4
fails; C.avi has its subtitle and is not invoked. Of the twin files only the
first is invoked. -/
theorem RunDownloader_invocations_witness :
    scanVideos demoEnv demoWorld ["/m"] videoExtensions
      = Except.ok ["/m/A.mkv", "/m/B.MP4", "/m/C.avi"] ∧
    invocations (RunDownloader demoEnv demoWorld ["/m"] ["en"] [] true).2
      = [("/m/A.mkv", ["en"]), ("/m/B.MP4", ["en"])] ∧
    invocations (RunDownloader twinEnv [] ["/t"] ["en"] [] true).2
      = [("/t/x.avi", ["en"])] :=
  ⟨rfl, by
    rw [(RunDownloader_invocations demoEnv demoWorld ["/m"] ["en"] [] true
      ["/m/A.mkv", "/m/B.MP4", "/m/C.avi"] rfl).1]
    decide, by
    rw [(RunDownloader_invocations twinEnv [] ["/t"] ["en"] [] true
      ["/t/x.avi", "/t/x.mkv"] rfl).1]
    decide⟩

theorem successes_append (a b : List Event) :
    successes (a ++ b) = successes a + successes b := by
  simp [successes, returns_append, List.countP_append]

theorem failures_append (a b : List Event) :
    failures (a ++ b) = failures a + failures b := by
  simp [failures, returns_append, List.countP_append]

theorem successes_of_returns_nil (a : List Event) (h : returns a = []) : successes a = 0 := by
  simp [successes, h]

theorem failures_of_returns_nil (a : List Event) (h : returns a = []) : failures a = 0 := by
  simp [failures, h]

theorem returns_log_callbacks (cb : Bool) (l : List Event)
    (hl : ∀ ev ∈ l, ∃ m k, ev = Event.callback m k) :
    returns (if cb = true then l else []) = [] := by
  cases cb
  · rfl
  · simp only [if_true]
    induction l with
    | nil => rfl
    | cons x xs ih =>
      obtain ⟨m, k, rfl⟩ := hl _ (List.mem_cons_self _ _)
      simp only [returns, List.filterMap_cons]
      exact ih fun ev hev => hl ev (List.mem_cons_of_mem _ hev)

theorem processVideos_counts {W : Type} (env : Env W) (languages : List String)
    (credentials : List (String × List (String × String))) (cb : Bool) (totalVideos : Nat)
    (videoFiles : List String) (i : Nat) (w : W) (d e : Nat) :
    (processVideos env languages credentials cb totalVideos videoFiles i w d e).downloadedCount
      = d + successes
          (processVideos env languages credentials cb totalVideos videoFiles i w d e).events ∧
    (processVideos env languages credentials cb totalVideos videoFiles i w d e).errorCount
      = e + failures
          (processVideos env languages credentials cb totalVideos videoFiles i w d e).events ∧
    (returns
        (processVideos env languages credentials cb totalVideos videoFiles i w d e).events).length
      = (invocations
        (processVideos env languages credentials cb totalVideos videoFiles i w d e).events).length
        := by
  induction videoFiles generalizing i w d e with
  | nil => exact ⟨rfl, rfl, rfl⟩
  | cons v rest ih =>
    have hhead : returns
        (if cb = true then
          [Event.callback ("Processing: " ++ filepathBase v) "log",
           Event.callback (progressText (i + 1) totalVideos) "progress"]
         else []) = [] :=
      returns_log_callbacks cb _ (by simp)
    have hheadI : invocations
        (if cb = true then
          [Event.callback ("Processing: " ++ filepathBase v) "log",
           Event.callback (progressText (i + 1) totalVideos) "progress"]
         else []) = [] := by
      cases cb <;> rfl
    have herr : ∀ err : String, returns
        (if cb = true then
          [Event.callback ("ERROR processing " ++ filepathBase v ++ ": " ++ err) "log"]
         else []) = [] :=
      fun err => returns_log_callbacks cb _ (by simp)
    have herrI : ∀ err : String, invocations
        (if cb = true then
          [Event.callback ("ERROR processing " ++ filepathBase v ++ ": " ++ err) "log"]
         else []) = [] := by
      intro err; cases cb <;> rfl
    simp only [processVideos]
    split
    · obtain ⟨h1, h2, h3⟩ := ih (i + 1) w d e
      refine ⟨?_, ?_, ?_⟩
      · simp only [successes_append, successes_of_returns_nil _ hhead, Nat.zero_add]
        exact h1
      · simp only [failures_append, failures_of_returns_nil _ hhead, Nat.zero_add]
        exact h2
      · simp only [returns_append, invocations_append, hhead, hheadI, List.nil_append]
        exact h3
    · split
      · rename_i err herrEq
        obtain ⟨h1, h2, h3⟩ := ih (i + 1)
          (downloadSubtitles env w v (missingLanguages env w v languages) credentials cb).world
          d (e + 1)
        refine ⟨?_, ?_, ?_⟩
        · simp only [successes_append, successes_of_returns_nil _ hhead,
            successes_of_returns_nil _ (herr err),
            successes_of_returns_nil _ (returns_downloadSubtitles env w v _ credentials cb)]
          rw [h1]
          simp [successes, returns]
        · simp only [failures_append, failures_of_returns_nil _ hhead,
            failures_of_returns_nil _ (herr err),
            failures_of_returns_nil _ (returns_downloadSubtitles env w v _ credentials cb)]
          rw [h2]
          simp [failures, returns]
          omega
        · simp only [returns_append, invocations_append, hhead, hheadI, herr, herrI,
            returns_downloadSubtitles, invocations_downloadSubtitles, List.length_append, h3]
          simp [returns, invocations]
      · obtain ⟨h1, h2, h3⟩ := ih (i + 1)
          (downloadSubtitles env w v (missingLanguages env w v languages) credentials cb).world
          (d + 1) e
        refine ⟨?_, ?_, ?_⟩
        · simp only [successes_append, successes_of_returns_nil _ hhead,
            successes_of_returns_nil _ (returns_downloadSubtitles env w v _ credentials cb)]
          rw [h1]
          simp [successes, returns]
          omega
        · simp only [failures_append, failures_of_returns_nil _ hhead,
            failures_of_returns_nil _ (returns_downloadSubtitles env w v _ credentials cb)]
          rw [h2]
          simp [failures, returns]
        · simp only [returns_append, invocations_append, hhead, hheadI,
            returns_downloadSubtitles, invocations_downloadSubtitles, List.length_append, h3]
          simp [returns, invocations]

theorem processVideos_status {W : Type} (env : Env W) (languages : List String)
    (credentials : List (String × List (String × String))) (totalVideos : Nat)
    (videoFiles : List String) (i : Nat) (w : W) (d e : Nat) :
    messagesOfKind "status"
        (processVideos env languages credentials true totalVideos videoFiles i w d e).events
      = [] := by
  induction videoFiles generalizing i w d e with
  | nil => rfl
  | cons v rest ih =>
    have hdl := fun (ls : List String) => messagesOfKind_downloadSubtitles_of_ne "status"
      status_ne_log env w v ls credentials true
    simp only [processVideos, if_true]
    split
    · simp only [messagesOfKind_append, ih]
      simp [messagesOfKind]
    · split
      · simp only [messagesOfKind_append, hdl, ih]
        simp [messagesOfKind]
      · simp only [messagesOfKind_append, hdl, ih]
        simp [messagesOfKind]

theorem countP_isNone_add_isSome (l : List (Option String)) :
    (l.countP fun r => r.isNone) + (l.countP fun r => r.isSome) = l.length := by
  induction l with
  | nil => rfl
  | cons x xs ih =>
    cases x <;> simp [List.countP_cons] <;> omega

theorem downloadSubtitles_err_isSome {W : Type} (env : Env W) (w : W) (videoPath : String)
    (languages : List String) (credentials : List (String × List (String × String)))
    (cb : Bool) :
    (downloadSubtitles env w videoPath languages credentials cb).err.isSome
      = invocationFails env credentials w videoPath languages := by
  unfold downloadSubtitles invocationFails
  simp only []
  generalize env.exec w (subliminalArgs videoPath languages credentials) = r
  rcases r with ⟨w1, o⟩
  cases o with
  | stdoutPipeFailed e => rfl
  | stderrPipeFailed e => rfl
  | startFailed e => rfl
  | ran lines waitErr => cases waitErr <;> rfl

theorem processVideos_results {W : Type} (env : Env W) (languages : List String)
    (credentials : List (String × List (String × String))) (cb : Bool) (totalVideos : Nat)
    (videoFiles : List String) (i : Nat) (w : W) (d e : Nat) :
    (returns
        (processVideos env languages credentials cb totalVideos videoFiles i w d e).events).map
        Option.isSome
      = expectedResults env credentials languages videoFiles w := by
  induction videoFiles generalizing i w d e with
  | nil => rfl
  | cons v rest ih =>
    have hhead : returns
        (if cb = true then
          [Event.callback ("Processing: " ++ filepathBase v) "log",
           Event.callback (progressText (i + 1) totalVideos) "progress"]
         else []) = [] :=
      returns_log_callbacks cb _ (by simp)
    have herr : ∀ err : String, returns
        (if cb = true then
          [Event.callback ("ERROR processing " ++ filepathBase v ++ ": " ++ err) "log"]
         else []) = [] :=
      fun err => returns_log_callbacks cb _ (by simp)
    have hfail := downloadSubtitles_err_isSome env w v
      (languages.filter fun lang => env.statNotExist w (expectedSubtitle v lang)) credentials cb
    simp only [processVideos, expectedResults, missingLanguages, List.length_eq_zero]
    split
    · simp only [returns_append, hhead, List.nil_append]
      exact ih _ _ _ _
    · split
      · rename_i err herrEq
        rw [herrEq] at hfail
        simp only [returns_append, hhead, herr, returns_downloadSubtitles, List.nil_append,
          List.append_nil, List.map_append, ih, downloadSubtitles_world]
        rw [← hfail]
        rfl
      · rename_i herrEq
        rw [herrEq] at hfail
        simp only [returns_append, hhead, returns_downloadSubtitles, List.nil_append,
          List.map_append, ih, downloadSubtitles_world]
        rw [← hfail]
        rfl

theorem countP_isNone_eq_count (l : List (Option String)) :
    (l.countP fun r => r.isNone) = (l.map Option.isSome).count false := by
  induction l with
  | nil => rfl
  | cons x xs ih => cases x <;> simp [List.countP_cons, List.count_cons, ih]

theorem countP_isSome_eq_count (l : List (Option String)) :
    (l.countP fun r => r.isSome) = (l.map Option.isSome).count true := by
  induction l with
  | nil => rfl
  | cons x xs ih => cases x <;> simp [List.countP_cons, List.count_cons, ih]

theorem count_false_add_count_true (l : List Bool) :
    l.count false + l.count true = l.length := by
  induction l with
  | nil => rfl
  | cons x xs ih => cases x <;> simp [List.count_cons] <;> omega

/-- C6. Outcome tally. For every environment and every run of RunDownloader
with a status callback whose scan returns `videoFiles`: the run ends with the
summary log "Scan and download finished. Downloaded subtitles for D file(s),
with E error(s).", the status "finished" and the completion notification with
the same summary, where D is the number of invocations of the tool that
succeeded and E the number that failed, both read from the environment; the
results returned by downloadSubtitles are these results in order; D and E sum
to the number of invocations, which is the number of files that had a missing
language (a skipped file is in neither count); and "finished" is the only
status message of the run. -/
theorem RunDownloader_tally {W : Type} (env : Env W) (w : W) (paths languages : List String)
    (credentials : List (String × List (String × String))) (videoFiles : List String)
    (hscan : scanVideos env w paths videoExtensions = Except.ok videoFiles) :
    (∃ pre, (RunDownloader env w paths languages credentials true).2
      = pre ++
        [Event.callback
          ("Scan and download finished. Downloaded subtitles for " ++
            toString ((expectedResults env credentials languages videoFiles w).count false) ++
            " file(s), with " ++
            toString ((expectedResults env credentials languages videoFiles w).count true) ++
            " error(s).") "log",
         Event.callback "finished" "status",
         Event.notification "completion"
          ("Scan and download finished. Downloaded subtitles for " ++
            toString ((expectedResults env credentials languages videoFiles w).count false) ++
            " file(s), with " ++
            toString ((expectedResults env credentials languages videoFiles w).count true) ++
            " error(s).")]) ∧
    (returns (RunDownloader env w paths languages credentials true).2).map Option.isSome
      = expectedResults env credentials languages videoFiles w ∧
    messagesOfKind "status" (RunDownloader env w paths languages credentials true).2
      = ["finished"] ∧
    (expectedResults env credentials languages videoFiles w).count false
      + (expectedResults env credentials languages videoFiles w).count true
      = (invocations (RunDownloader env w paths languages credentials true).2).length ∧
    invocations (RunDownloader env w paths languages credentials true).2
      = expectedInvocations env.statNotExist
          (fun w1 f ls => (env.exec w1 (subliminalArgs f ls credentials)).1)
          languages videoFiles w := by
  obtain ⟨h1, h2, h3⟩ := processVideos_counts env languages credentials true videoFiles.length
    videoFiles 0 w 0 0
  have hres := processVideos_results env languages credentials true videoFiles.length
    videoFiles 0 w 0 0
  have hd : (processVideos env languages credentials true videoFiles.length
      videoFiles 0 w 0 0).downloadedCount
      = (expectedResults env credentials languages videoFiles w).count false := by
    rw [h1, Nat.zero_add, ← hres]
    exact countP_isNone_eq_count _
  have he : (processVideos env languages credentials true videoFiles.length
      videoFiles 0 w 0 0).errorCount
      = (expectedResults env credentials languages videoFiles w).count true := by
    rw [h2, Nat.zero_add, ← hres]
    exact countP_isSome_eq_count _
  have hinv : invocations (RunDownloader env w paths languages credentials true).2
      = invocations (processVideos env languages credentials true videoFiles.length
          videoFiles 0 w 0 0).events := by
    simp only [RunDownloader, hscan, if_true, invocations_append]
    simp [invocations]
  have hret : returns (RunDownloader env w paths languages credentials true).2
      = returns (processVideos env languages credentials true videoFiles.length
          videoFiles 0 w 0 0).events := by
    simp only [RunDownloader, hscan, if_true, returns_append]
    simp [returns]
  refine ⟨?_, ?_, ?_, ?_, ?_⟩
  · simp only [RunDownloader, hscan, if_true, summaryText, hd, he]
    exact ⟨[Event.callback "Starting scan and download process..." "log",
        Event.notification "start" "Download process started.",
        Event.callback (progressText 0 videoFiles.length) "progress"] ++
      (processVideos env languages credentials true videoFiles.length videoFiles 0 w 0 0).events,
      by simp⟩
  · rw [hret, hres]
  · simp only [RunDownloader, hscan, if_true, messagesOfKind_append, processVideos_status]
    simp [messagesOfKind]
  · rw [count_false_add_count_true, hinv, ← h3, ← hres, List.length_map]
  · rw [hinv, processVideos_invocations]

/-- Witness for C6: three scanned files of which two miss a language, the call
succeeding for A.mkv and failing for B.MP4: the summary states 1 and 1. With no
subtitle at all the call for C.avi fails too: the summary states 1 and 2. -/
theorem RunDownloader_tally_witness :
    scanVideos demoEnv demoWorld ["/m"] videoExtensions
      = Except.ok ["/m/A.mkv", "/m/B.MP4", "/m/C.avi"] ∧
    expectedResults demoEnv [] ["en"] ["/m/A.mkv", "/m/B.MP4", "/m/C.avi"] demoWorld
      = [false, true] ∧
    expectedResults demoEnv [] ["en"] ["/m/A.mkv", "/m/B.MP4", "/m/C.avi"] []
      = [false, true, true] ∧
    (∃ pre, (RunDownloader demoEnv demoWorld ["/m"] ["en"] [] true).2
      = pre ++
        [Event.callback
          "Scan and download finished. Downloaded subtitles for 1 file(s), with 1 error(s)."
          "log",
         Event.callback "finished" "status",
         Event.notification "completion"
          "Scan and download finished. Downloaded subtitles for 1 file(s), with 1 error(s)."]) ∧
    (∃ pre, (RunDownloader demoEnv [] ["/m"] ["en"] [] true).2
      = pre ++
        [Event.callback
          "Scan and download finished. Downloaded subtitles for 1 file(s), with 2 error(s)."
          "log",
         Event.callback "finished" "status",
         Event.notification "completion"
          "Scan and download finished. Downloaded subtitles for 1 file(s), with 2 error(s)."]) :=
  ⟨rfl, by decide, by decide,
   (RunDownloader_tally demoEnv demoWorld ["/m"] ["en"] []
      ["/m/A.mkv", "/m/B.MP4", "/m/C.avi"] rfl).1,
   (RunDownloader_tally demoEnv [] ["/m"] ["en"] []
      ["/m/A.mkv", "/m/B.MP4", "/m/C.avi"] rfl).1⟩

/-! ### Single flight across trigger sources -/

/-- C2 (the code departs from the claim). With the schedule enabled, a POST to
/download is admitted and its run is in progress (`taskRunning` is true); the
timer then fires and the scheduler goroutine starts a second run of
RunDownloader: two runs are active. The same happens in the other order. A
timer firing neither reads nor writes the server, so it never goes through
the guard. -/
theorem scheduled_run_bypasses_guard :
    ((System.init hourlyConfig).run
        [SystemStep.download "POST", SystemStep.workerEnter 0, SystemStep.tick 0]).server.taskRunning
      = true ∧
    ((System.init hourlyConfig).run
        [SystemStep.download "POST", SystemStep.workerEnter 0, SystemStep.tick 0]).manualRuns
      = 1 ∧
    ((System.init hourlyConfig).run
        [SystemStep.download "POST", SystemStep.workerEnter 0, SystemStep.tick 0]).sched.scheduledRuns
      = 1 ∧
    ((System.init hourlyConfig).run
        [SystemStep.download "POST", SystemStep.workerEnter 0, SystemStep.tick 0]).activeRuns
      = 2 ∧
    ((System.init hourlyConfig).run
        [SystemStep.workerEnter 0, SystemStep.tick 0, SystemStep.download "POST"]).activeRuns
      = 2 ∧
    (∀ (y : System) (j : Nat), (y.step (SystemStep.tick j)).server = y.server) ∧
    (∀ (y : System) (j : Nat) (b : Bool),
      ({ y with server := { y.server with taskRunning := b } }.step (SystemStep.tick j)).sched
        = (y.step (SystemStep.tick j)).sched) := by
  refine ⟨by decide, by decide, by decide, by decide, by decide, ?_, ?_⟩
  · intro y j; rfl
  · intro y j b; rfl

theorem step_manualRuns (y : System) (st : SystemStep)
    (hinv : y.manualRuns = if y.server.taskRunning then 1 else 0) :
    (y.step st).manualRuns = if (y.step st).server.taskRunning then 1 else 0 := by
  cases st with
  | configure cfg => exact hinv
  | download method =>
    show (if (y.server.downloadHandler method).started = true then y.manualRuns + 1
        else y.manualRuns)
      = if (y.server.downloadHandler method).server.taskRunning = true then 1 else 0
    unfold Server.downloadHandler
    by_cases hm : method = "POST"
    · cases hrun : y.server.taskRunning <;> simp [hm, hrun] at hinv ⊢ <;> omega
    · cases hrun : y.server.taskRunning <;> simp [hm, hrun] at hinv ⊢ <;> omega
  | manualDone =>
    show (if 0 < y.manualRuns then
        ({ y with server := y.server.taskDone, manualRuns := y.manualRuns - 1 } : System)
        else y).manualRuns = if (if 0 < y.manualRuns then
        ({ y with server := y.server.taskDone, manualRuns := y.manualRuns - 1 } : System)
        else y).server.taskRunning = true then 1 else 0
    by_cases hpos : 0 < y.manualRuns
    · rw [if_pos hpos]
      cases hrun : y.server.taskRunning <;> simp [hrun, Server.taskDone] at hinv ⊢ <;> omega
    · rw [if_neg hpos]; exact hinv
  | workerEnter j => exact hinv
  | tick j => exact hinv
  | taskReturn j => exact hinv

/-- Single flight among manual triggers: in every state reached from the
initial one, the number of runs started by downloadHandler that are in
progress is 1 when `taskRunning` is set and 0 otherwise, so at most one. -/
theorem manual_runs_single_flight (cfg : Config) (steps : List SystemStep) :
    ((System.init cfg).run steps).manualRuns
        = (if ((System.init cfg).run steps).server.taskRunning then 1 else 0) ∧
    ((System.init cfg).run steps).manualRuns ≤ 1 := by
  have key : ∀ (steps : List SystemStep) (y : System),
      (y.manualRuns = if y.server.taskRunning then 1 else 0) →
      (y.run steps).manualRuns = if (y.run steps).server.taskRunning then 1 else 0 := by
    intro steps
    induction steps with
    | nil => intro y h; exact h
    | cons st rest ih => intro y h; exact ih (y.step st) (step_manualRuns y st h)
  have h := key steps (System.init cfg) (by simp [System.init, NewServer])
  refine ⟨h, ?_⟩
  rw [h]
  split <;> omega

/-! ### Periodic Trigger -/

theorem tickerPeriod_pos_of_le (interval : Int) (h0 : 0 < interval)
    (hmax : interval ≤ maxIntervalMinutes) :
    tickerPeriod interval = interval * 60000000000 ∧ 0 < tickerPeriod interval := by
  have hmax1 : interval ≤ 153722867 := hmax
  have heq : tickerPeriod interval = interval * 60000000000 := by
    unfold tickerPeriod wrapInt64 timeMinute
    rw [Int.emod_eq_of_lt (by omega) (by omega)]
    omega
  exact ⟨heq, by rw [heq]; omega⟩

theorem stopTicker_length (tickers : List Ticker) (id : Nat) :
    (stopTicker tickers id).length = tickers.length := by
  unfold stopTicker
  split <;> simp

theorem stopTicker_getElem?_self (tickers : List Ticker) (id : Nat) (t : Ticker)
    (h : (stopTicker tickers id)[id]? = some t) : t.active = false := by
  unfold stopTicker at h
  split at h
  · rename_i t0 ht0
    have hlt : id < tickers.length := by
      rcases Nat.lt_or_ge id tickers.length with hlt | hge
      · exact hlt
      · rw [List.getElem?_eq_none hge] at ht0; cases ht0
    rw [List.getElem?_set_self hlt] at h
    cases h
    rfl
  · rename_i hnone
    rw [hnone] at h; cases h

theorem stopTicker_getElem?_ne (tickers : List Ticker) (id k : Nat) (hk : id ≠ k) :
    (stopTicker tickers id)[k]? = tickers[k]? := by
  unfold stopTicker
  split
  · exact List.getElem?_set_ne hk
  · rfl

theorem stopExisting_all_inactive (s : Scheduler) (hok : s.TimersOk) :
    ∀ (k : Nat) (t : Ticker), s.stopExisting.tickers[k]? = some t → t.active = false := by
  intro k t hkt
  unfold Scheduler.stopExisting at hkt
  cases hs : s.ticker with
  | none =>
    rw [hs] at hkt
    cases hact : t.active with
    | false => rfl
    | true =>
      have := hok.1 k t hkt hact
      rw [hs] at this
      cases this
  | some id =>
    rw [hs] at hkt
    simp only at hkt
    by_cases hid : id = k
    · subst hid
      exact stopTicker_getElem?_self _ _ _ hkt
    · rw [stopTicker_getElem?_ne _ _ _ hid] at hkt
      cases hact : t.active with
      | false => rfl
      | true =>
        have := hok.1 k t hkt hact
        rw [hs] at this
        exact absurd (Option.some.inj this) hid

theorem stopExisting_ticker (s : Scheduler) : s.stopExisting.ticker = none := by
  unfold Scheduler.stopExisting
  split
  · rfl
  · assumption

theorem stopExisting_length (s : Scheduler) :
    s.stopExisting.tickers.length = s.tickers.length := by
  unfold Scheduler.stopExisting
  cases hs : s.ticker <;> simp [stopTicker_length]

theorem filter_active_eq_nil (tickers : List Ticker)
    (h : ∀ (k : Nat) (t : Ticker), tickers[k]? = some t → t.active = false) :
    (tickers.filter fun t => t.active) = [] := by
  rw [List.filter_eq_nil_iff]
  intro t ht
  obtain ⟨k, hk⟩ := List.mem_iff_getElem?.mp ht
  simp [h k t hk]

theorem stopExisting_activeTimers (s : Scheduler) (hok : s.TimersOk) :
    activeTimers s.stopExisting = 0 := by
  unfold activeTimers
  rw [filter_active_eq_nil _ (stopExisting_all_inactive s hok)]
  rfl

theorem UpdateSchedule_cases (s : Scheduler) (cfg : Config) :
    ((cfg.ScheduleEnabled = false ∨ cfg.ScheduleIntervalMinutes ≤ 0) ∧
      UpdateSchedule s cfg = (s.stopExisting, none)) ∨
    (cfg.ScheduleEnabled = true ∧ 0 < cfg.ScheduleIntervalMinutes ∧
      tickerPeriod cfg.ScheduleIntervalMinutes ≤ 0 ∧
      UpdateSchedule s cfg = (s.stopExisting, some "non-positive interval for NewTicker")) ∨
    (cfg.ScheduleEnabled = true ∧ 0 < cfg.ScheduleIntervalMinutes ∧
      0 < tickerPeriod cfg.ScheduleIntervalMinutes ∧
      UpdateSchedule s cfg = (s.installed cfg, none)) := by
  unfold UpdateSchedule Scheduler.installed
  cases hen : cfg.ScheduleEnabled with
  | false => left; simp
  | true =>
    by_cases hint : cfg.ScheduleIntervalMinutes ≤ 0
    · left; simp [hint]
    · by_cases hper : tickerPeriod cfg.ScheduleIntervalMinutes ≤ 0
      · right; left
        simp [hint, hper]
        omega
      · right; right
        simp [hint, hper]
        omega

theorem installed_activeTimers (s : Scheduler) (cfg : Config) (hok : s.TimersOk) :
    activeTimers (s.installed cfg) = 1 := by
  have hzero := stopExisting_activeTimers s hok
  unfold activeTimers at hzero ⊢
  unfold Scheduler.installed
  simp only [List.filter_append, List.length_append, hzero]
  simp [List.filter_cons]

theorem stopExisting_timersOk (s : Scheduler) (hok : s.TimersOk) : s.stopExisting.TimersOk := by
  constructor
  · intro k t hkt hact
    rw [stopExisting_all_inactive s hok k t hkt] at hact
    cases hact
  · intro id hid
    rw [stopExisting_ticker] at hid
    cases hid

theorem installed_timersOk (s : Scheduler) (cfg : Config) (hok : s.TimersOk) :
    (s.installed cfg).TimersOk := by
  constructor
  · intro k t1 hkt hact
    unfold Scheduler.installed at hkt ⊢
    simp only at hkt ⊢
    rcases Nat.lt_trichotomy k s.stopExisting.tickers.length with hlt | heq | hgt
    · rw [List.getElem?_append_left hlt] at hkt
      rw [stopExisting_all_inactive s hok k t1 hkt] at hact
      cases hact
    · rw [heq]
    · rw [List.getElem?_eq_none (by simp; omega)] at hkt
      cases hkt
  · intro id hid
    unfold Scheduler.installed at hid ⊢
    simp only [Option.some.injEq] at hid
    simp only [List.length_append, List.length_singleton]
    omega

theorem UpdateSchedule_timersOk (s : Scheduler) (cfg : Config) (hok : s.TimersOk) :
    (UpdateSchedule s cfg).1.TimersOk := by
  rcases UpdateSchedule_cases s cfg with ⟨-, h⟩ | ⟨-, -, -, h⟩ | ⟨-, -, -, h⟩ <;> rw [h]
  · exact stopExisting_timersOk s hok
  · exact stopExisting_timersOk s hok
  · exact installed_timersOk s cfg hok

theorem NewScheduler_timersOk : NewScheduler.TimersOk := by
  constructor
  · intro k t hkt
    simp [NewScheduler] at hkt
  · intro id hid
    simp [NewScheduler] at hid

theorem updateAll_timersOk (s : Scheduler) (cfgs : List Config) (hok : s.TimersOk) :
    (updateAll s cfgs).TimersOk := by
  induction cfgs generalizing s with
  | nil => exact hok
  | cons cfg rest ih => exact ih _ (UpdateSchedule_timersOk s cfg hok)

theorem activeTimers_le_one_of_timersOk (s : Scheduler) (hok : s.TimersOk) :
    activeTimers s ≤ 1 := by
  have h0 := stopExisting_activeTimers s hok
  unfold activeTimers at h0 ⊢
  unfold Scheduler.stopExisting at h0
  cases hs : s.ticker with
  | none => rw [hs] at h0; simp only at h0; omega
  | some id =>
    rw [hs] at h0
    simp only at h0
    have hlt := hok.2 id hs
    unfold stopTicker at h0
    rw [List.getElem?_eq_getElem hlt] at h0
    simp only at h0
    have hset := List.length_filter_le (fun t : Ticker => t.active) s.tickers
    have key : ∀ (l : List Ticker) (i : Nat) (t : Ticker),
        (l.filter fun t => t.active).length
          ≤ ((l.set i { t with active := false }).filter fun t => t.active).length + 1 := by
      intro l
      induction l with
      | nil => intro i t; simp
      | cons x xs ih =>
        intro i t
        cases i with
        | zero =>
          simp only [List.set_cons_zero, List.filter_cons]
          cases hx : x.active <;> simp
        | succ j =>
          simp only [List.set_cons_succ, List.filter_cons]
          cases hx : x.active
          · simpa using ih j t
          · simpa using ih j t
    have := key s.tickers id s.tickers[id]
    omega

/-- Reconfiguration of the Periodic Trigger on a scheduler that holds at most
its installed ticker as a firing ticker: the installed ticker is stopped; when
the schedule is disabled or the interval is not positive no ticker fires, the
field is nil and the call returns; when the schedule is enabled and the
interval is between 1 and 153722867 minutes the call returns with exactly one
firing ticker, the installed one, of period `interval * 60000000000`; in every
case at most one ticker fires afterwards and the property is kept, so after
any sequence of reconfigurations from `NewScheduler` at most one ticker fires. -/
theorem UpdateSchedule_timers (s : Scheduler) (cfg : Config) (cfgs : List Config)
    (hok : s.TimersOk) :
    (∀ (id : Nat) (t : Ticker), s.ticker = some id →
      (UpdateSchedule s cfg).1.tickers[id]? = some t → t.active = false) ∧
    (cfg.ScheduleEnabled = false ∨ cfg.ScheduleIntervalMinutes ≤ 0 →
      activeTimers (UpdateSchedule s cfg).1 = 0 ∧ (UpdateSchedule s cfg).1.ticker = none ∧
      (UpdateSchedule s cfg).2 = none) ∧
    (cfg.ScheduleEnabled = true → 0 < cfg.ScheduleIntervalMinutes →
      cfg.ScheduleIntervalMinutes ≤ maxIntervalMinutes →
      activeTimers (UpdateSchedule s cfg).1 = 1 ∧
      (UpdateSchedule s cfg).1.ticker = some s.tickers.length ∧
      (UpdateSchedule s cfg).1.tickers[s.tickers.length]?
        = some { period := cfg.ScheduleIntervalMinutes * 60000000000, active := true } ∧
      (UpdateSchedule s cfg).2 = none) ∧
    activeTimers (UpdateSchedule s cfg).1 ≤ 1 ∧
    (UpdateSchedule s cfg).1.TimersOk ∧
    activeTimers (updateAll NewScheduler cfgs) ≤ 1 := by
  have hlen := stopExisting_length s
  refine ⟨?_, ?_, ?_, ?_, UpdateSchedule_timersOk s cfg hok, ?_⟩
  · intro id t hid hget
    have hidlt : id < s.stopExisting.tickers.length := by
      rw [hlen]; exact hok.2 id hid
    apply stopExisting_all_inactive s hok id t
    rcases UpdateSchedule_cases s cfg with ⟨-, h⟩ | ⟨-, -, -, h⟩ | ⟨-, -, -, h⟩ <;>
      rw [h] at hget
    · exact hget
    · exact hget
    · unfold Scheduler.installed at hget
      simp only at hget
      rwa [List.getElem?_append_left hidlt] at hget
  · intro hdis
    rcases UpdateSchedule_cases s cfg with ⟨-, h⟩ | ⟨hen, hpos, -, -⟩ | ⟨hen, hpos, -, -⟩
    · rw [h]
      exact ⟨stopExisting_activeTimers s hok, stopExisting_ticker s, rfl⟩
    · rcases hdis with hd | hd
      · rw [hd] at hen; cases hen
      · omega
    · rcases hdis with hd | hd
      · rw [hd] at hen; cases hen
      · omega
  · intro hen hpos hmax
    obtain ⟨hper, hperpos⟩ := tickerPeriod_pos_of_le _ hpos hmax
    rcases UpdateSchedule_cases s cfg with ⟨hdis, -⟩ | ⟨-, -, hle, -⟩ | ⟨-, -, -, h⟩
    · rcases hdis with hd | hd
      · rw [hd] at hen; cases hen
      · omega
    · omega
    · rw [h]
      refine ⟨installed_activeTimers s cfg hok, ?_, ?_, rfl⟩
      · unfold Scheduler.installed; simp only; rw [hlen]
      · unfold Scheduler.installed; simp only
        rw [← hlen, List.getElem?_append_right (Nat.le_refl _), hper]
        simp
  · exact activeTimers_le_one_of_timersOk _ (UpdateSchedule_timersOk s cfg hok)
  · exact activeTimers_le_one_of_timersOk _ (updateAll_timersOk _ cfgs NewScheduler_timersOk)

/-- Example for `UpdateSchedule_timers`: a fresh scheduler configured hourly. -/
theorem UpdateSchedule_timers_example :
    activeTimers (UpdateSchedule NewScheduler hourlyConfig).1 = 1 ∧
    activeTimers (UpdateSchedule (UpdateSchedule NewScheduler hourlyConfig).1 hourlyConfig).1
      = 1 ∧
    activeTimers (UpdateSchedule (UpdateSchedule NewScheduler hourlyConfig).1 GetDefaultConfig).1
      = 0 :=
  ⟨(UpdateSchedule_timers NewScheduler hourlyConfig [] NewScheduler_timersOk).2.2.1
      (by decide) (by decide) (by decide) |>.1,
   by decide, by decide⟩

/-- C10 (the code departs from the claim). With the schedule enabled and an
interval of 153722868 minutes the period `time.Duration(interval) * time.Minute`
wraps around to a negative int64 and `time.NewTicker` panics: UpdateSchedule
does not return, and no ticker fires afterwards although the schedule is
enabled with a positive interval. From an armed scheduler the installed ticker
is stopped first, and nothing replaces it. -/
theorem UpdateSchedule_overflow_panics :
    overflowConfig.ScheduleEnabled = true ∧ 0 < overflowConfig.ScheduleIntervalMinutes ∧
    tickerPeriod overflowConfig.ScheduleIntervalMinutes = -9223371993709551616 ∧
    UpdateSchedule NewScheduler overflowConfig
      = (NewScheduler, some "non-positive interval for NewTicker") ∧
    activeTimers (UpdateSchedule NewScheduler overflowConfig).1 = 0 ∧
    activeTimers (UpdateSchedule NewScheduler hourlyConfig).1 = 1 ∧
    (UpdateSchedule (UpdateSchedule NewScheduler hourlyConfig).1 overflowConfig).2
      = some "non-positive interval for NewTicker" ∧
    activeTimers (UpdateSchedule (UpdateSchedule NewScheduler hourlyConfig).1 overflowConfig).1
      = 0 := by
  refine ⟨by decide, by decide, by decide, by decide, by decide, by decide, by decide, by decide⟩

/-! ### Live stream -/

theorem selectSend_eq (cap : Nat) (ch : List String) (m : String) :
    selectSend cap ch m = if ch.length < cap then ch ++ [m] else ch := rfl

theorem selectSend_length_le (cap : Nat) (ch : List String) (m : String)
    (h : ch.length ≤ cap) : (selectSend cap ch m).length ≤ cap := by
  unfold selectSend
  split
  · simp; omega
  · exact h

theorem seedFold_eq (hist : List String) (ch : List String) :
    hist.foldl (fun ch entry => selectSend clientChanCap ch (seedRecord entry)) ch
      = ch ++ (hist.take (clientChanCap - ch.length)).map seedRecord := by
  induction hist generalizing ch with
  | nil => simp
  | cons e es ih =>
    rw [List.foldl_cons, ih, selectSend_eq]
    by_cases hlt : ch.length < clientChanCap
    · rw [if_pos hlt]
      have hsub : clientChanCap - ch.length
          = (clientChanCap - (ch ++ [seedRecord e]).length) + 1 := by
        simp; omega
      rw [hsub, List.take_succ_cons]
      simp
    · rw [if_neg hlt]
      have hz : clientChanCap - ch.length = 0 := by omega
      simp [hz]

theorem seedClient_eq_take (hist : List String) :
    seedClient hist = (hist.take 10).map seedRecord := by
  unfold seedClient
  rw [seedFold_eq]
  simp [clientChanCap]

theorem seedClient_length_le (hist : List String) : (seedClient hist).length ≤ clientChanCap := by
  rw [seedClient_eq_take]
  simp [clientChanCap]

theorem seedClient_snoc (hist : List String) (entry : String) :
    seedClient (hist ++ [entry]) = selectSend clientChanCap (seedClient hist) (seedRecord entry) := by
  simp [seedClient, List.foldl_append]

/-- C8 (the code departs from the claim). When a subscriber connects while the
Event Log holds eleven entries, its queue is seeded with the records of the
first ten entries only: the non-blocking send into the channel of capacity 10
drops the record of the eleventh entry, which the subscriber never receives
from the replay. In general only the first ten entries are replayed. -/
theorem streamHandler_replay_drops_eleventh :
    ((Hub.init GetDefaultConfig).run elevenLogsThenConnect).server.logHistory.length = 11 ∧
    (((Hub.init GetDefaultConfig).run elevenLogsThenConnect).clients.map
        fun c => c.clientChan.length) = [10] ∧
    (((Hub.init GetDefaultConfig).run elevenLogsThenConnect).clients.map
        fun c => c.clientChan)
      = [(((Hub.init GetDefaultConfig).run elevenLogsThenConnect).server.logHistory.take 10).map
          seedRecord] ∧
    (((Hub.init GetDefaultConfig).run elevenLogsThenConnect).clients.map
        fun c => decide (seedRecord "[12:00:11] m11" ∈ c.clientChan)) = [false] ∧
    ((Hub.init GetDefaultConfig).run elevenLogsThenConnect).server.logHistory.getLast?
      = some "[12:00:11] m11" ∧
    (∀ hist : List String, seedClient hist = (hist.take 10).map seedRecord) := by
  refine ⟨by decide, by decide, by decide, by decide, by decide, seedClient_eq_take⟩

theorem forward_of_empty (h : Hub) (i : Nat) (hq : h.server.messageQueue = []) :
    h.forward i = h := by
  unfold Hub.forward
  rw [hq]
  cases h.clients[i]? <;> rfl

/-- C7, counterexample. Two subscribers are connected with empty queues and a
progress message is published. Whichever forwarding goroutine takes it, the
message reaches the queue of that subscriber only; the message queue is then
empty, no later forwarding step changes anything, and the other subscriber,
whose queue is empty and not full, never gets the message. -/
theorem fanout_counterexample :
    (((Hub.init GetDefaultConfig).run twoClientsOneMessage).clients.map fun c => c.clientChan)
      = [[], []] ∧
    ((Hub.init GetDefaultConfig).run twoClientsOneMessage).server.messageQueue
      = [record "progress" "1/2"] ∧
    ((((Hub.init GetDefaultConfig).run twoClientsOneMessage).step (HubStep.forward 0)).clients.map
        fun c => c.clientChan)
      = [[wrapData (record "progress" "1/2")], []] ∧
    ((((Hub.init GetDefaultConfig).run twoClientsOneMessage).step (HubStep.forward 1)).clients.map
        fun c => c.clientChan)
      = [[], [wrapData (record "progress" "1/2")]] ∧
    (((Hub.init GetDefaultConfig).run twoClientsOneMessage).step
        (HubStep.forward 0)).server.messageQueue = [] ∧
    (((Hub.init GetDefaultConfig).run twoClientsOneMessage).step
        (HubStep.forward 1)).server.messageQueue = [] ∧
    (∀ i : Nat,
      (((Hub.init GetDefaultConfig).run twoClientsOneMessage).step (HubStep.forward 0)).step
          (HubStep.forward i)
        = ((Hub.init GetDefaultConfig).run twoClientsOneMessage).step (HubStep.forward 0)) := by
  refine ⟨by decide, by decide, by decide, by decide, by decide, by decide, ?_⟩
  intro i
  exact forward_of_empty _ i (by decide)

/-- C7, amended. Publishing (addLog, sendProgress, sendStatus) offers the record
once to the message queue and changes no subscriber queue. A forwarding step of
connection `i` takes the head of the message queue and delivers it to
connection `i` alone: its frame is appended to that queue when the queue is not
full and dropped otherwise, and every other connection is unchanged. -/
theorem forward_single_receiver (h : Hub) (i : Nat) (c : Client) (m : String)
    (rest : List String) (now text : String)
    (hc : h.clients[i]? = some c) (hrun : c.forwarderExited = false)
    (hq : h.server.messageQueue = m :: rest) :
    (h.step (HubStep.forward i)).server.messageQueue = rest ∧
    (h.step (HubStep.forward i)).clients[i]? = some (c.offer m) ∧
    (c.offer m).clientChan
      = (if c.clientChan.length < 10 then c.clientChan ++ ["data: " ++ m ++ "\n\n"]
         else c.clientChan) ∧
    (∀ j : Nat, j ≠ i → (h.step (HubStep.forward i)).clients[j]? = h.clients[j]?) ∧
    (h.step (HubStep.sendProgress text)).clients = h.clients ∧
    (h.step (HubStep.sendStatus text)).clients = h.clients ∧
    (h.step (HubStep.addLog now text)).clients = h.clients ∧
    (h.step (HubStep.sendProgress text)).server.messageQueue
      = selectSend 100 h.server.messageQueue (record "progress" text) := by
  have hi : i < h.clients.length := by
    rcases Nat.lt_or_ge i h.clients.length with hlt | hge
    · exact hlt
    · rw [List.getElem?_eq_none hge] at hc; cases hc
  have hfw : h.step (HubStep.forward i)
      = { server := { h.server with messageQueue := rest }
          clients := h.clients.set i (c.offer m) } := by
    show h.forward i = _
    unfold Hub.forward
    rw [hc, hq]
    simp [hrun]
  refine ⟨?_, ?_, ?_, ?_, rfl, rfl, rfl, rfl⟩
  · rw [hfw]
  · rw [hfw]
    show (h.clients.set i (c.offer m))[i]? = _
    rw [List.getElem?_set_self hi]
  · rfl
  · intro j hj
    rw [hfw]
    show (h.clients.set i (c.offer m))[j]? = _
    rw [List.getElem?_set_ne (Ne.symm hj)]

/-- Witness for C7 amended: connection 0 of two takes the progress message. -/
theorem forward_single_receiver_witness :
    (((Hub.init GetDefaultConfig).run twoClientsOneMessage).step
        (HubStep.forward 0)).server.messageQueue = [] ∧
    (((Hub.init GetDefaultConfig).run twoClientsOneMessage).step (HubStep.forward 0)).clients[1]?
      = ((Hub.init GetDefaultConfig).run twoClientsOneMessage).clients[1]? :=
  ⟨(forward_single_receiver ((Hub.init GetDefaultConfig).run twoClientsOneMessage) 0
      (newClient []) (record "progress" "1/2") [] "" "" (by decide) (by decide) (by decide)).1,
   (forward_single_receiver ((Hub.init GetDefaultConfig).run twoClientsOneMessage) 0
      (newClient []) (record "progress" "1/2") [] "" "" (by decide) (by decide)
      (by decide)).2.2.2.1 1 (by decide)⟩

theorem mem_of_getElem?_some {α : Type} {l : List α} {i : Nat} {a : α}
    (h : l[i]? = some a) : a ∈ l :=
  List.mem_iff_getElem?.mpr ⟨i, h⟩

theorem Client.Ok_of_same_queue (c : Client) (s s1 : Server) (h : c.Ok s)
    (hq : s1.messageQueue = s.messageQueue) (hp : s1.published = s.published) : c.Ok s1 := by
  unfold Client.Ok at h ⊢
  rw [hq, hp]
  exact h

theorem Client.Ok_of_same_lists (c c1 : Client) (s : Server) (h : c.Ok s)
    (h1 : c1.clientChan = c.clientChan) (h2 : c1.written = c.written)
    (h3 : c1.replayed = c.replayed) (h4 : c1.forwarded = c.forwarded) : c1.Ok s := by
  unfold Client.Ok at h ⊢
  rw [h1, h2, h3, h4]
  exact h

theorem Hub.Ok_publish (h : Hub) (s1 : Server) (r : String) (hok : h.Ok)
    (hq : s1.messageQueue = selectSend messageQueueCap h.server.messageQueue r)
    (hp : s1.published = h.server.published ++ [r]) :
    Hub.Ok { h with server := s1 } := by
  obtain ⟨hlen, hsub, hcl⟩ := hok
  have hsend : ∀ (pre : List String), (pre ++ h.server.messageQueue).Sublist h.server.published →
      (pre ++ selectSend messageQueueCap h.server.messageQueue r).Sublist
        (h.server.published ++ [r]) := by
    intro pre hpre
    unfold selectSend
    split
    · rw [← List.append_assoc]
      exact List.Sublist.append hpre (List.Sublist.refl _)
    · exact hpre.trans (List.sublist_append_left _ _)
  refine ⟨?_, ?_, ?_⟩
  · show s1.messageQueue.length ≤ messageQueueCap
    rw [hq]; exact selectSend_length_le _ _ _ hlen
  · show s1.messageQueue.Sublist s1.published
    rw [hq, hp]
    simpa using hsend [] (by simpa using hsub)
  · intro c hc
    obtain ⟨c1, c2, c3⟩ := hcl c hc
    refine ⟨c1, c2, ?_⟩
    show (c.forwarded ++ s1.messageQueue).Sublist s1.published
    rw [hq, hp]
    exact hsend _ c3

theorem Hub.Ok_updateClient (h : Hub) (i : Nat) (f : Client → Client) (hok : h.Ok)
    (hf : ∀ c, (f c).clientChan = c.clientChan ∧ (f c).written = c.written ∧
      (f c).replayed = c.replayed ∧ (f c).forwarded = c.forwarded) :
    (h.updateClient i f).Ok := by
  unfold Hub.updateClient
  split
  · rename_i c hc
    obtain ⟨hlen, hsub, hcl⟩ := hok
    refine ⟨hlen, hsub, ?_⟩
    intro c1 hc1
    rcases List.mem_or_eq_of_mem_set hc1 with hmem | heq
    · exact hcl c1 hmem
    · subst heq
      have hcmem : c ∈ h.clients := mem_of_getElem?_some hc
      obtain ⟨f1, f2, f3, f4⟩ := hf c
      exact Client.Ok_of_same_lists c (f c) h.server (hcl c hcmem) f1 f2 f3 f4
  · exact hok

theorem Hub.Ok_forward (h : Hub) (i : Nat) (hok : h.Ok) : (h.forward i).Ok := by
  unfold Hub.forward
  split
  · rename_i c m rest hc hq
    split
    · exact hok
    · obtain ⟨hlen, hsub, hcl⟩ := hok
      have hcmem : c ∈ h.clients := mem_of_getElem?_some hc
      have hdrop : ∀ (pre : List String), (pre ++ h.server.messageQueue).Sublist h.server.published →
          (pre ++ rest).Sublist h.server.published := by
        intro pre hpre
        rw [hq] at hpre
        exact (List.Sublist.append (List.Sublist.refl pre) (List.sublist_cons_self m rest)).trans hpre
      refine ⟨?_, ?_, ?_⟩
      · show rest.length ≤ messageQueueCap
        rw [hq] at hlen
        simp at hlen
        omega
      · show rest.Sublist h.server.published
        simpa using hdrop [] (by simpa using hsub)
      · intro c1 hc1
        rcases List.mem_or_eq_of_mem_set hc1 with hmem | heq
        · obtain ⟨a1, a2, a3⟩ := hcl c1 hmem
          exact ⟨a1, a2, hdrop _ a3⟩
        · subst heq
          obtain ⟨a1, a2, a3⟩ := hcl c hcmem
          unfold Client.offer Client.Ok
          simp only [selectSend]
          by_cases hroom : c.clientChan.length < clientChanCap
          · simp only [if_pos hroom]
            refine ⟨?_, ?_, ?_⟩
            · simp; omega
            · rw [← List.append_assoc, a2]
              simp
            · show ((c.forwarded ++ [m]) ++ rest).Sublist h.server.published
              rw [hq] at a3
              simpa using a3
          · simp only [if_neg hroom]
            exact ⟨a1, a2, hdrop _ a3⟩
  · exact hok

theorem Hub.Ok_write (h : Hub) (i : Nat) (hok : h.Ok) : (h.write i).Ok := by
  unfold Hub.write
  split
  · rename_i c hc
    split
    · rename_i m rest hchan
      split
      · exact hok
      · obtain ⟨hlen, hsub, hcl⟩ := hok
        have hcmem : c ∈ h.clients := mem_of_getElem?_some hc
        refine ⟨hlen, hsub, ?_⟩
        intro c1 hc1
        rcases List.mem_or_eq_of_mem_set hc1 with hmem | heq
        · exact hcl c1 hmem
        · subst heq
          obtain ⟨a1, a2, a3⟩ := hcl c hcmem
          rw [hchan] at a1 a2
          refine ⟨?_, ?_, a3⟩
          · show rest.length ≤ clientChanCap
            simp at a1; omega
          · show (c.written ++ [m]) ++ rest = c.replayed ++ c.forwarded.map wrapData
            rw [← a2]; simp
    · exact hok
  · exact hok

theorem Hub.Ok_step (h : Hub) (st : HubStep) (hok : h.Ok) : (h.step st).Ok := by
  cases st with
  | addLog now message => exact Hub.Ok_publish h _ _ hok rfl rfl
  | sendProgress message => exact Hub.Ok_publish h _ _ hok rfl rfl
  | sendStatus message => exact Hub.Ok_publish h _ _ hok rfl rfl
  | connect =>
    obtain ⟨hlen, hsub, hcl⟩ := hok
    refine ⟨hlen, hsub, ?_⟩
    intro c hc
    show c.Ok h.server
    have hc1 : c ∈ h.clients ++ [newClient h.server.logHistory] := hc
    rcases List.mem_append.mp hc1 with hmem | hnew
    · exact hcl c hmem
    · rw [List.mem_singleton] at hnew
      subst hnew
      refine ⟨seedClient_length_le _, ?_, ?_⟩
      · simp [newClient]
      · simpa [newClient] using hsub
  | forward i => exact Hub.Ok_forward h i hok
  | write i => exact Hub.Ok_write h i hok
  | cancel i => exact Hub.Ok_updateClient h i _ hok (fun c => ⟨rfl, rfl, rfl, rfl⟩)
  | forwarderExit i =>
    refine Hub.Ok_updateClient h i _ hok (fun c => ?_)
    by_cases hd : c.ctxDone = true <;> simp [hd]
  | handlerReturn i =>
    refine Hub.Ok_updateClient h i _ hok (fun c => ?_)
    by_cases hd : c.ctxDone = true <;> simp [hd]
  | download method =>
    obtain ⟨hlen, hsub, hcl⟩ := hok
    have hq : (h.server.downloadHandler method).server.messageQueue = h.server.messageQueue := by
      unfold Server.downloadHandler
      split
      · rfl
      · split <;> rfl
    have hp : (h.server.downloadHandler method).server.published = h.server.published := by
      unfold Server.downloadHandler
      split
      · rfl
      · split <;> rfl
    refine ⟨?_, ?_, ?_⟩
    · show (h.server.downloadHandler method).server.messageQueue.length ≤ messageQueueCap
      rw [hq]; exact hlen
    · show (h.server.downloadHandler method).server.messageQueue.Sublist
        (h.server.downloadHandler method).server.published
      rw [hq, hp]; exact hsub
    · intro c hc
      exact Client.Ok_of_same_queue c h.server _ (hcl c hc) hq hp
  | taskDone =>
    obtain ⟨hlen, hsub, hcl⟩ := hok
    exact ⟨hlen, hsub, fun c hc => Client.Ok_of_same_queue c h.server _ (hcl c hc) rfl rfl⟩

theorem Hub.Ok_run (h : Hub) (steps : List HubStep) (hok : h.Ok) : (h.run steps).Ok := by
  induction steps generalizing h with
  | nil => exact hok
  | cons st rest ih => exact ih (h.step st) (Hub.Ok_step h st hok)

theorem Hub.Ok_init (cfg : Config) : (Hub.init cfg).Ok := by
  refine ⟨by simp [Hub.init, NewServer], by simp [Hub.init, NewServer], ?_⟩
  intro c hc
  simp [Hub.init] at hc

/-- C9, counterexample. A log is published while nobody is connected; a
subscriber then connects. It receives the frame of the log entry twice, once
from the replay of the history and once from the message queue, although the
record was published once: what it receives is no subsequence of the published
records. -/
theorem replay_duplicates_published :
    ((Hub.init GetDefaultConfig).run logThenConnect).server.published
      = [record "log" "[12:00:00] hello"] ∧
    (((Hub.init GetDefaultConfig).run logThenConnect).clients.map fun c => c.written)
      = [[wrapData (record "log" "[12:00:00] hello"),
          wrapData (record "log" "[12:00:00] hello")]] ∧
    ¬ List.Sublist
        [wrapData (record "log" "[12:00:00] hello"), wrapData (record "log" "[12:00:00] hello")]
        (((Hub.init GetDefaultConfig).run logThenConnect).server.published.map wrapData) := by
  refine ⟨by decide, by decide, ?_⟩
  intro hsub
  have hlen := hsub.length_le
  have hpub : (((Hub.init GetDefaultConfig).run logThenConnect).server.published.map
      wrapData).length = 1 := by decide
  rw [hpub] at hlen
  exact absurd hlen (by decide)

/-- C9, amended. Every send into a bounded queue is send-or-drop: the sends of
addLog, sendProgress and sendStatus into the message queue (capacity 100), the
send of the forwarding goroutine and every send of the history replay into the
subscriber queue (capacity 10) leave a full queue unchanged and append at the
tail otherwise. Hence in every state reached from `NewServer` the message
queue holds at most 100 and every subscriber queue at most 10 messages, and
what a subscriber has received or has pending is the replayed frames followed
by the frames of the forwarded records, the forwarded records being a
subsequence of the published records in publish order. -/
theorem bounded_lossy_delivery (s : Server) (c : Client) (now m : String)
    (hist : List String) (cfg : Config) (steps : List HubStep) (i : Nat) (cl : Client)
    (hcl : ((Hub.init cfg).run steps).clients[i]? = some cl) :
    (s.addLog now m).messageQueue
      = (if s.messageQueue.length < 100 then
          s.messageQueue ++ [record "log" (escapeQuotes (logEntry now m))]
         else s.messageQueue) ∧
    (s.sendProgress m).messageQueue
      = (if s.messageQueue.length < 100 then s.messageQueue ++ [record "progress" m]
         else s.messageQueue) ∧
    (s.sendStatus m).messageQueue
      = (if s.messageQueue.length < 100 then s.messageQueue ++ [record "status" m]
         else s.messageQueue) ∧
    (c.offer m).clientChan
      = (if c.clientChan.length < 10 then c.clientChan ++ [wrapData m] else c.clientChan) ∧
    seedClient (hist ++ [m])
      = (if (seedClient hist).length < 10 then seedClient hist ++ [seedRecord m]
         else seedClient hist) ∧
    ((Hub.init cfg).run steps).server.messageQueue.length ≤ 100 ∧
    cl.clientChan.length ≤ 10 ∧
    cl.written ++ cl.clientChan = cl.replayed ++ cl.forwarded.map wrapData ∧
    cl.forwarded.Sublist ((Hub.init cfg).run steps).server.published := by
  obtain ⟨hlen, -, hclients⟩ := Hub.Ok_run _ steps (Hub.Ok_init cfg)
  obtain ⟨a1, a2, a3⟩ := hclients cl (mem_of_getElem?_some hcl)
  refine ⟨rfl, rfl, rfl, rfl, seedClient_snoc hist m, hlen, a1, a2, ?_⟩
  exact (List.sublist_append_left _ _).trans a3

/-- Witness for C9 amended: the connection of `logThenConnect`. -/
theorem bounded_lossy_delivery_witness :
    ((Hub.init GetDefaultConfig).run logThenConnect).clients[0]? = some logThenConnectClient ∧
    logThenConnectClient.written ++ logThenConnectClient.clientChan
      = logThenConnectClient.replayed ++ logThenConnectClient.forwarded.map wrapData ∧
    List.Sublist logThenConnectClient.forwarded
      ((Hub.init GetDefaultConfig).run logThenConnect).server.published :=
  ⟨by decide,
   (bounded_lossy_delivery (NewServer GetDefaultConfig) (newClient []) "" "" []
      GetDefaultConfig logThenConnect 0 logThenConnectClient (by decide)).2.2.2.2.2.2.2.1,
   (bounded_lossy_delivery (NewServer GetDefaultConfig) (newClient []) "" "" []
      GetDefaultConfig logThenConnect 0 logThenConnectClient (by decide)).2.2.2.2.2.2.2.2⟩

/-! ### Scheduler shutdown -/

theorem Stop_of_not_running (s : Scheduler) (h : s.running = false) : s.Stop = (s, none) := by
  unfold Scheduler.Stop
  simp [h]

theorem Stop_running (s : Scheduler) : s.Stop.1.running = false := by
  unfold Scheduler.Stop
  cases hr : s.running
  · simp [hr]
  · cases hc : s.stopClosed <;> simp [hc]

theorem Stop_of_running_open (s : Scheduler) (hr : s.running = true)
    (ho : s.stopClosed = false) :
    s.Stop = ({ s with running := false, stopClosed := true }, none) := by
  unfold Scheduler.Stop
  simp [hr, ho]

theorem Stop_tickers (s : Scheduler) :
    s.Stop.1.tickers = s.tickers ∧ s.Stop.1.ticker = s.ticker ∧
    s.Stop.1.runWaiting = s.runWaiting ∧ s.Stop.1.workers = s.workers := by
  unfold Scheduler.Stop
  cases hr : s.running
  · simp
  · cases hc : s.stopClosed <;> simp

theorem setWorker_core (s : Scheduler) (j : Nat) (st : WorkerState) :
    (s.setWorker j st).tickers = s.tickers ∧ (s.setWorker j st).ticker = s.ticker ∧
    (s.setWorker j st).running = s.running ∧ (s.setWorker j st).stopClosed = s.stopClosed ∧
    (s.setWorker j st).runWaiting = s.runWaiting := by
  unfold Scheduler.setWorker
  split <;> exact ⟨rfl, rfl, rfl, rfl, rfl⟩

theorem workerEnter_core (s : Scheduler) (j : Nat) :
    (s.workerEnter j).tickers = s.tickers ∧ (s.workerEnter j).ticker = s.ticker ∧
    (s.workerEnter j).running = s.running ∧ (s.workerEnter j).stopClosed = s.stopClosed ∧
    (s.workerEnter j).runWaiting = s.runWaiting := by
  unfold Scheduler.workerEnter
  split
  · split
    · split <;> exact setWorker_core s j _
    · exact ⟨rfl, rfl, rfl, rfl, rfl⟩
  · exact ⟨rfl, rfl, rfl, rfl, rfl⟩

theorem tick_core (s : Scheduler) (j : Nat) :
    (s.tick j).tickers = s.tickers ∧ (s.tick j).ticker = s.ticker ∧
    (s.tick j).running = s.running ∧ (s.tick j).stopClosed = s.stopClosed ∧
    (s.tick j).runWaiting = s.runWaiting := by
  unfold Scheduler.tick
  split
  · exact setWorker_core s j _
  · exact ⟨rfl, rfl, rfl, rfl, rfl⟩

theorem taskReturn_core (s : Scheduler) (j : Nat) :
    (s.taskReturn j).tickers = s.tickers ∧ (s.taskReturn j).ticker = s.ticker ∧
    (s.taskReturn j).running = s.running ∧ (s.taskReturn j).stopClosed = s.stopClosed ∧
    (s.taskReturn j).runWaiting = s.runWaiting := by
  unfold Scheduler.taskReturn
  split
  · split
    · exact setWorker_core s j _
    · exact ⟨rfl, rfl, rfl, rfl, rfl⟩
  · exact ⟨rfl, rfl, rfl, rfl, rfl⟩

theorem workerStop_core (s : Scheduler) (j : Nat) :
    (s.workerStop j).tickers = s.tickers ∧ (s.workerStop j).ticker = s.ticker ∧
    (s.workerStop j).running = s.running ∧ (s.workerStop j).stopClosed = s.stopClosed ∧
    (s.workerStop j).runWaiting = s.runWaiting := by
  unfold Scheduler.workerStop
  split
  · split
    · split
      · exact setWorker_core s j _
      · exact ⟨rfl, rfl, rfl, rfl, rfl⟩
    · exact ⟨rfl, rfl, rfl, rfl, rfl⟩
  · exact ⟨rfl, rfl, rfl, rfl, rfl⟩

theorem stopExisting_flags (s : Scheduler) :
    s.stopExisting.running = s.running ∧ s.stopExisting.stopClosed = s.stopClosed ∧
    s.stopExisting.runWaiting = s.runWaiting := by
  unfold Scheduler.stopExisting
  split <;> exact ⟨rfl, rfl, rfl⟩

theorem UpdateSchedule_flags (s : Scheduler) (cfg : Config) :
    (UpdateSchedule s cfg).1.running = s.running ∧
    (UpdateSchedule s cfg).1.stopClosed = s.stopClosed ∧
    (UpdateSchedule s cfg).1.runWaiting = s.runWaiting := by
  rcases UpdateSchedule_cases s cfg with ⟨-, h⟩ | ⟨-, -, -, h⟩ | ⟨-, -, -, h⟩ <;> rw [h]
  · exact stopExisting_flags s
  · exact stopExisting_flags s
  · exact stopExisting_flags s

theorem timersOk_of_same (s s1 : Scheduler) (h : s.TimersOk)
    (ht : s1.tickers = s.tickers) (hk : s1.ticker = s.ticker) : s1.TimersOk := by
  unfold Scheduler.TimersOk at h ⊢
  rw [ht, hk]
  exact h

theorem stopTicker_timersOk (s : Scheduler) (id : Nat) (h : s.TimersOk)
    (s1 : Scheduler) (ht : s1.tickers = stopTicker s.tickers id) (hk : s1.ticker = s.ticker) :
    s1.TimersOk := by
  constructor
  · intro k t hkt hact
    rw [ht] at hkt
    by_cases hidk : id = k
    · subst hidk
      rw [stopTicker_getElem?_self _ _ _ hkt] at hact
      cases hact
    · rw [stopTicker_getElem?_ne _ _ _ hidk] at hkt
      rw [hk]
      exact h.1 k t hkt hact
  · intro i hi
    rw [ht, stopTicker_length]
    rw [hk] at hi
    exact h.2 i hi

theorem runWake_timersOk (s : Scheduler) (h : s.TimersOk) : s.runWake.TimersOk := by
  unfold Scheduler.runWake
  split
  · split
    · rename_i id _
      exact stopTicker_timersOk s id h _ rfl rfl
    · exact timersOk_of_same s _ h rfl rfl
  · exact h

theorem schedulerOk_step (s : Scheduler) (st : SchedStep) (h : s.Ok) : (s.step st).Ok := by
  obtain ⟨ht, hw⟩ := h
  cases st with
  | update cfg =>
    obtain ⟨f1, f2, f3⟩ := UpdateSchedule_flags s cfg
    refine ⟨UpdateSchedule_timersOk s cfg ht, ?_⟩
    show (UpdateSchedule s cfg).1.running = true → (UpdateSchedule s cfg).1.stopClosed = false →
      0 < (UpdateSchedule s cfg).1.runWaiting
    rw [f1, f2, f3]
    exact hw
  | runEnter =>
    show s.runEnter.Ok
    unfold Scheduler.runEnter
    cases hr : s.running
    · simp only [Bool.false_eq_true, if_false]
      exact ⟨timersOk_of_same s _ ht rfl rfl, fun _ _ => Nat.succ_pos _⟩
    · simp only [if_true]
      exact ⟨ht, hw⟩
  | runWake =>
    refine ⟨runWake_timersOk s ht, ?_⟩
    show s.runWake.running = true → s.runWake.stopClosed = false → 0 < s.runWake.runWaiting
    unfold Scheduler.runWake
    split
    · rename_i hcond
      split
      · intro _ hopen
        simp only at hopen
        rw [hcond.1] at hopen
        cases hopen
      · intro _ hopen
        simp only at hopen
        rw [hcond.1] at hopen
        cases hopen
    · exact hw
  | stop =>
    obtain ⟨f1, f2, -, -⟩ := Stop_tickers s
    refine ⟨timersOk_of_same s _ ht f1 f2, ?_⟩
    intro hr
    have := Stop_running s
    change s.Stop.1.running = true at hr
    rw [this] at hr
    cases hr
  | workerEnter j =>
    obtain ⟨f1, f2, f3, f4, f5⟩ := workerEnter_core s j
    refine ⟨timersOk_of_same s _ ht f1 f2, ?_⟩
    show (s.workerEnter j).running = true → (s.workerEnter j).stopClosed = false →
      0 < (s.workerEnter j).runWaiting
    rw [f3, f4, f5]; exact hw
  | tick j =>
    obtain ⟨f1, f2, f3, f4, f5⟩ := tick_core s j
    refine ⟨timersOk_of_same s _ ht f1 f2, ?_⟩
    show (s.tick j).running = true → (s.tick j).stopClosed = false → 0 < (s.tick j).runWaiting
    rw [f3, f4, f5]; exact hw
  | taskReturn j =>
    obtain ⟨f1, f2, f3, f4, f5⟩ := taskReturn_core s j
    refine ⟨timersOk_of_same s _ ht f1 f2, ?_⟩
    show (s.taskReturn j).running = true → (s.taskReturn j).stopClosed = false →
      0 < (s.taskReturn j).runWaiting
    rw [f3, f4, f5]; exact hw
  | workerStop j =>
    obtain ⟨f1, f2, f3, f4, f5⟩ := workerStop_core s j
    refine ⟨timersOk_of_same s _ ht f1 f2, ?_⟩
    show (s.workerStop j).running = true → (s.workerStop j).stopClosed = false →
      0 < (s.workerStop j).runWaiting
    rw [f3, f4, f5]; exact hw

theorem schedulerOk_runSteps (s : Scheduler) (steps : List SchedStep) (h : s.Ok) :
    (s.runSteps steps).Ok := by
  induction steps generalizing s with
  | nil => exact h
  | cons st rest ih => exact ih (s.step st) (schedulerOk_step s st h)

theorem schedulerOk_new : NewScheduler.Ok :=
  ⟨NewScheduler_timersOk, fun h => by simp [NewScheduler] at h⟩

theorem canTick_of_allStopped (s : Scheduler) (h : s.AllStopped) (j : Nat) :
    s.canTick j = false := by
  unfold Scheduler.canTick
  split
  · split
    · split
      · rename_i t ht
        exact h _ t ht
      · rfl
    · rfl
  · rfl

theorem allStopped_of_same (s s1 : Scheduler) (h : s.AllStopped) (ht : s1.tickers = s.tickers) :
    s1.AllStopped := by
  unfold Scheduler.AllStopped at h ⊢
  rw [ht]
  exact h

theorem stopTicker_allStopped (tickers : List Ticker) (id : Nat)
    (h : ∀ (k : Nat) (t : Ticker), tickers[k]? = some t → t.active = false) :
    ∀ (k : Nat) (t : Ticker), (stopTicker tickers id)[k]? = some t → t.active = false := by
  intro k t hkt
  by_cases hid : id = k
  · subst hid
    exact stopTicker_getElem?_self _ _ _ hkt
  · rw [stopTicker_getElem?_ne _ _ _ hid] at hkt
    exact h k t hkt

theorem allStopped_step (s : Scheduler) (st : SchedStep) (h : s.AllStopped)
    (hst : st.isUpdate = false) : (s.step st).AllStopped := by
  cases st with
  | update cfg => cases hst
  | runEnter =>
    show s.runEnter.AllStopped
    unfold Scheduler.runEnter
    split
    · exact h
    · exact allStopped_of_same s _ h rfl
  | runWake =>
    show s.runWake.AllStopped
    unfold Scheduler.runWake
    split
    · split
      · exact stopTicker_allStopped s.tickers _ h
      · exact allStopped_of_same s _ h rfl
    · exact h
  | stop => exact allStopped_of_same s _ h (Stop_tickers s).1
  | workerEnter j => exact allStopped_of_same s _ h (workerEnter_core s j).1
  | tick j => exact allStopped_of_same s _ h (tick_core s j).1
  | taskReturn j => exact allStopped_of_same s _ h (taskReturn_core s j).1
  | workerStop j => exact allStopped_of_same s _ h (workerStop_core s j).1

theorem allStopped_runSteps (s : Scheduler) (more : List SchedStep) (h : s.AllStopped)
    (hmore : ∀ st ∈ more, st.isUpdate = false) : (s.runSteps more).AllStopped := by
  induction more generalizing s with
  | nil => exact h
  | cons st rest ih =>
    exact ih (s.step st) (allStopped_step s st h (hmore st (List.mem_cons_self _ _)))
      (fun st1 h1 => hmore st1 (List.mem_cons_of_mem _ h1))

theorem runWake_after_Stop_allStopped (s : Scheduler) (h : s.Ok) (hr : s.running = true)
    (ho : s.stopClosed = false) : s.Stop.1.runWake.AllStopped := by
  have hw : 0 < s.runWaiting := h.2 hr ho
  have hall := stopExisting_all_inactive s h.1
  rw [Stop_of_running_open s hr ho]
  unfold Scheduler.runWake
  simp only [true_and, hw, if_true]
  unfold Scheduler.stopExisting at hall
  split
  · rename_i id hid
    rw [show s.ticker = some id from hid] at hall
    exact hall
  · rename_i hid
    rw [show s.ticker = none from hid] at hall
    exact hall

/-- C11, counterexample. A scheduler is configured hourly and its goroutine
waits for the first tick, but `Run` was never called. `Stop` returns without
doing anything: the ticker still fires, the goroutine can still take a tick and
start a scheduled run, and no later wake-up of `Run` stops the ticker. -/
theorem Stop_leaves_armed_timer :
    armedNotRunning.running = false ∧
    activeTimers armedNotRunning = 1 ∧
    armedNotRunning.Stop = (armedNotRunning, none) ∧
    activeTimers armedNotRunning.Stop.1 = 1 ∧
    armedNotRunning.Stop.1.canTick 0 = true ∧
    (armedNotRunning.Stop.1.tick 0).scheduledRuns = 1 ∧
    armedNotRunning.Stop.1.runWake = armedNotRunning := by
  refine ⟨by decide, by decide, by decide, by decide, by decide, by decide, by decide⟩

/-- C11, amended. `Stop` on a scheduler that is not running changes nothing and
does not fail; in every state a `Stop` that follows a `Stop` changes nothing
and does not fail, so `Stop` twice leaves the state of a single `Stop`; `Stop`
on a running scheduler whose stop channel is open clears `running` and closes
the channel, once, and leaves every ticker as it is. The armed timer is stopped
by the blocked call of `Run` when it wakes up: for a running scheduler reached
from `NewScheduler`, after `Stop` and that wake-up no ticker fires, and none
fires after any further steps that are not a reconfiguration. -/
theorem Stop_idempotent_cleanup_by_Run (s : Scheduler) (steps more : List SchedStep) (j : Nat)
    (hrun : (NewScheduler.runSteps steps).running = true)
    (hopen : (NewScheduler.runSteps steps).stopClosed = false)
    (hmore : ∀ st ∈ more, st.isUpdate = false) :
    (s.running = false → s.Stop = (s, none)) ∧
    s.Stop.1.Stop = (s.Stop.1, none) ∧
    (s.running = true → s.stopClosed = false →
      s.Stop = ({ s with running := false, stopClosed := true }, none)) ∧
    s.Stop.1.tickers = s.tickers ∧
    (NewScheduler.runSteps steps).Stop.2 = none ∧
    (NewScheduler.runSteps steps).Stop.1.stopClosed = true ∧
    activeTimers (NewScheduler.runSteps steps).Stop.1.runWake = 0 ∧
    ((NewScheduler.runSteps steps).Stop.1.runWake.runSteps more).canTick j = false := by
  have hok := schedulerOk_runSteps NewScheduler steps schedulerOk_new
  have hall := runWake_after_Stop_allStopped _ hok hrun hopen
  have hstop := Stop_of_running_open _ hrun hopen
  refine ⟨Stop_of_not_running s, Stop_of_not_running _ (Stop_running s),
    Stop_of_running_open s, (Stop_tickers s).1, ?_, ?_, ?_, ?_⟩
  · rw [hstop]
  · rw [hstop]
  · unfold activeTimers
    rw [filter_active_eq_nil _ hall]
    rfl
  · exact canTick_of_allStopped _ (allStopped_runSteps _ more hall hmore) j

/-- Witness for C11 amended: the scheduler as `main` sets it up, stopped, then
`Run` wakes up; the goroutine that could take a tick before no longer can. -/
theorem Stop_idempotent_cleanup_by_Run_witness :
    armedRunning.running = true ∧ armedRunning.canTick 0 = true ∧
    armedRunning.Stop.1.canTick 0 = true ∧
    activeTimers armedRunning.Stop.1.runWake = 0 ∧
    (armedRunning.Stop.1.runWake.runSteps [SchedStep.tick 0, SchedStep.workerStop 0]).canTick 0
      = false :=
  ⟨by decide, by decide, by decide,
   (Stop_idempotent_cleanup_by_Run NewScheduler
      [SchedStep.update hourlyConfig, SchedStep.runEnter, SchedStep.workerEnter 0]
      [SchedStep.tick 0, SchedStep.workerStop 0] 0 (by decide) (by decide)
      (by decide)).2.2.2.2.2.2.1,
   (Stop_idempotent_cleanup_by_Run NewScheduler
      [SchedStep.update hourlyConfig, SchedStep.runEnter, SchedStep.workerEnter 0]
      [SchedStep.tick 0, SchedStep.workerStop 0] 0 (by decide) (by decide)
      (by decide)).2.2.2.2.2.2.2⟩

/-- A second close of the stop channel: after `Run`, `Stop` and `Run` again the
scheduler is running with its stop channel closed, and `Stop` panics. -/
theorem Stop_after_restart_panics :
    restartedAfterStop.running = true ∧ restartedAfterStop.stopClosed = true ∧
    restartedAfterStop.Stop.2 = some "close of closed channel" := by
  refine ⟨by decide, by decide, by decide⟩

/-! ### Stream record escaping -/

theorem quotesEscapedFrom_escaped (l : List Char) (prev : Option Char) :
    quotesEscapedFrom prev
      (l.flatMap fun c => if c = dquote then [backslash, dquote] else [c]) = true := by
  induction l generalizing prev with
  | nil => rfl
  | cons c cs ih =>
    rw [List.flatMap_cons]
    by_cases hc : c = dquote
    · rw [if_pos hc]
      have hne : backslash ≠ dquote := by decide
      simp only [List.cons_append, List.nil_append, quotesEscapedFrom, if_neg hne, if_true,
        decide_True, Bool.true_and]
      exact ih _
    · rw [if_neg hc]
      simp only [List.cons_append, List.nil_append, quotesEscapedFrom, if_neg hc, Bool.true_and]
      exact ih _

theorem escapeQuotes_quotesEscaped (text : String) : quotesEscaped (escapeQuotes text) = true :=
  quotesEscapedFrom_escaped text.toList none

theorem ite_ne_dquote {c : Prop} [Decidable c] {a b : Char} (ha : a ≠ dquote)
    (hb : b ≠ dquote) : (if c then a else b) ≠ dquote := by
  split <;> assumption

theorem digitChar_ne_dquote (d : Nat) : Nat.digitChar d ≠ dquote := by
  unfold Nat.digitChar
  repeat' (first | decide | apply ite_ne_dquote)

theorem toDigitsCore_no_dquote (base : Nat) (fuel n : Nat) (ds : List Char)
    (h : dquote ∉ ds) : dquote ∉ Nat.toDigitsCore base fuel n ds := by
  induction fuel generalizing n ds with
  | zero => simpa [Nat.toDigitsCore] using h
  | succ fuel ih =>
    have hcons : dquote ∉ Nat.digitChar (n % base) :: ds := by
      intro hmem
      rcases List.mem_cons.mp hmem with heq | hmem
      · exact digitChar_ne_dquote _ heq.symm
      · exact h hmem
    simp only [Nat.toDigitsCore]
    split
    · exact hcons
    · exact ih _ _ hcons

theorem toString_nat_no_dquote (n : Nat) : dquote ∉ (toString n).toList :=
  toDigitsCore_no_dquote 10 (n + 1) n [] (List.not_mem_nil _)

theorem quotesEscapedFrom_of_not_mem (l : List Char) (prev : Option Char) (h : dquote ∉ l) :
    quotesEscapedFrom prev l = true := by
  induction l generalizing prev with
  | nil => rfl
  | cons c cs ih =>
    have hc : c ≠ dquote := fun heq => h (heq ▸ List.mem_cons_self _ _)
    simp only [quotesEscapedFrom, if_neg hc, Bool.true_and]
    exact ih _ (fun hmem => h (List.mem_cons_of_mem _ hmem))

theorem progressText_no_dquote (i n : Nat) : dquote ∉ (progressText i n).toList := by
  have hslash : dquote ∉ ("/" : String).toList := by decide
  simp only [progressText, String.toList, String.data_append, List.mem_append, not_or]
  exact ⟨⟨toString_nat_no_dquote i, hslash⟩, toString_nat_no_dquote n⟩

theorem scanValue_escaped (l : List Char) (h : backslash ∉ l) :
    scanValue ((l.flatMap fun c => if c = dquote then [backslash, dquote] else [c])
      ++ "\"\x7d".toList)
      = l.flatMap fun c => if c = dquote then [backslash, dquote] else [c] := by
  induction l with
  | nil => decide
  | cons c cs ih =>
    have hcs : backslash ∉ cs := fun hmem => h (List.mem_cons_of_mem _ hmem)
    have hcb : c ≠ backslash := fun heq => h (heq ▸ List.mem_cons_self _ _)
    rw [List.flatMap_cons]
    by_cases hc : c = dquote
    · rw [if_pos hc]
      have hne : backslash ≠ dquote := by decide
      simp only [List.cons_append, List.nil_append, scanValue, if_neg hne, if_true,
        List.append_eq]
      rw [ih hcs]
    · rw [if_neg hc]
      simp only [List.cons_append, List.nil_append]
      generalize hrest : (cs.flatMap fun c => if c = dquote then [backslash, dquote] else [c])
        ++ "\"\x7d".toList = tail at ih
      cases tail with
      | nil => simp at hrest
      | cons d rest =>
        simp only [scanValue, if_neg hc, if_neg hcb]
        rw [ih hcs]

theorem messageValueRead_escapeQuotes (text : String) (h : backslash ∉ text.toList) :
    messageValueRead (escapeQuotes text) = escapeQuotes text := by
  unfold messageValueRead escapeQuotes
  simp only [String.toList, List.asString]
  rw [show ∀ l : List Char, (String.mk l).data = l from fun _ => rfl]
  exact congrArg String.mk (scanValue_escaped text.data h)

theorem RunDownloader_progress_texts {W : Type} (env : Env W) (w : W)
    (paths languages : List String) (credentials : List (String × List (String × String)))
    (m : String)
    (hm : m ∈ messagesOfKind "progress" (RunDownloader env w paths languages credentials true).2) :
    ∃ i n, m = progressText i n := by
  cases hscan : scanVideos env w paths videoExtensions with
  | error err =>
    simp only [RunDownloader, hscan, if_true, messagesOfKind_append] at hm
    simp [messagesOfKind] at hm
  | ok videoFiles =>
    simp only [RunDownloader, hscan, if_true, messagesOfKind_append,
      processVideos_progress] at hm
    simp only [messagesOfKind, List.filterMap_cons, List.filterMap_nil, List.mem_append,
      List.mem_map] at hm
    simp only [show ("log" : String) = "progress" ↔ False from by decide,
      show ("status" : String) = "progress" ↔ False from by decide, if_false, if_true,
      List.not_mem_nil, List.mem_singleton, false_or, or_false] at hm
    rcases hm with h0 | ⟨k, _, hk⟩
    · exact ⟨0, _, h0⟩
    · exact ⟨k, _, hk.symm⟩

theorem RunDownloader_status_texts {W : Type} (env : Env W) (w : W)
    (paths languages : List String) (credentials : List (String × List (String × String)))
    (m : String)
    (hm : m ∈ messagesOfKind "status" (RunDownloader env w paths languages credentials true).2) :
    m = "finished" := by
  cases hscan : scanVideos env w paths videoExtensions with
  | error err =>
    simp only [RunDownloader, hscan, if_true, messagesOfKind_append] at hm
    simp [messagesOfKind] at hm
  | ok videoFiles =>
    simp only [RunDownloader, hscan, if_true, messagesOfKind_append,
      processVideos_status] at hm
    simp only [messagesOfKind, List.filterMap_cons, List.filterMap_nil, List.mem_append] at hm
    simp only [show ("log" : String) = "status" ↔ False from by decide,
      show ("progress" : String) = "status" ↔ False from by decide, if_false, if_true,
      List.not_mem_nil, List.mem_singleton, false_or, or_false] at hm
    exact hm

theorem deliver_published (clock : Nat → String) (evs : List Event) (s : Server) (k : Nat)
    (hp : ∀ m ∈ messagesOfKind "progress" evs, quotesEscaped m = true)
    (hs : ∀ m ∈ messagesOfKind "status" evs, quotesEscaped m = true) :
    ∃ new, (Server.deliver clock s k evs).published = s.published ++ new ∧
      ∀ r ∈ new, ∃ kind text, kind ∈ ["log", "progress", "status"] ∧ r = record kind text ∧
        quotesEscaped text = true := by
  induction evs generalizing s k with
  | nil => exact ⟨[], by simp [Server.deliver], fun r hr => by cases hr⟩
  | cons ev rest ih =>
    have hp1 : ∀ m ∈ messagesOfKind "progress" rest, quotesEscaped m = true := by
      intro m hm
      apply hp
      rw [show ev :: rest = [ev] ++ rest from rfl, messagesOfKind_append]
      exact List.mem_append_right _ hm
    have hs1 : ∀ m ∈ messagesOfKind "status" rest, quotesEscaped m = true := by
      intro m hm
      apply hs
      rw [show ev :: rest = [ev] ++ rest from rfl, messagesOfKind_append]
      exact List.mem_append_right _ hm
    cases ev with
    | callback m t =>
      obtain ⟨new, hnew, hall⟩ := ih (s.statusCallback (clock k) m t) (k + 1) hp1 hs1
      show ∃ new, (Server.deliver clock (s.statusCallback (clock k) m t) (k + 1) rest).published
        = s.published ++ new ∧ _
      rw [hnew]
      by_cases hlog : t = "log"
      · refine ⟨record "log" (escapeQuotes (logEntry (clock k) m)) :: new, ?_, ?_⟩
        · simp [Server.statusCallback, hlog, Server.addLog]
        · intro r hr
          rcases List.mem_cons.mp hr with heq | hmem
          · exact ⟨"log", _, by simp, heq, escapeQuotes_quotesEscaped _⟩
          · exact hall r hmem
      · by_cases hprog : t = "progress"
        · refine ⟨record "progress" m :: new, ?_, ?_⟩
          · simp [Server.statusCallback, hprog, Server.sendProgress]
          · intro r hr
            rcases List.mem_cons.mp hr with heq | hmem
            · refine ⟨"progress", m, by simp, heq, hp m ?_⟩
              rw [show Event.callback m t :: rest = [Event.callback m t] ++ rest from rfl,
                messagesOfKind_append]
              exact List.mem_append_left _ (by simp [messagesOfKind, hprog])
            · exact hall r hmem
        · by_cases hstat : t = "status"
          · refine ⟨record "status" m :: new, ?_, ?_⟩
            · simp [Server.statusCallback, hstat, Server.sendStatus]
            · intro r hr
              rcases List.mem_cons.mp hr with heq | hmem
              · refine ⟨"status", m, by simp, heq, hs m ?_⟩
                rw [show Event.callback m t :: rest = [Event.callback m t] ++ rest from rfl,
                  messagesOfKind_append]
                exact List.mem_append_left _ (by simp [messagesOfKind, hstat])
              · exact hall r hmem
          · refine ⟨new, ?_, hall⟩
            simp [Server.statusCallback, hlog, hprog, hstat]
    | notification a b => exact ih s k hp1 hs1
    | invoke a b c => exact ih s k hp1 hs1
    | returned a b => exact ih s k hp1 hs1

/-- The functions sendProgress and sendStatus embed the text they are given as
it is: called with the text `say "hi"` they would build the record
`{"type":"progress","message":"say "hi""}`. Their only callers pass the
progress and status texts of RunDownloader. In the log record a backslash of
the text is kept as it is, so a JSON reader cuts the value of a log text with
a backslash before a double quote short, although every double quote is
preceded by a backslash. -/
theorem sendProgress_sendStatus_embed_unescaped :
    ((NewServer GetDefaultConfig).sendProgress "say \"hi\"").messageQueue
      = ["\x7b\"type\":\"progress\",\"message\":\"say \"hi\"\"\x7d"] ∧
    ((NewServer GetDefaultConfig).sendStatus "say \"hi\"").messageQueue
      = ["\x7b\"type\":\"status\",\"message\":\"say \"hi\"\"\x7d"] ∧
    messageValueRead "say \"hi\"" = "say " ∧
    escapeQuotes "a\\\"b" = "a\\\\\"b" ∧
    quotesEscaped (escapeQuotes "a\\\"b") = true ∧
    messageValueRead (escapeQuotes "a\\\"b") = "a\\\\" := by
  refine ⟨by decide, by decide, by decide, by decide, by decide, by decide⟩

/-- C12. Stream record escaping. Every record the server builds for the live
stream has the form `{"type":"<kind>","message":"<text>"}` with every double
quote of the embedded text preceded by a backslash. For kind log, for every
message text: addLog embeds the timestamped entry with each double quote
replaced by a backslash and a double quote, and the replayed-history record
does the same with the stored entry (the text `say "hi"` is embedded as
`say \"hi\"`). For the kinds progress and status, for every message text the
server is given, which are the texts RunDownloader passes to its callback in
any environment: a progress text is i/N and the status text is `finished`;
they hold no double quote and are embedded as they are. Hence every record
published by a background task, in every environment and from every server
state, is a record of one of the three kinds whose embedded text has every
double quote preceded by a backslash; and where the text holds no backslash
of its own, a JSON reader takes the whole embedded text as the message value. -/
theorem stream_records_escape_quotes :
    (∀ (s : Server) (now m : String),
      (s.addLog now m).published
        = s.published ++
          ["\x7b\"type\":\"log\",\"message\":\"" ++ escapeQuotes ("[" ++ now ++ "] " ++ m)
            ++ "\"\x7d"] ∧
      quotesEscaped (escapeQuotes ("[" ++ now ++ "] " ++ m)) = true) ∧
    (∀ entry : String,
      seedRecord entry
        = "data: " ++ ("\x7b\"type\":\"log\",\"message\":\"" ++ escapeQuotes entry ++ "\"\x7d")
            ++ "\n\n" ∧
      quotesEscaped (escapeQuotes entry) = true) ∧
    escapeQuotes "say \"hi\"" = "say \\\"hi\\\"" ∧
    quotesEscaped "say \"hi\"" = false ∧
    quotesEscaped "say \\\"hi\\\"" = true ∧
    ((NewServer GetDefaultConfig).addLog "12:00:00" "say \"hi\"").messageQueue
      = ["\x7b\"type\":\"log\",\"message\":\"[12:00:00] say \\\"hi\\\"\"\x7d"] ∧
    seedRecord "[12:00:00] say \"hi\""
      = "data: \x7b\"type\":\"log\",\"message\":\"[12:00:00] say \\\"hi\\\"\"\x7d\n\n" ∧
    ((NewServer GetDefaultConfig).sendProgress (progressText 2 3)).messageQueue
      = ["\x7b\"type\":\"progress\",\"message\":\"2/3\"\x7d"] ∧
    (∀ (W : Type) (env : Env W) (w : W) (paths languages : List String)
        (credentials : List (String × List (String × String))) (m : String),
      m ∈ messagesOfKind "progress" (RunDownloader env w paths languages credentials true).2 →
      dquote ∉ m.toList ∧ quotesEscaped m = true ∧
      ∀ s : Server, (s.sendProgress m).published
        = s.published ++ ["\x7b\"type\":\"progress\",\"message\":\"" ++ m ++ "\"\x7d"]) ∧
    (∀ (W : Type) (env : Env W) (w : W) (paths languages : List String)
        (credentials : List (String × List (String × String))) (m : String),
      m ∈ messagesOfKind "status" (RunDownloader env w paths languages credentials true).2 →
      m = "finished" ∧ quotesEscaped m = true ∧
      ∀ s : Server, (s.sendStatus m).published
        = s.published ++ ["\x7b\"type\":\"status\",\"message\":\"finished\"\x7d"]) ∧
    (∀ (W : Type) (env : Env W) (w : W) (s : Server) (start finish : String)
        (clock : Nat → String),
      ∃ new, (s.backgroundTask env w start finish clock).1.published = s.published ++ new ∧
        ∀ r ∈ new, ∃ kind text, kind ∈ ["log", "progress", "status"] ∧
          r = "\x7b\"type\":\"" ++ kind ++ "\",\"message\":\"" ++ text ++ "\"\x7d" ∧
          quotesEscaped text = true) ∧
    (∀ text : String, backslash ∉ text.toList →
      messageValueRead (escapeQuotes text) = escapeQuotes text) := by
  have hfmt : ∀ kind text : String,
      record kind text = "\x7b\"type\":\"" ++ kind ++ "\",\"message\":\"" ++ text ++ "\"\x7d" :=
    fun _ _ => rfl
  have hlogfmt : ∀ text : String,
      record "log" text = "\x7b\"type\":\"log\",\"message\":\"" ++ text ++ "\"\x7d" :=
    fun _ => rfl
  have hprogfmt : ∀ text : String,
      record "progress" text = "\x7b\"type\":\"progress\",\"message\":\"" ++ text ++ "\"\x7d" :=
    fun _ => rfl
  refine ⟨fun s now m => ⟨?_, escapeQuotes_quotesEscaped _⟩,
    fun entry => ⟨?_, escapeQuotes_quotesEscaped _⟩,
    by decide, by decide, by decide, by decide, by decide, by decide, ?_, ?_, ?_,
    messageValueRead_escapeQuotes⟩
  · rw [← hlogfmt]
    rfl
  · rw [← hlogfmt]
    rfl
  · intro W env w paths languages credentials m hm
    obtain ⟨i, n, hin⟩ := RunDownloader_progress_texts env w paths languages credentials m hm
    subst hin
    refine ⟨progressText_no_dquote i n,
      quotesEscapedFrom_of_not_mem _ none (progressText_no_dquote i n), fun s => ?_⟩
    rw [← hprogfmt]
    rfl
  · intro W env w paths languages credentials m hm
    have hfin := RunDownloader_status_texts env w paths languages credentials m hm
    subst hfin
    exact ⟨rfl, by decide, fun s => rfl⟩
  · intro W env w s start finish clock
    obtain ⟨new, hnew, hall⟩ := deliver_published clock
      (RunDownloader env w s.config.SearchPaths s.config.Languages (credentialsOf s.config)
        true).2
      (s.addLog start "--- BACKGROUND TASK STARTED ---") 0
      (fun m hm => by
        obtain ⟨i, n, hin⟩ := RunDownloader_progress_texts env w _ _ _ m hm
        rw [hin]
        exact quotesEscapedFrom_of_not_mem _ none (progressText_no_dquote i n))
      (fun m hm => by
        rw [RunDownloader_status_texts env w _ _ _ m hm]
        decide)
    refine ⟨record "log" (escapeQuotes (logEntry start "--- BACKGROUND TASK STARTED ---"))
      :: new ++ [record "log" (escapeQuotes (logEntry finish
        "--- BACKGROUND TASK FINISHED ---"))], ?_, ?_⟩
    · show ((Server.deliver clock (s.addLog start "--- BACKGROUND TASK STARTED ---") 0
        (RunDownloader env w s.config.SearchPaths s.config.Languages (credentialsOf s.config)
          true).2).addLog finish "--- BACKGROUND TASK FINISHED ---").taskDone.published = _
      simp only [Server.taskDone]
      have hadd : ∀ (t : Server) (now m : String), (t.addLog now m).published
          = t.published ++ [record "log" (escapeQuotes (logEntry now m))] := fun _ _ _ => rfl
      rw [hadd, hnew, hadd]
      simp
    · intro r hr
      simp only [List.cons_append, List.mem_cons, List.mem_append, List.not_mem_nil,
        or_false] at hr
      rcases hr with heq | hmem | heq
      · exact ⟨"log", _, by simp, by rw [heq, hfmt], escapeQuotes_quotesEscaped _⟩
      · obtain ⟨kind, text, hk, hrec, hq⟩ := hall r hmem
        exact ⟨kind, text, hk, by rw [hrec, hfmt], hq⟩
      · exact ⟨"log", _, by simp, by rw [heq, hfmt], escapeQuotes_quotesEscaped _⟩

/-! ### Scan errors -/

theorem notifications_append (a b : List Event) :
    notifications (a ++ b) = notifications a ++ notifications b := by
  simp [notifications, List.filterMap_append]

theorem notifications_lineEvents (cb : Bool) (lines : List String) :
    notifications (lineEvents cb lines) = [] := by
  induction lines with
  | nil => rfl
  | cons l ls ih =>
    simp only [lineEvents, List.filterMap_cons] at ih ⊢
    split
    · exact ih
    · rename_i ev hev
      split at hev
      · cases hev
        simp only [notifications, List.filterMap_cons]
        exact ih
      · cases hev

theorem notifications_downloadSubtitles {W : Type} (env : Env W) (w : W) (videoPath : String)
    (languages : List String) (credentials : List (String × List (String × String)))
    (cb : Bool) :
    notifications (downloadSubtitles env w videoPath languages credentials cb).events = [] := by
  obtain ⟨lines, h⟩ := downloadSubtitles_events env w videoPath languages credentials cb
  rw [h, show ∀ (x : Event) (l : List Event), x :: l = [x] ++ l from fun _ _ => rfl,
    notifications_append, notifications_lineEvents]
  rfl

theorem processVideos_notifications {W : Type} (env : Env W) (languages : List String)
    (credentials : List (String × List (String × String))) (cb : Bool) (totalVideos : Nat)
    (videoFiles : List String) (i : Nat) (w : W) (d e : Nat) :
    notifications
        (processVideos env languages credentials cb totalVideos videoFiles i w d e).events
      = [] := by
  induction videoFiles generalizing i w d e with
  | nil => rfl
  | cons v rest ih =>
    have hhead : notifications
        (if cb = true then
          [Event.callback ("Processing: " ++ filepathBase v) "log",
           Event.callback (progressText (i + 1) totalVideos) "progress"]
         else []) = [] := by
      cases cb <;> rfl
    have herr : ∀ err : String, notifications
        (if cb = true then
          [Event.callback ("ERROR processing " ++ filepathBase v ++ ": " ++ err) "log"]
         else []) = [] := by
      intro err; cases cb <;> rfl
    simp only [processVideos]
    split
    · simp only [notifications_append, hhead, ih, List.nil_append]
    · split
      · simp only [notifications_append, hhead, herr, ih, notifications_downloadSubtitles]
        simp [notifications]
      · simp only [notifications_append, hhead, ih, notifications_downloadSubtitles]
        simp [notifications]

theorem scanFolders_append {W : Type} (env : Env W) (w : W) (extensions : List String)
    (a : List String) (acc : List String) :
    ∃ mid, scanFolders env w extensions a acc = Except.ok mid ∧
      ∀ b, scanFolders env w extensions (a ++ b) acc = scanFolders env w extensions b mid := by
  induction a generalizing acc with
  | nil => exact ⟨acc, rfl, fun _ => rfl⟩
  | cons f rest ih =>
    have hnone := filepathWalk_scanVisit env extensions (env.walk w f) acc
    rcases hwalk : filepathWalk (scanVisit env extensions) (env.walk w f) acc with ⟨found, e⟩
    rw [hwalk] at hnone
    simp only at hnone
    subst hnone
    obtain ⟨mid, h1, h2⟩ := ih found
    refine ⟨mid, ?_, ?_⟩
    · rw [scanFolders, hwalk]
      exact h1
    · intro b
      rw [List.cons_append, scanFolders, hwalk]
      exact h2 b

theorem scanFolders_skip_error_root {W : Type} (env : Env W) (w : W) (extensions : List String)
    (root : String) (v : Visit) (e : String) (hwalk : env.walk w root = [v])
    (herr : v.err = some e) (post : List String) (acc : List String) :
    scanFolders env w extensions (root :: post) acc = scanFolders env w extensions post acc := by
  rw [scanFolders, hwalk]
  simp [filepathWalk, scanVisit, herr]

/-- C13, counterexample. The root /missing does not exist (`filepath.Walk`
passes the error of `os.Lstat` to the walk function, which returns nil). The
scan of /missing and /m returns the three videos of /m and no error; the run is
not aborted: the progress messages 0/3 to 3/3 are emitted, the tool is invoked
for two files, the run ends with the status finished, and the only
notifications are those of start and completion. -/
theorem missing_root_does_not_abort :
    demoEnv.walk demoWorld "/missing" = [missingRootVisit] ∧
    scanVideos demoEnv demoWorld ["/missing", "/m"] videoExtensions
      = Except.ok ["/m/A.mkv", "/m/B.MP4", "/m/C.avi"] ∧
    messagesOfKind "progress"
        (RunDownloader demoEnv demoWorld ["/missing", "/m"] ["en"] [] true).2
      = ["0/3", "1/3", "2/3", "3/3"] ∧
    invocations (RunDownloader demoEnv demoWorld ["/missing", "/m"] ["en"] [] true).2
      = [("/m/A.mkv", ["en"]), ("/m/B.MP4", ["en"])] ∧
    messagesOfKind "status" (RunDownloader demoEnv demoWorld ["/missing", "/m"] ["en"] [] true).2
      = ["finished"] ∧
    (notifications (RunDownloader demoEnv demoWorld ["/missing", "/m"] ["en"] [] true).2).map
        Prod.fst = ["start", "completion"] ∧
    (messagesOfKind "log"
        (RunDownloader demoEnv demoWorld ["/missing", "/m"] ["en"] [] true).2).filter
        (fun m => "Error scanning videos: ".toList.isPrefixOf m.toList) = [] := by
  refine ⟨by decide, rfl, by decide, by decide, by decide, by decide, by decide⟩

/-- C13, amended. The file scan never returns an error, so no run of
RunDownloader is aborted by the scan: for every environment and every list of
roots the scan returns a list of N files, the progress messages 0/N to N/N are
emitted, the tool is invoked for the files with a missing language, the run
ends with the status finished, and the notifications are those of start and
completion (never that of an error). A root whose visit carries an error (a
missing root) is passed over and contributes no file; a root that is a file is
visited as a file and is taken as a video when its extension matches. -/
theorem RunDownloader_scan_never_aborts {W : Type} (env : Env W) (w : W)
    (paths languages : List String) (credentials : List (String × List (String × String))) :
    (∃ videoFiles, scanVideos env w paths videoExtensions = Except.ok videoFiles ∧
      messagesOfKind "progress" (RunDownloader env w paths languages credentials true).2
        = (List.range (videoFiles.length + 1)).map
            (fun i => toString i ++ "/" ++ toString videoFiles.length) ∧
      invocations (RunDownloader env w paths languages credentials true).2
        = expectedInvocations env.statNotExist
            (fun w1 f ls => (env.exec w1 (subliminalArgs f ls credentials)).1)
            languages videoFiles w ∧
      messagesOfKind "status" (RunDownloader env w paths languages credentials true).2
        = ["finished"] ∧
      (notifications (RunDownloader env w paths languages credentials true).2).map Prod.fst
        = ["start", "completion"]) ∧
    (∀ (pre post : List String) (root : String) (v : Visit) (e : String),
      env.walk w root = [v] → v.err = some e →
      scanVideos env w (pre ++ root :: post) videoExtensions
        = scanVideos env w (pre ++ post) videoExtensions) ∧
    (∀ fileRoot : String,
      env.walk w fileRoot = [{ path := fileRoot, isDir := false, err := none }] →
      scanVideos env w [fileRoot] videoExtensions
        = Except.ok (if videoExtensions.any
            (fun validExt => env.toLower (filepathExt fileRoot) == env.toLower validExt)
          then [fileRoot] else [])) := by
  refine ⟨?_, ?_, ?_⟩
  · obtain ⟨videoFiles, hscan⟩ := scanVideos_ok env w paths videoExtensions
    refine ⟨videoFiles, hscan, ?_, ?_, ?_, ?_⟩
    · simp only [RunDownloader, hscan, if_true, messagesOfKind_append, processVideos_progress]
      rw [List.range_eq_range', List.range'_succ]
      simp [messagesOfKind, progressText]
    · simp only [RunDownloader, hscan, invocations_append, processVideos_invocations]
      simp [invocations]
    · simp only [RunDownloader, hscan, if_true, messagesOfKind_append, processVideos_status]
      simp [messagesOfKind]
    · simp only [RunDownloader, hscan, if_true, notifications_append,
        processVideos_notifications]
      simp [notifications]
  · intro pre post root v e hwalk herr
    unfold scanVideos
    obtain ⟨mid, -, h2⟩ := scanFolders_append env w videoExtensions pre []
    rw [h2, h2, scanFolders_skip_error_root env w videoExtensions root v e hwalk herr]
  · intro fileRoot hfile
    unfold scanVideos
    rw [scanFolders, hfile]
    by_cases hany : (videoExtensions.any fun validExt =>
        env.toLower (filepathExt fileRoot) == env.toLower validExt) = true
    · simp only [filepathWalk, scanVisit, Option.isSome_none, Bool.false_eq_true, if_false,
        if_pos hany, List.nil_append, scanFolders]
    · simp only [filepathWalk, scanVisit, Option.isSome_none, Bool.false_eq_true, if_false,
        if_neg hany, scanFolders]

/-- Witness for C13 amended: the missing root /missing before the root /m, and
an environment in which every root can be read. -/
theorem RunDownloader_scan_never_aborts_witness :
    demoEnv.walk demoWorld "/missing" = [missingRootVisit] ∧
    scanVideos demoEnv demoWorld ([] ++ "/missing" :: ["/m"]) videoExtensions
      = scanVideos demoEnv demoWorld ([] ++ ["/m"]) videoExtensions ∧
    (∃ videoFiles, scanVideos twinEnv [] ["/t"] videoExtensions = Except.ok videoFiles ∧
      messagesOfKind "status" (RunDownloader twinEnv [] ["/t"] ["en"] [] true).2
        = ["finished"]) :=
  ⟨by decide,
   (RunDownloader_scan_never_aborts demoEnv demoWorld ["/missing", "/m"] ["en"] []).2.1
      [] ["/m"] "/missing" missingRootVisit "no such file or directory" (by decide) (by decide),
   (RunDownloader_scan_never_aborts twinEnv [] ["/t"] ["en"] []).1.imp
      fun _ h => ⟨h.1, h.2.2.2.1⟩⟩

/-! ### Progress timing -/

theorem processVideos_append {W : Type} (env : Env W) (languages : List String)
    (credentials : List (String × List (String × String))) (cb : Bool) (totalVideos : Nat)
    (a b : List String) (i : Nat) (w : W) (d e : Nat) :
    (processVideos env languages credentials cb totalVideos (a ++ b) i w d e).events
      = (processVideos env languages credentials cb totalVideos a i w d e).events ++
        (processVideos env languages credentials cb totalVideos b (i + a.length)
          (processVideos env languages credentials cb totalVideos a i w d e).world
          (processVideos env languages credentials cb totalVideos a i w d e).downloadedCount
          (processVideos env languages credentials cb totalVideos a i w d e).errorCount).events
      := by
  induction a generalizing i w d e with
  | nil => simp [processVideos]
  | cons v rest ih =>
    have hidx : i + (v :: rest).length = i + 1 + rest.length := by
      simp only [List.length_cons]; omega
    rw [hidx]
    simp only [List.cons_append, processVideos, List.append_eq]
    split
    · simp only [ih, List.append_assoc]
    · split
      · simp only [ih, List.append_assoc]
      · simp only [ih, List.append_assoc]

theorem processVideos_head {W : Type} (env : Env W) (languages : List String)
    (credentials : List (String × List (String × String))) (totalVideos : Nat)
    (f : String) (post : List String) (i : Nat) (w : W) (d e : Nat) :
    ∃ after,
      (processVideos env languages credentials true totalVideos (f :: post) i w d e).events
        = [Event.callback ("Processing: " ++ filepathBase f) "log",
           Event.callback (progressText (i + 1) totalVideos) "progress"] ++ after := by
  simp only [processVideos, if_true]
  split
  · exact ⟨_, rfl⟩
  · split
    · exact ⟨_, by simp only [List.append_assoc]; rfl⟩
    · exact ⟨_, by simp only [List.append_assoc]; rfl⟩

/-- C14, counterexample. In the example run (three files; the call succeeds for
A.mkv and fails for B.MP4) the progress message 1/3 is emitted before
downloadSubtitles is called for the first file, when no file has been
processed yet, and 2/3 is emitted before the call for the second file and
before its error log. -/
theorem progress_precedes_invocation :
    (RunDownloader demoEnv demoWorld ["/m"] ["en"] [] true).2[4]?
      = some (Event.callback "1/3" "progress") ∧
    (RunDownloader demoEnv demoWorld ["/m"] ["en"] [] true).2[5]?
      = some (Event.invoke "/m/A.mkv" ["en"]
          ["download", "-l", "en", "--force-external-subtitles", "/m/A.mkv"]) ∧
    (RunDownloader demoEnv demoWorld ["/m"] ["en"] [] true).2[7]?
      = some (Event.returned "/m/A.mkv" none) ∧
    returns ((RunDownloader demoEnv demoWorld ["/m"] ["en"] [] true).2.take 5) = [] ∧
    (RunDownloader demoEnv demoWorld ["/m"] ["en"] [] true).2[9]?
      = some (Event.callback "2/3" "progress") ∧
    (RunDownloader demoEnv demoWorld ["/m"] ["en"] [] true).2[10]?
      = some (Event.invoke "/m/B.MP4" ["en"]
          ["download", "-l", "en", "--force-external-subtitles", "/m/B.MP4"]) ∧
    (RunDownloader demoEnv demoWorld ["/m"] ["en"] [] true).2[12]?
      = some (Event.returned "/m/B.MP4" (some "subliminal failed: exit status 1")) ∧
    (RunDownloader demoEnv demoWorld ["/m"] ["en"] [] true).2[13]?
      = some (Event.callback
          "ERROR processing B.MP4: subliminal failed: exit status 1" "log") := by
  refine ⟨by decide, by decide, by decide, by decide, by decide, by decide, by decide,
    by decide⟩

/-- C14, amended. For every run of RunDownloader with a status callback whose
scan returns N files and for the file at position i (counted from 1), the
progress message "i/N" is emitted when that file is begun: directly after the
log "Processing: <name>" of the file. Before it come the progress messages 0/N
to (i-1)/N and the calls of downloadSubtitles for the earlier files, all of
which have returned, so i-1 files have been processed; the call for the file
itself (if any), its return and its error log come after the message. -/
theorem progress_emitted_at_start {W : Type} (env : Env W) (w : W)
    (paths languages : List String) (credentials : List (String × List (String × String)))
    (pre : List String) (f : String) (post : List String)
    (hscan : scanVideos env w paths videoExtensions = Except.ok (pre ++ f :: post)) :
    ∃ (before after : List Event) (w1 : W),
      (RunDownloader env w paths languages credentials true).2
        = before ++
          [Event.callback ("Processing: " ++ filepathBase f) "log",
           Event.callback
            (toString (pre.length + 1) ++ "/" ++ toString (pre ++ f :: post).length)
            "progress"] ++ after ∧
      messagesOfKind "progress" before
        = (List.range (pre.length + 1)).map
            (fun i => toString i ++ "/" ++ toString (pre ++ f :: post).length) ∧
      invocations before
        = expectedInvocations env.statNotExist
            (fun w2 g ls => (env.exec w2 (subliminalArgs g ls credentials)).1)
            languages pre w ∧
      (returns before).length = (invocations before).length ∧
      invocations after
        = expectedInvocations env.statNotExist
            (fun w2 g ls => (env.exec w2 (subliminalArgs g ls credentials)).1)
            languages (f :: post) w1 ∧
      (returns after).length = (invocations after).length := by
  obtain ⟨aft, haft⟩ := processVideos_head env languages credentials (pre ++ f :: post).length
    f post (0 + pre.length)
    (processVideos env languages credentials true (pre ++ f :: post).length pre 0 w 0 0).world
    (processVideos env languages credentials true (pre ++ f :: post).length pre 0 w 0
      0).downloadedCount
    (processVideos env languages credentials true (pre ++ f :: post).length pre 0 w 0
      0).errorCount
  have hsplit := processVideos_append env languages credentials true (pre ++ f :: post).length
    pre (f :: post) 0 w 0 0
  have hinvB := processVideos_invocations env languages credentials true
    (pre ++ f :: post).length (f :: post) (0 + pre.length)
    (processVideos env languages credentials true (pre ++ f :: post).length pre 0 w 0 0).world
    (processVideos env languages credentials true (pre ++ f :: post).length pre 0 w 0
      0).downloadedCount
    (processVideos env languages credentials true (pre ++ f :: post).length pre 0 w 0
      0).errorCount
  have hcntA := (processVideos_counts env languages credentials true
    (pre ++ f :: post).length pre 0 w 0 0).2.2
  have hcntB := (processVideos_counts env languages credentials true
    (pre ++ f :: post).length (f :: post) (0 + pre.length)
    (processVideos env languages credentials true (pre ++ f :: post).length pre 0 w 0 0).world
    (processVideos env languages credentials true (pre ++ f :: post).length pre 0 w 0
      0).downloadedCount
    (processVideos env languages credentials true (pre ++ f :: post).length pre 0 w 0
      0).errorCount).2.2
  rw [haft] at hinvB hcntB
  rw [haft] at hsplit
  refine ⟨[Event.callback "Starting scan and download process..." "log",
      Event.notification "start" "Download process started.",
      Event.callback (progressText 0 (pre ++ f :: post).length) "progress"] ++
      (processVideos env languages credentials true (pre ++ f :: post).length pre 0 w 0
        0).events,
    aft ++ [Event.callback
        (summaryText
          (processVideos env languages credentials true (pre ++ f :: post).length
            (pre ++ f :: post) 0 w 0 0).downloadedCount
          (processVideos env languages credentials true (pre ++ f :: post).length
            (pre ++ f :: post) 0 w 0 0).errorCount) "log",
      Event.callback "finished" "status",
      Event.notification "completion"
        (summaryText
          (processVideos env languages credentials true (pre ++ f :: post).length
            (pre ++ f :: post) 0 w 0 0).downloadedCount
          (processVideos env languages credentials true (pre ++ f :: post).length
            (pre ++ f :: post) 0 w 0 0).errorCount)],
    (processVideos env languages credentials true (pre ++ f :: post).length pre 0 w 0 0).world,
    ?_, ?_, ?_, ?_, ?_, ?_⟩
  · simp only [RunDownloader, hscan, if_true, hsplit, progressText, Nat.zero_add,
      List.append_assoc, List.cons_append, List.nil_append]
  · simp only [messagesOfKind_append, processVideos_progress]
    rw [List.range_eq_range', List.range'_succ]
    simp [messagesOfKind, progressText]
  · simp only [invocations_append, processVideos_invocations]
    simp [invocations]
  · have h3r : returns
        [Event.callback "Starting scan and download process..." "log",
         Event.notification "start" "Download process started.",
         Event.callback (progressText 0 (pre ++ f :: post).length) "progress"] = [] := rfl
    have h3i : invocations
        [Event.callback "Starting scan and download process..." "log",
         Event.notification "start" "Download process started.",
         Event.callback (progressText 0 (pre ++ f :: post).length) "progress"] = [] := rfl
    rw [returns_append, invocations_append, h3r, h3i, List.nil_append, List.nil_append]
    exact hcntA
  · simp only [invocations_append] at hinvB ⊢
    rw [← hinvB]
    simp [invocations]
  · simp only [returns_append, invocations_append, List.length_append] at hcntB ⊢
    simp only [returns, invocations, List.filterMap_cons, List.filterMap_nil, List.length_nil,
      Nat.zero_add, Nat.add_zero] at hcntB ⊢
    exact hcntB

/-- Witness for C14 amended: the second file of the example run. -/
theorem progress_emitted_at_start_witness :
    scanVideos demoEnv demoWorld ["/m"] videoExtensions
      = Except.ok (["/m/A.mkv"] ++ "/m/B.MP4" :: ["/m/C.avi"]) ∧
    ∃ (before after : List Event) (w1 : List String),
      (RunDownloader demoEnv demoWorld ["/m"] ["en"] [] true).2
        = before ++
          [Event.callback ("Processing: " ++ filepathBase "/m/B.MP4") "log",
           Event.callback
            (toString (["/m/A.mkv"].length + 1) ++ "/" ++
              toString (["/m/A.mkv"] ++ "/m/B.MP4" :: ["/m/C.avi"]).length)
            "progress"] ++ after ∧
      messagesOfKind "progress" before
        = (List.range (["/m/A.mkv"].length + 1)).map
            (fun i => toString i ++ "/" ++
              toString (["/m/A.mkv"] ++ "/m/B.MP4" :: ["/m/C.avi"]).length) ∧
      invocations before
        = expectedInvocations demoEnv.statNotExist
            (fun w2 g ls => (demoEnv.exec w2 (subliminalArgs g ls [])).1)
            ["en"] ["/m/A.mkv"] demoWorld ∧
      (returns before).length = (invocations before).length ∧
      invocations after
        = expectedInvocations demoEnv.statNotExist
            (fun w2 g ls => (demoEnv.exec w2 (subliminalArgs g ls [])).1)
            ["en"] ("/m/B.MP4" :: ["/m/C.avi"]) w1 ∧
      (returns after).length = (invocations after).length :=
  ⟨rfl, progress_emitted_at_start demoEnv demoWorld ["/m"] ["en"] [] ["/m/A.mkv"] "/m/B.MP4"
    ["/m/C.avi"] rfl⟩

/-! ### Command line of the subliminal tool -/

theorem mapGet_eq (m : List (String × String)) (key : String) :
    mapGet m key = (match m.lookup key with
      | some value => value
      | none => "") := by
  unfold mapGet
  cases m.lookup key <;> rfl

theorem userPasswordFlags_eq (credentials : List (String × List (String × String)))
    (provider userFlag passwordFlag : String)
    (hu : "--provider." ++ provider ++ ".username" = userFlag)
    (hp : "--provider." ++ provider ++ ".password" = passwordFlag) :
    (match credentials.lookup provider with
      | some creds =>
        if mapGet creds "username" ≠ "" then
          [userFlag, mapGet creds "username", passwordFlag, mapGet creds "password"]
        else []
      | none => []) = userPasswordFlags credentials provider := by
  unfold userPasswordFlags credential
  cases h : credentials.lookup provider with
  | none => simp
  | some creds => simp only [hu, hp, mapGet_eq]

theorem apikeyFlags_eq (credentials : List (String × List (String × String)))
    (front : List (String × String) → List String) :
    (match credentials.lookup "opensubtitlescom" with
      | some creds =>
        front creds ++
        (if mapGet creds "api_key" ≠ "" then
          ["--provider.opensubtitlescom.apikey", mapGet creds "api_key"]
         else [])
      | none => [])
    = (match credentials.lookup "opensubtitlescom" with
      | some creds => front creds
      | none => []) ++ apikeyFlags credentials := by
  unfold apikeyFlags credential
  cases h : credentials.lookup "opensubtitlescom" with
  | none => simp
  | some creds => simp only [mapGet_eq]

/-- C15. Command-line construction in downloadSubtitles. For every video path,
language list and credentials map, the argument list given to the subliminal
tool is: the username and password flags of opensubtitles, of opensubtitlescom
(followed by its apikey flag) and of addic7ed, each pair of flags present if
and only if the username of the provider is not empty and the apikey flag if
and only if the api_key is not empty; then "download"; then "-l" and the
language for every language in the given order; then
"--force-external-subtitles"; and the video path as the last argument. This
list is what downloadSubtitles runs the tool with. For the credentials map the
callers build from a configuration the list is given from the fields of the
configuration, and three argument lists are written out in full: all three
providers configured, a provider with an api key but no username, and no
credentials at all. -/
theorem subliminalArgs_layout {W : Type} (env : Env W) (w : W) (videoPath : String)
    (languages : List String) (credentials : List (String × List (String × String)))
    (cb : Bool) (cfg : Config) :
    subliminalArgs videoPath languages credentials
      = expectedArgs videoPath languages credentials ∧
    (subliminalArgs videoPath languages credentials).getLast? = some videoPath ∧
    (downloadSubtitles env w videoPath languages credentials cb).events.head?
      = some (Event.invoke videoPath languages (expectedArgs videoPath languages credentials)) ∧
    (downloadSubtitles env w videoPath languages credentials cb).world
      = (env.exec w (expectedArgs videoPath languages credentials)).1 ∧
    subliminalArgs videoPath languages (credentialsOf cfg)
      = (if cfg.Credentials.Opensubtitles.Username ≠ "" then
          ["--provider.opensubtitles.username", cfg.Credentials.Opensubtitles.Username,
           "--provider.opensubtitles.password", cfg.Credentials.Opensubtitles.Password]
         else []) ++
        (if cfg.Credentials.Opensubtitlescom.Username ≠ "" then
          ["--provider.opensubtitlescom.username", cfg.Credentials.Opensubtitlescom.Username,
           "--provider.opensubtitlescom.password", cfg.Credentials.Opensubtitlescom.Password]
         else []) ++
        (if cfg.Credentials.Opensubtitlescom.APIKey ≠ "" then
          ["--provider.opensubtitlescom.apikey", cfg.Credentials.Opensubtitlescom.APIKey]
         else []) ++
        (if cfg.Credentials.Addic7ed.Username ≠ "" then
          ["--provider.addic7ed.username", cfg.Credentials.Addic7ed.Username,
           "--provider.addic7ed.password", cfg.Credentials.Addic7ed.Password]
         else []) ++
        ["download"] ++ (languages.flatMap fun lang => ["-l", lang]) ++
        ["--force-external-subtitles", videoPath] ∧
    subliminalArgs "/m/A.mkv" ["en", "es"] (credentialsOf fullCredentialsConfig)
      = ["--provider.opensubtitles.username", "u1", "--provider.opensubtitles.password", "p1",
         "--provider.opensubtitlescom.username", "u2",
         "--provider.opensubtitlescom.password", "p2",
         "--provider.opensubtitlescom.apikey", "k2",
         "--provider.addic7ed.username", "u3", "--provider.addic7ed.password", "",
         "download", "-l", "en", "-l", "es", "--force-external-subtitles", "/m/A.mkv"] ∧
    subliminalArgs "/m/A.mkv" ["en", "es"] demoCredentials
      = ["--provider.opensubtitles.username", "u", "--provider.opensubtitles.password", "p",
         "--provider.opensubtitlescom.apikey", "k",
         "download", "-l", "en", "-l", "es", "--force-external-subtitles", "/m/A.mkv"] ∧
    subliminalArgs "/m/A.mkv" ["en"] []
      = ["download", "-l", "en", "--force-external-subtitles", "/m/A.mkv"] := by
  have hargs : subliminalArgs videoPath languages credentials
      = expectedArgs videoPath languages credentials := by
    unfold subliminalArgs expectedArgs
    simp only []
    rw [userPasswordFlags_eq credentials "opensubtitles" _ _ (by decide) (by decide),
      userPasswordFlags_eq credentials "addic7ed" _ _ (by decide) (by decide),
      apikeyFlags_eq credentials (fun creds =>
        if mapGet creds "username" ≠ "" then
          ["--provider.opensubtitlescom.username", mapGet creds "username",
           "--provider.opensubtitlescom.password", mapGet creds "password"]
        else []),
      userPasswordFlags_eq credentials "opensubtitlescom" _ _ (by decide) (by decide)]
  refine ⟨hargs, ?_, ?_, ?_, ?_, by decide, by decide, by decide⟩
  · rw [hargs]
    unfold expectedArgs
    rw [List.getLast?_append]
    rfl
  · obtain ⟨lines, h⟩ := downloadSubtitles_events env w videoPath languages credentials cb
    rw [h, hargs]
    rfl
  · rw [downloadSubtitles_world, hargs]
  · simp [subliminalArgs, credentialsOf, mapGet, List.lookup]

end Subtitlarr
